import Mathlib

/-!
# simple_ros: wire codec, in-process queue, coordinator graph and push channel

A shallow embedding of the parts of the repository that the specification's
testable properties talk about, followed by the theorems that settle them.

* `std::string` used as a byte buffer is `List Byte`; names that are only ever
  compared (node names, topic names, type names inside the coordinator) are `String`.
* `std::unordered_map` is an association list, `std::unordered_set` a list used as a
  set.  The iteration order of the C++ containers is unspecified; the list order
  stands for whatever order the hash table happens to have.
* `uint16_t` / `uint32_t` values are natural numbers, reduced with `% 2 ^ w`
  wherever the C++ truncates or wraps.
-/

namespace SimpleRos

/-! ## Bytes and big-endian length fields -/

/-- One octet of a `std::string` / `muduo::net::Buffer`. -/
abbrev Byte := Fin 256

/-- Least significant octet of a number. -/
def octet (n : Nat) : Byte := ⟨n % 256, Nat.mod_lt _ (by decide)⟩

/-- The two octets appended for `htons(static_cast<uint16_t>(n))`: the value is
truncated to 16 bits and written most significant octet first. -/
def htons (n : Nat) : List Byte := [octet (n / 256), octet n]

/-- The four octets appended for `htonl(static_cast<uint32_t>(n))`. -/
def htonl (n : Nat) : List Byte :=
  [octet (n / 16777216), octet (n / 65536), octet (n / 256), octet n]

/-- Value of `memcpy(&x, buf->peek() + off, 2); x = ntohs(x)`. -/
def ntohs (buf : List Byte) (off : Nat) : Nat :=
  (buf.getD off 0).val * 256 + (buf.getD (off + 1) 0).val

/-- Value of `memcpy(&x, buf->peek() + off, 4); x = ntohl(x)`. -/
def ntohl (buf : List Byte) (off : Nat) : Nat :=
  (buf.getD off 0).val * 16777216 + (buf.getD (off + 1) 0).val * 65536
    + (buf.getD (off + 2) 0).val * 256 + (buf.getD (off + 3) 0).val

/-! ## Publisher side: the frame built by `Publisher<T>::publish` -/

/-- The local `buffer` of `Publisher<T>::publish` (publisher.inl, lines 73-89) for
topic `topic_`, type name `msgType_` and serialized payload `msg_data`. -/
def Publisher.publishBuffer (topic_ msgType_ msg_data : List Byte) : List Byte :=
  htons topic_.length ++ topic_ ++ (htons msgType_.length ++ msgType_)
    ++ (htonl msg_data.length ++ msg_data)

/-! ## Listener side: `PollManager::onMessage` -/

/-- The three arguments of one `handleMessage(topic, msg_name, msg_data)` call. -/
structure Frame where
  topic : List Byte
  msg_name : List Byte
  msg_data : List Byte
deriving DecidableEq, Repr

/-- What one pass through the body of the `while` loop of `onMessage` does. -/
inductive Pass where
  /-- The loop is left: the `while` condition fails or one of the `break`s is taken. -/
  | stop : Pass
  /-- The checks pass but `msg_data` is constructed from more octets than are readable
  (possible only when the 32-bit size computation wrapped): undefined behaviour. -/
  | overread : Pass
  /-- A frame is handed to `handleMessage` and `retrieve(consumed)` is called. -/
  | handle (f : Frame) (consumed : Nat) : Pass
deriving DecidableEq, Repr

/-- One pass of the loop body of `PollManager::onMessage` (poll_manager.cpp, lines 38-83)
on the readable octets `buf`.  The sums up to `+ 4` are `int` arithmetic and cannot
overflow; adding the `uint32_t msg_len` makes the last sum unsigned 32-bit. -/
def PollManager.onMessagePass (buf : List Byte) : Pass :=
  if buf.length < 2 then .stop else
  let topic_len := ntohs buf 0
  if buf.length < 2 + topic_len then .stop else
  let topic := (buf.drop 2).take topic_len
  if buf.length < 2 + topic_len + 2 then .stop else
  let msg_name_len := ntohs buf (2 + topic_len)
  if buf.length < 2 + topic_len + 2 + msg_name_len then .stop else
  let msg_name := (buf.drop (2 + topic_len + 2)).take msg_name_len
  if buf.length < 2 + topic_len + 2 + msg_name_len + 4 then .stop else
  let msg_len := ntohl buf (2 + topic_len + 2 + msg_name_len)
  let size := (2 + topic_len + 2 + msg_name_len + 4 + msg_len) % 2 ^ 32
  if buf.length < size then .stop else
  if buf.length < 2 + topic_len + 2 + msg_name_len + 4 + msg_len then .overread else
  .handle ⟨topic, msg_name, (buf.drop (2 + topic_len + 2 + msg_name_len + 4)).take msg_len⟩ size

/-- How a run of `onMessage` ends. -/
inductive Exit where
  /-- The function returned. -/
  | returned : Exit
  /-- It read past the readable octets. -/
  | overread : Exit
  /-- The loop was still running when the fuel of the model ran out. -/
  | outOfFuel : Exit
deriving DecidableEq, Repr

/-- Result of a run of `onMessage`: the `handleMessage` calls made, in order, the
octets left in the buffer, and how the run ended. -/
structure Run where
  handled : List Frame
  buf : List Byte
  exit : Exit
deriving DecidableEq, Repr

/-- The `while` loop of `PollManager::onMessage`, at most `fuel` passes.
`Buffer::retrieve(n)` drops `n` readable octets. -/
def PollManager.onMessage : Nat → List Byte → Run
  | 0, buf => ⟨[], buf, .outOfFuel⟩
  | fuel + 1, buf =>
    match PollManager.onMessagePass buf with
    | .stop => ⟨[], buf, .returned⟩
    | .overread => ⟨[], buf, .overread⟩
    | .handle f consumed =>
      let r := PollManager.onMessage fuel (buf.drop consumed)
      ⟨f :: r.handled, r.buf, r.exit⟩



/-! ## Containers -/

/-- `std::unordered_map::find`: the value stored under `k`, if any. -/
def Assoc.find {κ β : Type} [DecidableEq κ] : List (κ × β) → κ → Option β
  | [], _ => none
  | (k', v) :: r, k => if k' = k then some v else Assoc.find r k

/-- Assignment `m[k] = v`: the entry of `k` is overwritten where it stands, a new key
gets a new entry. -/
def Assoc.set {κ β : Type} [DecidableEq κ] : List (κ × β) → κ → β → List (κ × β)
  | [], k, v => [(k, v)]
  | (k', v') :: r, k, v => if k' = k then (k, v) :: r else (k', v') :: Assoc.set r k v

/-- `std::unordered_map::erase(k)`. -/
def Assoc.erase {κ β : Type} [DecidableEq κ] (m : List (κ × β)) (k : κ) : List (κ × β) :=
  m.filter (fun e => decide (e.1 ≠ k))

/-- `std::unordered_set::insert(x)`: no effect when `x` is already a member. -/
def insertSet {α : Type} [DecidableEq α] (x : α) (s : List α) : List α :=
  if x ∈ s then s else s ++ [x]

/-- `std::unordered_set::erase(x)`. -/
def eraseSet {α : Type} [DecidableEq α] (x : α) (s : List α) : List α :=
  s.filter (fun y => decide (y ≠ x))

/-! ## In-process queue (`message_queue.h`) -/

/-- A `std::shared_ptr<google::protobuf::Message>`; the queue never looks inside a
message, so a message is represented by an identifier. -/
abbrev Message := Nat

/-- A registered `MessageQueue::Callback`, represented by an identifier. -/
abbrev Callback := Nat

/-- The data members of `MessageQueue`. -/
structure MessageQueue where
  default_max_queue_size_ : Nat
  registered_topics_ : List String
  topic_max_queue_sizes_ : List (String × Nat)
  message_queues_ : List (String × List Message)
  subscribers_ : List (String × List Callback)
deriving DecidableEq, Repr

/-- One invocation `callback(msg)` made by `processCallbacks` for a callback registered
under `topic`. -/
structure Invocation where
  topic : String
  callback : Callback
  msg : Message
deriving DecidableEq, Repr

/-- The state built by `MessageQueue(uint32_t default_max_queue_size = 1000)`. -/
def MessageQueue.new (default_max_queue_size : Nat) : MessageQueue :=
  ⟨default_max_queue_size, [], [], [], []⟩

/-- Translation of `MessageQueue::setTopicMaxQueueSize`. -/
def MessageQueue.setTopicMaxQueueSize (q : MessageQueue) (topic : String) (max_size : Nat) :
    MessageQueue :=
  { q with topic_max_queue_sizes_ := Assoc.set q.topic_max_queue_sizes_ topic max_size }

/-- Translation of `MessageQueue::addSubscriber`. -/
def MessageQueue.addSubscriber (q : MessageQueue) (topic : String) (cb : Callback) :
    MessageQueue :=
  { q with subscribers_ :=
      Assoc.set q.subscribers_ topic (((Assoc.find q.subscribers_ topic).getD []) ++ [cb]) }

/-- Translation of `MessageQueue::removeSubscriber`. -/
def MessageQueue.removeSubscriber (q : MessageQueue) (topic : String) : MessageQueue :=
  { q with
    subscribers_ := Assoc.erase q.subscribers_ topic
    message_queues_ := Assoc.erase q.message_queues_ topic
    topic_max_queue_sizes_ := Assoc.erase q.topic_max_queue_sizes_ topic
    registered_topics_ := eraseSet topic q.registered_topics_ }

/-- Translation of `MessageQueue::registerTopic`. -/
def MessageQueue.registerTopic (q : MessageQueue) (topic : String) : MessageQueue :=
  if topic ∈ q.registered_topics_ then q
  else { q with registered_topics_ := insertSet topic q.registered_topics_ }

/-- The local `max_size` of `MessageQueue::push`: the per-topic size when one is set,
the default otherwise. -/
def MessageQueue.maxSize (q : MessageQueue) (topic : String) : Nat :=
  match Assoc.find q.topic_max_queue_sizes_ topic with
  | some n => n
  | none => q.default_max_queue_size_

/-- Translation of `MessageQueue::push`.  The result is `none` when the code calls
`pop_front()` on an empty `std::list`, which is undefined behaviour. -/
def MessageQueue.push (q : MessageQueue) (topic : String) (msg : Message) :
    Option MessageQueue :=
  if topic ∉ q.registered_topics_ then some q
  else
    let max_size := q.maxSize topic
    let queue := (Assoc.find q.message_queues_ topic).getD []
    if queue.length ≥ max_size then
      match queue with
      | [] => none
      | _ :: rest =>
        some { q with message_queues_ := Assoc.set q.message_queues_ topic (rest ++ [msg]) }
    else
      some { q with message_queues_ := Assoc.set q.message_queues_ topic (queue ++ [msg]) }

/-- The `for` loop of `processCallbacks` over `message_queues_`: the first entry whose
queue is not empty loses its front message; the result is that entry's topic, the
message, and the map after the `pop_front`. -/
def MessageQueue.popFirst :
    List (String × List Message) → Option (String × Message × List (String × List Message))
  | [] => none
  | (topic, []) :: r =>
    match MessageQueue.popFirst r with
    | none => none
    | some (t, m, r') => some (t, m, (topic, []) :: r')
  | (topic, m :: queue) :: r => some (topic, m, (topic, queue) :: r)

/-- Translation of `MessageQueue::processCallbacks`: the new state and the callback
invocations made, in order. -/
def MessageQueue.processCallbacks (q : MessageQueue) : MessageQueue × List Invocation :=
  match MessageQueue.popFirst q.message_queues_ with
  | none => (q, [])
  | some (topic, msg, queues) =>
    ({ q with message_queues_ := queues },
      ((Assoc.find q.subscribers_ topic).getD []).map (fun cb => ⟨topic, cb, msg⟩))

/-- Push the messages one after the other, with no drain in between. -/
def MessageQueue.pushAll (q : MessageQueue) (topic : String) :
    List Message → Option MessageQueue
  | [] => some q
  | m :: ms =>
    match q.push topic m with
    | none => none
    | some q' => MessageQueue.pushAll q' topic ms

/-- Call `processCallbacks` `n` times; the invocations of all the calls, in order. -/
def MessageQueue.drain : Nat → MessageQueue → MessageQueue × List Invocation
  | 0, q => (q, [])
  | n + 1, q =>
    let r := q.processCallbacks
    let r' := MessageQueue.drain n r.1
    (r'.1, r.2 ++ r'.2)

/-- Number of messages waiting in all the queues. -/
def MessageQueue.pending (q : MessageQueue) : Nat :=
  (q.message_queues_.map (fun e => e.2.length)).sum

/-- All the messages stored for `topic`, in order. -/
def queued (qs : List (String × List Message)) (topic : String) : List Message :=
  qs.flatMap (fun e => if e.1 = topic then e.2 else [])

/-- The invocations that delivering `msgs` to the callbacks of `topic` consists of. -/
def invocationsFor (q : MessageQueue) (topic : String) (msgs : List Message) : List Invocation :=
  msgs.flatMap (fun m => ((Assoc.find q.subscribers_ topic).getD []).map (fun cb => ⟨topic, cb, m⟩))

/-! ## Coordinator graph (`message_graph.h`, `message_graph.cpp`) -/

/-- The fields of the protobuf message `NodeInfo` that the code reads. -/
structure NodeInfo where
  node_name : String
  ip : String
  port : Int
deriving DecidableEq, Repr

/-- Translation of `struct TopicKey`. -/
structure TopicKey where
  topic : String
  msg_type : String
deriving DecidableEq, Repr

/-- Translation of `struct Edge`. -/
structure Edge where
  src_node : String
  dst_node : String
  key : TopicKey
deriving DecidableEq, Repr

/-- Translation of `struct NodeVertex`. -/
structure NodeVertex where
  info : NodeInfo
  publishes : List TopicKey
  subscribes : List TopicKey
deriving DecidableEq, Repr

/-- A default-constructed `NodeVertex`, as created by `nodes_[name]` for a new name. -/
def NodeVertex.default : NodeVertex := ⟨⟨"", "", 0⟩, [], []⟩

/-- The data members of `MessageGraph`. -/
structure MessageGraph where
  nodes_ : List (String × NodeVertex)
  publishers_by_topic_ : List (TopicKey × List String)
  subscribers_by_topic_ : List (TopicKey × List String)
  edges_ : List Edge
deriving DecidableEq, Repr

/-- A freshly constructed `MessageGraph`. -/
def MessageGraph.empty : MessageGraph := ⟨[], [], [], []⟩

/-- Translation of `MessageGraph::UpsertNode`. -/
def MessageGraph.UpsertNode (g : MessageGraph) (info : NodeInfo) : MessageGraph :=
  let v := (Assoc.find g.nodes_ info.node_name).getD NodeVertex.default
  { g with nodes_ := Assoc.set g.nodes_ info.node_name { v with info := info } }

/-- Translation of `MessageGraph::ConnectPublisherToSubscribers`. -/
def MessageGraph.ConnectPublisherToSubscribers (g : MessageGraph) (pub_node : String)
    (k : TopicKey) : MessageGraph :=
  match Assoc.find g.subscribers_by_topic_ k with
  | none => g
  | some subs =>
    { g with edges_ := subs.foldl (fun es sub => insertSet ⟨pub_node, sub, k⟩ es) g.edges_ }

/-- Translation of `MessageGraph::ConnectPublishersToSubscriber`. -/
def MessageGraph.ConnectPublishersToSubscriber (g : MessageGraph) (sub_node : String)
    (k : TopicKey) : MessageGraph :=
  match Assoc.find g.publishers_by_topic_ k with
  | none => g
  | some pubs =>
    { g with edges_ := pubs.foldl (fun es pub => insertSet ⟨pub, sub_node, k⟩ es) g.edges_ }

/-- Translation of `MessageGraph::AddPublisher`. -/
def MessageGraph.AddPublisher (g : MessageGraph) (node : NodeInfo) (k : TopicKey) :
    MessageGraph :=
  let g1 := g.UpsertNode node
  let v := (Assoc.find g1.nodes_ node.node_name).getD NodeVertex.default
  let g2 := { g1 with
    nodes_ := Assoc.set g1.nodes_ node.node_name { v with publishes := insertSet k v.publishes } }
  let g3 := { g2 with
    publishers_by_topic_ := Assoc.set g2.publishers_by_topic_ k
      (insertSet node.node_name ((Assoc.find g2.publishers_by_topic_ k).getD [])) }
  g3.ConnectPublisherToSubscribers node.node_name k

/-- Translation of `MessageGraph::AddSubscriber`. -/
def MessageGraph.AddSubscriber (g : MessageGraph) (node : NodeInfo) (k : TopicKey) :
    MessageGraph :=
  let g1 := g.UpsertNode node
  let v := (Assoc.find g1.nodes_ node.node_name).getD NodeVertex.default
  let g2 := { g1 with
    nodes_ := Assoc.set g1.nodes_ node.node_name
      { v with subscribes := insertSet k v.subscribes } }
  let g3 := { g2 with
    subscribers_by_topic_ := Assoc.set g2.subscribers_by_topic_ k
      (insertSet node.node_name ((Assoc.find g2.subscribers_by_topic_ k).getD [])) }
  g3.ConnectPublishersToSubscriber node.node_name k

/-- Translation of `MessageGraph::RemoveEdgesBy`: collect the edges to erase, then erase
them one by one. -/
def MessageGraph.RemoveEdgesBy (g : MessageGraph) (node : String) (k : TopicKey)
    (node_is_publisher : Bool) : MessageGraph :=
  let to_erase := g.edges_.filter (fun e =>
    decide (e.key.topic = k.topic ∧ e.key.msg_type = k.msg_type) &&
      ((node_is_publisher && decide (e.src_node = node)) ||
        (!node_is_publisher && decide (e.dst_node = node))))
  { g with edges_ := to_erase.foldl (fun es e => eraseSet e es) g.edges_ }

/-- Translation of `MessageGraph::CleanupIsolatedNodeIfAny`. -/
def MessageGraph.CleanupIsolatedNodeIfAny (g : MessageGraph) (node_name : String) :
    MessageGraph :=
  match Assoc.find g.nodes_ node_name with
  | none => g
  | some v =>
    let has_pub := !v.publishes.isEmpty
    let has_sub := !v.subscribes.isEmpty
    if has_pub || has_sub then g
    else if g.edges_.any (fun e => decide (e.src_node = node_name ∨ e.dst_node = node_name))
    then g
    else { g with nodes_ := Assoc.erase g.nodes_ node_name }

/-- The index update shared by `RemovePublisher` and `RemoveSubscriber`
(message_graph.cpp, lines 63-67 and 77-81): when the key has an entry, the node is erased
from it, and the entry itself is erased when that leaves it empty. -/
def eraseFromIndex (index : List (TopicKey × List String)) (node_name : String)
    (k : TopicKey) : List (TopicKey × List String) :=
  match Assoc.find index k with
  | some names =>
    let names' := eraseSet node_name names
    if names'.isEmpty then Assoc.erase index k else Assoc.set index k names'
  | none => index

/-- Translation of `MessageGraph::RemovePublisher`. -/
def MessageGraph.RemovePublisher (g : MessageGraph) (node : NodeInfo) (k : TopicKey) :
    MessageGraph :=
  let nodes1 := match Assoc.find g.nodes_ node.node_name with
    | some v =>
      Assoc.set g.nodes_ node.node_name { v with publishes := eraseSet k v.publishes }
    | none => g.nodes_
  let g2 := { g with
    nodes_ := nodes1
    publishers_by_topic_ := eraseFromIndex g.publishers_by_topic_ node.node_name k }
  (g2.RemoveEdgesBy node.node_name k true).CleanupIsolatedNodeIfAny node.node_name

/-- Translation of `MessageGraph::RemoveSubscriber`. -/
def MessageGraph.RemoveSubscriber (g : MessageGraph) (node : NodeInfo) (k : TopicKey) :
    MessageGraph :=
  let nodes1 := match Assoc.find g.nodes_ node.node_name with
    | some v =>
      Assoc.set g.nodes_ node.node_name { v with subscribes := eraseSet k v.subscribes }
    | none => g.nodes_
  let g2 := { g with
    nodes_ := nodes1
    subscribers_by_topic_ := eraseFromIndex g.subscribers_by_topic_ node.node_name k }
  (g2.RemoveEdgesBy node.node_name k false).CleanupIsolatedNodeIfAny node.node_name

/-- The lookup loop shared by `GetSubscribersByTopic` and `GetPublishersByTopic`:
`std::find_if` stops at the first index entry whose key has the topic name; the
names of that one entry are mapped to their `NodeInfo`. -/
def MessageGraph.lookupByTopic (g : MessageGraph) (index : List (TopicKey × List String))
    (topic : String) : List NodeInfo :=
  match index.find? (fun pair => decide (pair.1.topic = topic)) with
  | none => []
  | some (_, names) =>
    names.filterMap (fun node_name => (Assoc.find g.nodes_ node_name).map (fun v => v.info))

/-- Translation of `MessageGraph::GetSubscribersByTopic`. -/
def MessageGraph.GetSubscribersByTopic (g : MessageGraph) (topic : String) : List NodeInfo :=
  g.lookupByTopic g.subscribers_by_topic_ topic

/-- Translation of `MessageGraph::GetPublishersByTopic`. -/
def MessageGraph.GetPublishersByTopic (g : MessageGraph) (topic : String) : List NodeInfo :=
  g.lookupByTopic g.publishers_by_topic_ topic

/-- Translation of `MessageGraph::GetNodeByName`. -/
def MessageGraph.GetNodeByName (g : MessageGraph) (node_name : String) : Option NodeInfo :=
  (Assoc.find g.nodes_ node_name).map (fun v => v.info)

/-- Translation of `MessageGraph::HasNode`. -/
def MessageGraph.HasNode (g : MessageGraph) (node_name : String) : Bool :=
  (Assoc.find g.nodes_ node_name).isSome

/-- Translation of `MessageGraph::GetNodePublishTopicKeys`. -/
def MessageGraph.GetNodePublishTopicKeys (g : MessageGraph) (node_name : String) :
    List TopicKey :=
  match Assoc.find g.nodes_ node_name with
  | some v => v.publishes
  | none => []

/-- Translation of `MessageGraph::GetNodeSubscribeTopicKeys`. -/
def MessageGraph.GetNodeSubscribeTopicKeys (g : MessageGraph) (node_name : String) :
    List TopicKey :=
  match Assoc.find g.nodes_ node_name with
  | some v => v.subscribes
  | none => []

/-- The members of `publishers_by_topic_[k]` (none when the key is absent). -/
def MessageGraph.publishersOf (g : MessageGraph) (k : TopicKey) : List String :=
  (Assoc.find g.publishers_by_topic_ k).getD []

/-- The members of `subscribers_by_topic_[k]` (none when the key is absent). -/
def MessageGraph.subscribersOf (g : MessageGraph) (k : TopicKey) : List String :=
  (Assoc.find g.subscribers_by_topic_ k).getD []

/-- A call of one of the public mutating operations of `MessageGraph`. -/
inductive GraphOp where
  | UpsertNode (info : NodeInfo) : GraphOp
  | AddPublisher (node : NodeInfo) (k : TopicKey) : GraphOp
  | AddSubscriber (node : NodeInfo) (k : TopicKey) : GraphOp
  | RemovePublisher (node : NodeInfo) (k : TopicKey) : GraphOp
  | RemoveSubscriber (node : NodeInfo) (k : TopicKey) : GraphOp
deriving DecidableEq, Repr

/-- The operation is `RemovePublisher(node, k)` for a `node` named `n`. -/
def GraphOp.removesPublisher (n : String) (k : TopicKey) : GraphOp → Bool
  | .RemovePublisher node k' => decide (node.node_name = n) && decide (k' = k)
  | _ => false

/-- The operation is `RemoveSubscriber(node, k)` for a `node` named `n`. -/
def GraphOp.removesSubscriber (n : String) (k : TopicKey) : GraphOp → Bool
  | .RemoveSubscriber node k' => decide (node.node_name = n) && decide (k' = k)
  | _ => false

/-- The operation is a `RemovePublisher` or `RemoveSubscriber` for a node named `n`. -/
def GraphOp.isRemovalOf (n : String) : GraphOp → Bool
  | .RemovePublisher node _ => decide (node.node_name = n)
  | .RemoveSubscriber node _ => decide (node.node_name = n)
  | _ => false

/-- Effect of one operation. -/
def MessageGraph.apply (g : MessageGraph) : GraphOp → MessageGraph
  | .UpsertNode info => g.UpsertNode info
  | .AddPublisher node k => g.AddPublisher node k
  | .AddSubscriber node k => g.AddSubscriber node k
  | .RemovePublisher node k => g.RemovePublisher node k
  | .RemoveSubscriber node k => g.RemoveSubscriber node k

/-- The graph reached from `g` by a sequence of operations. -/
def MessageGraph.applyAll (g : MessageGraph) (ops : List GraphOp) : MessageGraph :=
  ops.foldl MessageGraph.apply g

/-- The graph states reachable from the empty graph by the public operations. -/
def MessageGraph.Reachable (g : MessageGraph) : Prop :=
  ∃ ops : List GraphOp, MessageGraph.empty.applyAll ops = g

/-- Edge invariant: the edge set is the product of the two indexes, key by key. -/
def MessageGraph.EdgeInv (g : MessageGraph) : Prop :=
  ∀ p s k, (⟨p, s, k⟩ : Edge) ∈ g.edges_ ↔ p ∈ g.publishersOf k ∧ s ∈ g.subscribersOf k

/-- Index invariant: every name in an index entry is a node that has the key in the
matching set. -/
def MessageGraph.IndexInv (g : MessageGraph) : Prop :=
  (∀ k n, n ∈ g.publishersOf k → ∃ v, Assoc.find g.nodes_ n = some v ∧ k ∈ v.publishes) ∧
  (∀ k n, n ∈ g.subscribersOf k → ∃ v, Assoc.find g.nodes_ n = some v ∧ k ∈ v.subscribes)

/-! ## Targets table of a node (`poll_manager.h`, `poll_manager.cpp`) -/

/-- The fields of the protobuf message `TopicTargetsUpdate`. -/
structure TopicTargetsUpdate where
  topic : String
  add_targets : List NodeInfo
  remove_targets : List NodeInfo
deriving DecidableEq, Repr

/-- Translation of `NodeInfoEqual::operator()`. -/
def NodeInfoEqual (a b : NodeInfo) : Bool :=
  decide (a.ip = b.ip) && decide (a.port = b.port)

/-- `insert` on a `std::unordered_set<NodeInfo, NodeInfoHash, NodeInfoEqual>`: nothing is
inserted when an element equal under `NodeInfoEqual` is present. -/
def insertTarget (n : NodeInfo) (targets : List NodeInfo) : List NodeInfo :=
  if targets.any (fun x => NodeInfoEqual x n) then targets else targets ++ [n]

/-- `erase` on a `std::unordered_set<NodeInfo, NodeInfoHash, NodeInfoEqual>`. -/
def eraseTarget (n : NodeInfo) (targets : List NodeInfo) : List NodeInfo :=
  targets.filter (fun x => !NodeInfoEqual x n)

/-- The data member `topic_targets_` of `PollManager`. -/
structure PollManager where
  topic_targets_ : List (String × List NodeInfo)
deriving DecidableEq, Repr

/-- The octets of the string literal `"TopicTargetsUpdate"`. -/
def TopicTargetsUpdate.typeName : List Byte :=
  [84, 111, 112, 105, 99, 84, 97, 114, 103, 101, 116, 115, 85, 112, 100, 97, 116, 101]

/-- Lines 98-108 of `PollManager::handleMessage`: `topic_targets_[update.topic()]` gets
every element of `add_targets` inserted, then every element of `remove_targets` erased. -/
def PollManager.applyUpdate (pm : PollManager) (update : TopicTargetsUpdate) : PollManager :=
  let targets := (Assoc.find pm.topic_targets_ update.topic).getD []
  let targets := update.add_targets.foldl (fun ts n => insertTarget n ts) targets
  let targets := update.remove_targets.foldl (fun ts n => eraseTarget n ts) targets
  { pm with topic_targets_ := Assoc.set pm.topic_targets_ update.topic targets }

/-- Translation of `PollManager::handleMessage`.  `ParseFromString` is protobuf's parser
of `TopicTargetsUpdate`.  A frame of any other type leaves the `PollManager` untouched
and goes on to the message factory and the queue: it is returned as the second
component. -/
def PollManager.handleMessage (ParseFromString : List Byte → Option TopicTargetsUpdate)
    (pm : PollManager) (topic msg_name data : List Byte) : PollManager × Option Frame :=
  if msg_name = TopicTargetsUpdate.typeName then
    match ParseFromString data with
    | none => (pm, none)
    | some update => (pm.applyUpdate update, none)
  else (pm, some ⟨topic, msg_name, data⟩)

/-- Translation of `PollManager::getTargets`. -/
def PollManager.getTargets (pm : PollManager) (topic : String) : List NodeInfo :=
  match Assoc.find pm.topic_targets_ topic with
  | none => []
  | some targets => targets

/-! ## Coordinator RPC handlers (`ros_rpc_server.cpp`) and push channel -/

/-- One call `tcp_server_->SendUpdate(node_name, update)` made by a handler. -/
structure SendUpdateCall where
  node_name : String
  update : TopicTargetsUpdate
deriving DecidableEq, Repr

/-- Translation of `RosRpcServiceImpl::Subscribe`: the graph after the call and the
`SendUpdate` calls made, in order. -/
def RosRpcServiceImpl.Subscribe (g : MessageGraph) (topic_name msg_type : String)
    (node : NodeInfo) : MessageGraph × List SendUpdateCall :=
  let g' := g.AddSubscriber node ⟨topic_name, msg_type⟩
  let update : TopicTargetsUpdate := ⟨topic_name, [node], []⟩
  (g', (g'.GetPublishersByTopic topic_name).map (fun pub => ⟨pub.node_name, update⟩))

/-- Translation of `RosRpcServiceImpl::Unsubscribe`. -/
def RosRpcServiceImpl.Unsubscribe (g : MessageGraph) (topic_name msg_type : String)
    (node : NodeInfo) : MessageGraph × List SendUpdateCall :=
  let g' := g.RemoveSubscriber node ⟨topic_name, msg_type⟩
  let update : TopicTargetsUpdate := ⟨topic_name, [], [node]⟩
  (g', (g'.GetPublishersByTopic topic_name).map (fun pub => ⟨pub.node_name, update⟩))

/-- Translation of `RosRpcServiceImpl::RegisterPublisher`. -/
def RosRpcServiceImpl.RegisterPublisher (g : MessageGraph) (topic_name msg_type : String)
    (node : NodeInfo) : MessageGraph × List SendUpdateCall :=
  let g' := g.AddPublisher node ⟨topic_name, msg_type⟩
  let update : TopicTargetsUpdate := ⟨topic_name, g'.GetSubscribersByTopic topic_name, []⟩
  (g', [⟨node.node_name, update⟩])

/-- Translation of `RosRpcServiceImpl::UnregisterPublisher`. -/
def RosRpcServiceImpl.UnregisterPublisher (g : MessageGraph) (topic_name msg_type : String)
    (node : NodeInfo) : MessageGraph × List SendUpdateCall :=
  (g.RemovePublisher node ⟨topic_name, msg_type⟩, [])

/-- Translation of `MasterTcpServer::SendUpdate` together with the guard at the top of
`SendUpdateToNode`: the peer the update is queued for, or `none` when the node is not
found or its address is rejected. -/
def MasterTcpServer.SendUpdate (g : MessageGraph) (node_name : String)
    (update : TopicTargetsUpdate) : Option (NodeInfo × TopicTargetsUpdate) :=
  match g.GetNodeByName node_name with
  | none => none
  | some node_info =>
    if node_info.ip = "" ∨ node_info.port ≤ 0 then none else some (node_info, update)

/-- A request to one of the four registration endpoints. -/
inductive RpcCall where
  | Subscribe (topic_name msg_type : String) (node : NodeInfo) : RpcCall
  | Unsubscribe (topic_name msg_type : String) (node : NodeInfo) : RpcCall
  | RegisterPublisher (topic_name msg_type : String) (node : NodeInfo) : RpcCall
  | UnregisterPublisher (topic_name msg_type : String) (node : NodeInfo) : RpcCall
deriving DecidableEq, Repr

/-- Topic name of a request. -/
def RpcCall.topic_name : RpcCall → String
  | .Subscribe t _ _ | .Unsubscribe t _ _ | .RegisterPublisher t _ _
  | .UnregisterPublisher t _ _ => t

/-- Type name of a request. -/
def RpcCall.msg_type : RpcCall → String
  | .Subscribe _ m _ | .Unsubscribe _ m _ | .RegisterPublisher _ m _
  | .UnregisterPublisher _ m _ => m

/-- The `node_info` of a request. -/
def RpcCall.node : RpcCall → NodeInfo
  | .Subscribe _ _ n | .Unsubscribe _ _ n | .RegisterPublisher _ _ n
  | .UnregisterPublisher _ _ n => n

/-- The handler that serves a request. -/
def RosRpcServiceImpl.handle (g : MessageGraph) : RpcCall → MessageGraph × List SendUpdateCall
  | .Subscribe t m n => RosRpcServiceImpl.Subscribe g t m n
  | .Unsubscribe t m n => RosRpcServiceImpl.Unsubscribe g t m n
  | .RegisterPublisher t m n => RosRpcServiceImpl.RegisterPublisher g t m n
  | .UnregisterPublisher t m n => RosRpcServiceImpl.UnregisterPublisher g t m n

/-- The peer that `SendUpdateToNode` dials for `node_info` (master_tcp_server.cpp, line
54): the address text and the port as `static_cast<uint16_t>` leaves it. -/
def MasterTcpServer.peer_addr (node_info : NodeInfo) : String × Int :=
  (node_info.ip, node_info.port % 65536)

/-- The coordinator's graph together with the `PollManager` of every node process, by
the listening socket of the process: a process owns one targets table, and a push reaches
the process whose socket the dialled address leads to, whatever node name it was sent
for. -/
structure World where
  graph : MessageGraph
  polls : List ((String × Int) × PollManager)
deriving DecidableEq, Repr

/-- The world before any request: empty graph, empty targets tables. -/
def World.init : World := ⟨MessageGraph.empty, []⟩

/-- The `PollManager` of the process with the listening socket `peer`; a process that
never received a frame has an empty table. -/
def World.poll (w : World) (peer : String × Int) : PollManager :=
  (Assoc.find w.polls peer).getD ⟨[]⟩

/-- The listening socket at which the push channel reaches the node named `p`, when
`addr` gives the address every node name registers with.  `listener` is the network: it
gives, for the address text and 16-bit port a connection is made to, the listening socket
that accepts it (two address texts may lead to one socket). -/
def World.peer (listener : String × Int → String × Int) (addr : String → String × Int)
    (p : String) : String × Int :=
  listener (MasterTcpServer.peer_addr ⟨p, (addr p).1, (addr p).2⟩)

/-- Delivery of one push: when `SendUpdate` queues the update for the node, the process
whose socket the dialled address leads to receives the frame and applies it to its
targets table. -/
def World.deliver (listener : String × Int → String × Int) (g : MessageGraph)
    (polls : List ((String × Int) × PollManager)) (c : SendUpdateCall) :
    List ((String × Int) × PollManager) :=
  match MasterTcpServer.SendUpdate g c.node_name c.update with
  | none => polls
  | some (node_info, update) =>
    Assoc.set polls (listener (MasterTcpServer.peer_addr node_info))
      (((Assoc.find polls (listener (MasterTcpServer.peer_addr node_info))).getD
        ⟨[]⟩).applyUpdate update)

/-- One request served, every push it issues delivered and applied. -/
def World.step (w : World) (listener : String × Int → String × Int) (c : RpcCall) : World :=
  let r := RosRpcServiceImpl.handle w.graph c
  ⟨r.1, r.2.foldl (World.deliver listener r.1) w.polls⟩

/-- A sequence of requests served one after the other. -/
def World.run (w : World) (listener : String × Int → String × Int) (cs : List RpcCall) :
    World :=
  cs.foldl (fun w c => w.step listener c) w

/-- Every key of the index carries, for its topic name, the type name given by `ty`:
each topic name is used with one message type. -/
def KeyInv (ty : String → String) (index : List (TopicKey × List String)) : Prop :=
  ∀ e ∈ index, e.1.msg_type = ty e.1.topic

/-- Every vertex is stored under the name in its `info`, and its `info` carries the
address `addr` gives for that name: each node name is used with one address. -/
def MessageGraph.AddrInv (addr : String → String × Int) (g : MessageGraph) : Prop :=
  ∀ n v, Assoc.find g.nodes_ n = some v →
    v.info.node_name = n ∧ (v.info.ip, v.info.port) = addr n

/-- The graph operation a request performs. -/
def RpcCall.toOp : RpcCall → GraphOp
  | .Subscribe t m n => .AddSubscriber n ⟨t, m⟩
  | .Unsubscribe t m n => .RemoveSubscriber n ⟨t, m⟩
  | .RegisterPublisher t m n => .AddPublisher n ⟨t, m⟩
  | .UnregisterPublisher t m n => .RemovePublisher n ⟨t, m⟩

/-- The request is an `UnregisterPublisher` of topic `t` by the node named `p`. -/
def RpcCall.unregisters (t p : String) : RpcCall → Bool
  | .UnregisterPublisher t' _ n => decide (t' = t) && decide (n.node_name = p)
  | _ => false

/-- No vertex other than that of `p` carries an address at which the push channel
reaches the process of `p`. -/
def MessageGraph.PeerInv (listener : String × Int → String × Int)
    (addr : String → String × Int) (p : String) (g : MessageGraph) : Prop :=
  ∀ n v, Assoc.find g.nodes_ n = some v →
    listener (MasterTcpServer.peer_addr v.info) = World.peer listener addr p → n = p

/-- The invariant behind the targets property, for a topic `t` and a node `p`: the graph
invariants, one message type per topic name (`ty`), one address per node name (`addr`),
no other node at the address of `p`, every target the process of `p` holds for `t` is the
address of a subscriber of `t`, and that process holds no target for `t` while `p` is not
a publisher of `t` or its address is one the push channel rejects. -/
def World.Inv (listener : String × Int → String × Int) (ty : String → String)
    (addr : String → String × Int) (t p : String) (w : World) : Prop :=
  w.graph.EdgeInv ∧ w.graph.IndexInv ∧
  KeyInv ty w.graph.publishers_by_topic_ ∧ KeyInv ty w.graph.subscribers_by_topic_ ∧
  w.graph.AddrInv addr ∧ w.graph.PeerInv listener addr p ∧
  (∀ x ∈ (w.poll (World.peer listener addr p)).getTargets t,
    ∃ s ∈ w.graph.subscribersOf ⟨t, ty t⟩, addr s = (x.ip, x.port)) ∧
  ((p ∉ w.graph.publishersOf ⟨t, ty t⟩ ∨ ¬ ((addr p).1 ≠ "" ∧ 0 < (addr p).2)) →
    (w.poll (World.peer listener addr p)).getTargets t = [])

/-! ## Frames on the wire -/

/-- The lengths of the frame fit the wire format as the listener reads it: the two names
fit their 16-bit length fields and the whole frame is shorter than 2^32 octets. -/
def Frame.fits (f : Frame) : Prop :=
  f.topic.length < 65536 ∧ f.msg_name.length < 65536 ∧
    8 + f.topic.length + f.msg_name.length + f.msg_data.length < 4294967296

/-- The frame size `2 + topic_len + 2 + msg_name_len + 4 + msg_len` as `onMessage` computes
it from the length fields at the head of the buffer, in unsigned 32-bit arithmetic.  A
field that lies beyond the readable octets reads as 0 here; `onMessage` leaves the loop
before it reads such a field. -/
def PollManager.frameSize (buf : List Byte) : Nat :=
  (2 + ntohs buf 0 + 2 + ntohs buf (2 + ntohs buf 0) + 4
    + ntohl buf (2 + ntohs buf 0 + 2 + ntohs buf (2 + ntohs buf 0))) % 2 ^ 32

/-- The octets of the string literal `"__master_topic_update"`. -/
def MasterTcpServer.defaultTopic : List Byte :=
  [95, 95, 109, 97, 115, 116, 101, 114, 95, 116, 111, 112, 105, 99, 95, 117, 112, 100, 97,
    116, 101]

/-- The local `buffer` of `MasterTcpServer::OnConnection` (master_tcp_server.cpp, lines
114-135) for the octets `topic` of `pending_update.update.topic()` and the serialized
update `message`. -/
def MasterTcpServer.OnConnectionBuffer (topic message : List Byte) : List Byte :=
  let topic := if topic.isEmpty then MasterTcpServer.defaultTopic else topic
  let msg_name := TopicTargetsUpdate.typeName
  htons topic.length ++ topic ++ (htons msg_name.length ++ msg_name)
    ++ (htonl message.length ++ message)

instance Frame.decidableFits (f : Frame) : Decidable f.fits := by
  unfold Frame.fits
  exact inferInstance

/-- The sum `topic_len + type_len + payload_len + 8` of the three length fields of the
frame at the head of `buf`, read big-endian at their places in the frame. -/
def Frame.declaredLength (buf : List Byte) : Nat :=
  ntohs buf 0 + ntohs buf (2 + ntohs buf 0)
    + ntohl buf (2 + ntohs buf 0 + 2 + ntohs buf (2 + ntohs buf 0)) + 8

/-! ## Publisher connections (`publisher.h`, `publisher.inl`) -/

/-- The data members of `Publisher<T>` that `publish` reads and writes.  A `TcpClient` is
represented by the address it was constructed with, a `TcpConnectionPtr` by the value of
`conn && conn->connected()`. -/
structure Publisher where
  topic_ : String
  msgType_ : String
  clients_ : List (String × (String × Int))
  connections_ : List (String × Bool)
deriving DecidableEq, Repr

/-- Translation of `Publisher<T>::getConnectionId`. -/
def Publisher.getConnectionId (nodeInfo : NodeInfo) : String :=
  nodeInfo.ip ++ ":" ++ toString nodeInfo.port

/-- Translation of `Publisher<T>::createClient`: the client for the address of `nodeInfo`
is stored under its connection id.  `client->connect()` completes later, on the event
loop; its outcome arrives through `Publisher.connectionCallback`. -/
def Publisher.createClient (pub : Publisher) (nodeInfo : NodeInfo) : Publisher :=
  { pub with clients_ :=
      Assoc.set pub.clients_ (Publisher.getConnectionId nodeInfo) (nodeInfo.ip, nodeInfo.port) }

/-- The connection callback that `createClient` installs for `conn_id`, called with
`conn->connected()`. -/
def Publisher.connectionCallback (pub : Publisher) (conn_id : String) (connected : Bool) :
    Publisher :=
  if connected then { pub with connections_ := Assoc.set pub.connections_ conn_id true }
  else { pub with connections_ := Assoc.erase pub.connections_ conn_id }

/-- Translation of `Publisher<T>::updateTargets`; `poll_manager` is the result of
`SystemManager::instance().getPollManager()`, `none` for a null pointer. -/
def Publisher.updateTargets (poll_manager : Option PollManager) (pub : Publisher) :
    Publisher :=
  match poll_manager with
  | none => pub
  | some pm =>
    (pm.getTargets pub.topic_).foldl
      (fun p node_info =>
        if (Assoc.find p.clients_ (Publisher.getConnectionId node_info)).isNone then
          p.createClient node_info
        else p)
      pub

/-- Translation of `Publisher<T>::publish`.  `octets` gives the octets of a
`std::string`; `msg_data` is the result of `msg.SerializeToString`, `none` when it
fails.  The second component lists the calls of `send`, in the order of
`connections_`: the connection id and the buffer sent. -/
def Publisher.publish (octets : String → List Byte) (poll_manager : Option PollManager)
    (pub : Publisher) (msg_data : Option (List Byte)) :
    Publisher × List (String × List Byte) :=
  let pub := pub.updateTargets poll_manager
  match msg_data with
  | none => (pub, [])
  | some msg_data =>
    let buffer := Publisher.publishBuffer (octets pub.topic_) (octets pub.msgType_) msg_data
    (pub, (pub.connections_.filter (fun conn_pair => conn_pair.2)).map
      (fun conn_pair => (conn_pair.1, buffer)))

/-! ## Subscriber objects (`subscriber.h`, `subscriber.cpp`) -/

/-- The data members of `Subscriber` that its constructor and destructor use.
`msg_queue_` tells whether the weak pointer was set by the constructor. -/
structure Subscriber where
  topic_ : String
  queue_size_ : Nat
  callback_ : Callback
  msg_queue_ : Bool
deriving DecidableEq, Repr

/-- Translation of `Subscriber::Subscriber`; `msg_queue` is the queue that
`SystemManager::instance().getMessageQueue()` returns, `none` for a null pointer.  The
result is the new object and the queue after the three calls. -/
def Subscriber.new (msg_queue : Option MessageQueue) (topic : String) (queue_size : Nat)
    (callback : Callback) : Subscriber × Option MessageQueue :=
  match msg_queue with
  | some q =>
    (⟨topic, queue_size, callback, true⟩,
      some (((q.registerTopic topic).setTopicMaxQueueSize topic queue_size).addSubscriber
        topic callback))
  | none => (⟨topic, queue_size, callback, false⟩, none)

/-- Translation of `Subscriber::~Subscriber`; `msg_queue` is the queue the weak pointer
refers to, `none` when that queue is gone.  The result is the queue afterwards. -/
def Subscriber.destroy (sub : Subscriber) (msg_queue : Option MessageQueue) :
    Option MessageQueue :=
  if sub.msg_queue_ then
    match msg_queue with
    | some q => some (q.removeSubscriber sub.topic_)
    | none => none
  else msg_queue

/-! ## Responses of the registration endpoints (`ros_rpc_server.cpp`) -/

/-- The fields of the protobuf message `SubscribeResponse` that the handler and the
client read or write. -/
structure SubscribeResponse where
  success : Bool
  message : String
  node_info : List NodeInfo
deriving DecidableEq, Repr

/-- A default-constructed `SubscribeResponse`, as the RPC library passes it to the
handler. -/
def SubscribeResponse.default : SubscribeResponse := ⟨false, "", []⟩

/-- The writes of `RosRpcServiceImpl::Subscribe` to `*response` (lines 39-40). -/
def RosRpcServiceImpl.Subscribe_response (response : SubscribeResponse) : SubscribeResponse :=
  { response with success := true, message := "Subscribe success" }

/-- The fields of the protobuf message `UnsubscribeResponse` that the handler writes. -/
structure UnsubscribeResponse where
  success : Bool
  message : String
deriving DecidableEq, Repr

/-- The writes of `RosRpcServiceImpl::Unsubscribe` to `*response` (lines 66-67). -/
def RosRpcServiceImpl.Unsubscribe_response (response : UnsubscribeResponse) :
    UnsubscribeResponse :=
  { response with success := true, message := "Unsubscribe success" }

/-! ## Node handle (`node_handle.h`, `node_handle.inl`, `node_handle.cpp`) -/

/-- A line written through `LOG_INFO` or `LOG_ERROR`. -/
inductive LogLine where
  | INFO (text : String) : LogLine
  | ERROR (text : String) : LogLine
deriving DecidableEq, Repr

/-- The two calls of `RosRpcClient` that `NodeHandle` makes.  Each takes the topic name,
the type name and the node's `NodeInfo` and returns `false` when the RPC failed. -/
structure RosRpcClient where
  Subscribe : String → String → NodeInfo → Bool
  RegisterPublisher : String → String → NodeInfo → Bool

/-- Translation of the constructor `Publisher<T>::Publisher(topic)`; `full_name` is
`T::descriptor()->full_name()`. -/
def Publisher.new (poll_manager : Option PollManager) (topic full_name : String) : Publisher :=
  (⟨topic, full_name, [], []⟩ : Publisher).updateTargets poll_manager

/-- Translation of `NodeHandle::subscribe<MsgType>(topic, queue_size, callback)`
(node_handle.inl, lines 9-35); `full_name` is `MsgType::descriptor()->full_name()`,
`rpc_client` the result of `SystemManager::instance().getRpcClient()`.  The result is the
returned subscriber with the queue it registered in, and the lines the function logs. -/
def NodeHandle.subscribe (msg_queue : Option MessageQueue) (rpc_client : Option RosRpcClient)
    (nodeInfo_ : NodeInfo) (full_name : String) (topic : String) (queue_size : Nat)
    (callback : Callback) : (Subscriber × Option MessageQueue) × List LogLine :=
  let msg_type_name := full_name
  let log := [LogLine.INFO ("Subscribe to topic=" ++ topic ++ ", type=" ++ msg_type_name)]
  let subscriber := Subscriber.new msg_queue topic queue_size callback
  match rpc_client with
  | some client =>
    if client.Subscribe topic msg_type_name nodeInfo_ then
      (subscriber, log ++ [LogLine.INFO ("Subscribe RPC successful for topic: " ++ topic)])
    else
      (subscriber, log ++ [LogLine.ERROR ("Subscribe RPC failed for topic: " ++ topic)])
  | none => (subscriber, log ++ [LogLine.ERROR "Global RPC client not initialized"])

/-- Translation of `NodeHandle::subscribe(topic, queue_size, msg_type_name, callback)`
(node_handle.cpp, lines 34-58), the overload that takes the type name as a string. -/
def NodeHandle.subscribe_msg_type_name (msg_queue : Option MessageQueue)
    (rpc_client : Option RosRpcClient) (nodeInfo_ : NodeInfo) (topic : String)
    (queue_size : Nat) (msg_type_name : String) (callback : Callback) :
    (Subscriber × Option MessageQueue) × List LogLine :=
  let log := [LogLine.INFO
    ("Subscribe to topic=" ++ topic ++ " with dynamic type=" ++ msg_type_name)]
  let subscriber := Subscriber.new msg_queue topic queue_size callback
  match rpc_client with
  | some client =>
    if client.Subscribe topic msg_type_name nodeInfo_ then
      (subscriber, log ++ [LogLine.INFO
        ("Subscribe RPC successful for topic: " ++ topic ++ " with type: " ++ msg_type_name)])
    else
      (subscriber, log ++ [LogLine.ERROR
        ("Subscribe RPC failed for topic: " ++ topic ++ " with type: " ++ msg_type_name)])
  | none => (subscriber, log ++ [LogLine.ERROR "Global RPC client not initialized"])

/-- Translation of `NodeHandle::advertise<MsgType>(topic)` (node_handle.inl, lines
69-96): the returned publisher and the lines the function logs. -/
def NodeHandle.advertise (poll_manager : Option PollManager)
    (rpc_client : Option RosRpcClient) (nodeInfo_ : NodeInfo) (full_name : String)
    (topic : String) : Publisher × List LogLine :=
  let msg_type_name := full_name
  let log := [LogLine.INFO ("Advertise topic=" ++ topic ++ ", type=" ++ msg_type_name)]
  let publisher := Publisher.new poll_manager topic full_name
  let log := log ++ [LogLine.INFO
    ("Debug: nodeInfo_ details - node_name: '" ++ nodeInfo_.node_name ++ "', ip: '"
      ++ nodeInfo_.ip ++ "', port: " ++ toString nodeInfo_.port)]
  match rpc_client with
  | some client =>
    if client.RegisterPublisher topic msg_type_name nodeInfo_ then
      (publisher, log ++ [LogLine.INFO ("RegisterPublisher RPC successful for topic: " ++ topic)])
    else
      (publisher, log ++ [LogLine.ERROR ("RegisterPublisher RPC failed for topic: " ++ topic)])
  | none => (publisher, log ++ [LogLine.ERROR "Global RPC client not initialized"])

/-! ## Message factory (`msg_factory.h`, `msg_factory.cpp`) -/

/-- A `google::protobuf::Descriptor`, identified by the fully-qualified name of its
message type. -/
structure Descriptor where
  full_name : String
deriving DecidableEq, Repr

/-- A prototype `const google::protobuf::Message*` held in `factory_`: the
`default_instance()` of the generated class with this full name (`generated = true`), or
a prototype made by `DynamicMessageFactory` for a descriptor with this full name. -/
structure Prototype where
  full_name : String
  generated : Bool
deriving DecidableEq, Repr

/-- A message object returned by `prototype->New()`: a new object of the prototype's
class, every field at its default. -/
structure ProtoMessage where
  prototype : Prototype
deriving DecidableEq, Repr

/-- The call `prototype->New()`. -/
def Prototype.New (prototype : Prototype) : ProtoMessage := ⟨prototype⟩

/-- The data member `factory_` of `MsgFactory`. -/
structure MsgFactory where
  factory_ : List (String × Prototype)
deriving DecidableEq, Repr

/-- The factory before any registration. -/
def MsgFactory.empty : MsgFactory := ⟨[]⟩

/-- Translation of `MsgFactory::registerMessage<MsgType>()`; `full_name` is
`MsgType::descriptor()->full_name()`, and the stored prototype is
`&MsgType::default_instance()`. -/
def MsgFactory.registerMessage (f : MsgFactory) (full_name : String) : MsgFactory :=
  { f with factory_ := Assoc.set f.factory_ full_name ⟨full_name, true⟩ }

/-- Translation of `MsgFactory::createMessage`.  `FindMessageTypeByName` is the lookup of
`DescriptorPool::generated_pool()`, `GetPrototype` that of `dynamic_factory_`; `none`
stands for a null pointer. -/
def MsgFactory.createMessage (FindMessageTypeByName : String → Option Descriptor)
    (GetPrototype : Descriptor → Option Prototype) (f : MsgFactory) (name : String) :
    MsgFactory × Option ProtoMessage :=
  match Assoc.find f.factory_ name with
  | some prototype => (f, some prototype.New)
  | none =>
    match FindMessageTypeByName name with
    | none => (f, none)
    | some desc =>
      match GetPrototype desc with
      | none => (f, none)
      | some prototype =>
        ({ f with factory_ := Assoc.set f.factory_ name prototype }, some prototype.New)

/-- A call of one of the two public operations of `MsgFactory`. -/
inductive FactoryOp where
  | registerMessage (full_name : String) : FactoryOp
  | createMessage (name : String) : FactoryOp
deriving DecidableEq, Repr

/-- Effect of one call on the factory. -/
def MsgFactory.apply (FindMessageTypeByName : String → Option Descriptor)
    (GetPrototype : Descriptor → Option Prototype) (f : MsgFactory) : FactoryOp → MsgFactory
  | .registerMessage full_name => f.registerMessage full_name
  | .createMessage name => (f.createMessage FindMessageTypeByName GetPrototype name).1

/-- The factory after a sequence of calls. -/
def MsgFactory.applyAll (FindMessageTypeByName : String → Option Descriptor)
    (GetPrototype : Descriptor → Option Prototype) (f : MsgFactory) (ops : List FactoryOp) :
    MsgFactory :=
  ops.foldl (MsgFactory.apply FindMessageTypeByName GetPrototype) f

/-- The generated descriptor pool of a program that links `example.pb`: it knows the
message types of package `example` by their fully-qualified names. -/
def Example.generated_pool (name : String) : Option Descriptor :=
  if name = "example.SensorData" ∨ name = "example.ControlCommand" then some ⟨name⟩ else none

/-- A dynamic factory that makes a prototype for every descriptor. -/
def Example.GetPrototype (desc : Descriptor) : Option Prototype :=
  some ⟨desc.full_name, false⟩

/-! ## Listener port selection (`global_init.cpp`) -/

/-- The body of the loop of `findAvailablePort` for one value of `port`: whether it
returns `port`.  `socket_ok port` tells whether `socket()` gives a descriptor in that
iteration (otherwise the loop continues without binding), `bind_ok` whether `bind`
succeeds on the 16-bit port number `htons` is given. -/
def SystemManager.bindSucceeds (socket_ok bind_ok : Int → Bool) (port : Int) : Bool :=
  socket_ok port && bind_ok (port % 65536)

/-- The loop of `SystemManager::findAvailablePort` from the value `port` of the loop
variable on.  The first argument is the number `end_port + 1 - port` of values left to
try: the loop condition `port <= end_port` holds exactly when it is not 0.  The result is
`none` when `++port` overflows `int`, which is undefined behaviour. -/
def SystemManager.findAvailablePortFrom (socket_ok bind_ok : Int → Bool) :
    Nat → Int → Option Int
  | 0, _ => some (-1)
  | n + 1, port =>
    if SystemManager.bindSucceeds socket_ok bind_ok port then some port
    else if port = 2147483647 then none
    else SystemManager.findAvailablePortFrom socket_ok bind_ok n (port + 1)

/-- Translation of `SystemManager::findAvailablePort(start_port, end_port)`. -/
def SystemManager.findAvailablePort (socket_ok bind_ok : Int → Bool)
    (start_port end_port : Int) : Option Int :=
  SystemManager.findAvailablePortFrom socket_ok bind_ok (end_port + 1 - start_port).toNat
    start_port

/-- Translation of `SystemManager::init(const std::string& node_name)` up to the call of
`init(port, node_name)`: the exception thrown, or the `nodeInfo_` that
`init(port, node_name)` sets. -/
def SystemManager.init (socket_ok bind_ok : Int → Bool) (node_name : String) :
    Option (Except String NodeInfo) :=
  match SystemManager.findAvailablePort socket_ok bind_ok 60000 61000 with
  | none => none
  | some port =>
    if port < 0 then some (.error "No available port for node initialization")
    else some (.ok ⟨node_name, "127.0.0.1", port⟩)

/-! ## Timer (`timer.h`, `timer.cpp`) -/

/-- Translation of `struct TimerEvent`; `ρ` stands for `double`. -/
structure TimerEvent (ρ : Type) where
  current_real : ρ
  last_real : ρ
  expected_real : ρ
  last_duration : Int
deriving DecidableEq, Repr

/-- How a call `callback_(event)` of the user callback ends: it returns, it throws an
exception of a class derived from `std::exception` (with its `what()`), or it throws a
value of any other type. -/
inductive CallbackExit where
  | returned : CallbackExit
  | threw_std_exception (what : String) : CallbackExit
  | threw_other : CallbackExit
deriving DecidableEq, Repr

/-- The data members of `Timer` that `internalCallback` reads and writes; a `callback_`
of `none` is an empty `std::function`. -/
structure Timer (ρ : Type) where
  period_ : ρ
  callback_ : Option (TimerEvent ρ → CallbackExit)
  isRunning_ : Bool
  isOneShot_ : Bool
  isPaused_ : Bool
  lastEvent_ : TimerEvent ρ

/-- What a call of `Timer::internalCallback` leaves: the timer, the lines written to
`stderr`, and whether an exception left the function. -/
structure InternalCallbackResult (ρ : Type) where
  timer : Timer ρ
  stderr : List String
  escaped : Bool

/-- The local `event` of `Timer::internalCallback` (lines 117-121); `add` is the addition
of `double`, `startTime` the first clock reading. -/
def Timer.event {ρ : Type} (add : ρ → ρ → ρ) (startTime : ρ) (t : Timer ρ) : TimerEvent ρ :=
  ⟨startTime, t.lastEvent_.current_real, add t.lastEvent_.expected_real t.period_,
    t.lastEvent_.last_duration⟩

/-- Lines 133-142 of `Timer::internalCallback`, the part after the `try` block;
`duration_ms startTime endTime` is `static_cast<int32_t>((endTime - startTime) * 1000)`. -/
def Timer.afterCallback {ρ : Type} (add : ρ → ρ → ρ) (duration_ms : ρ → ρ → Int)
    (startTime endTime : ρ) (t : Timer ρ) : Timer ρ :=
  let lastEvent : TimerEvent ρ :=
    { t.lastEvent_ with
      last_duration := duration_ms startTime endTime
      current_real := startTime
      expected_real := (t.event add startTime).expected_real }
  { t with
    lastEvent_ := lastEvent
    isRunning_ := if t.isOneShot_ then false else t.isRunning_ }

/-- Translation of `Timer::internalCallback`; `startTime` and `endTime` are the two
readings of `muduo::Timestamp::now().secondsSinceEpoch()`.  The `catch` clause handles
`const std::exception&` only: any other exception leaves the function before the second
clock reading. -/
def Timer.internalCallback {ρ : Type} (add : ρ → ρ → ρ) (duration_ms : ρ → ρ → Int)
    (startTime endTime : ρ) (t : Timer ρ) : InternalCallbackResult ρ :=
  match t.callback_ with
  | none => ⟨t.afterCallback add duration_ms startTime endTime, [], false⟩
  | some callback =>
    match callback (t.event add startTime) with
    | .returned => ⟨t.afterCallback add duration_ms startTime endTime, [], false⟩
    | .threw_std_exception what =>
      ⟨t.afterCallback add duration_ms startTime endTime,
        ["Timer callback exception: " ++ what ++ "\n"], false⟩
    | .threw_other => ⟨t, [], true⟩

/-! ## Pending pushes of the coordinator (`master_tcp_server.h`, `master_tcp_server.cpp`) -/

/-- Translation of `struct PendingUpdate`. -/
structure PendingUpdate where
  node_info : NodeInfo
  update : TopicTargetsUpdate
deriving DecidableEq, Repr

/-- The data members `active_clients_` and `pending_updates_` of `MasterTcpServer`, both
keyed by `peer_key`; a `TcpClient` is represented by the name it was created with. -/
structure MasterTcpServer where
  active_clients_ : List (String × String)
  pending_updates_ : List (String × PendingUpdate)
deriving DecidableEq, Repr

/-- The local `peer_key` of `SendUpdateToNode`: `toIpPort` is
`muduo::net::InetAddress::toIpPort` as a function of the address text and the 16-bit port
the `InetAddress` was built from. -/
def MasterTcpServer.peer_key (toIpPort : String → Int → String) (node_info : NodeInfo) :
    String :=
  toIpPort node_info.ip (node_info.port % 65536)

/-- Translation of `MasterTcpServer::SendUpdateToNode`.  `client->connect()` completes
later on the event loop; its outcome arrives through `MasterTcpServer.OnConnection`. -/
def MasterTcpServer.SendUpdateToNode (toIpPort : String → Int → String) (s : MasterTcpServer)
    (node_info : NodeInfo) (update : TopicTargetsUpdate) : MasterTcpServer :=
  if node_info.ip = "" ∨ node_info.port ≤ 0 then s
  else
    let peer_key := MasterTcpServer.peer_key toIpPort node_info
    { pending_updates_ := Assoc.set s.pending_updates_ peer_key ⟨node_info, update⟩
      active_clients_ :=
        Assoc.set s.active_clients_ peer_key ("MasterTcpClient-" ++ node_info.node_name) }

/-- Translation of `MasterTcpServer::OnConnection` for a connection whose
`peerAddress().toIpPort()` is `peer_key` and whose `connected()` is `connected`.
`SerializeToString` is protobuf's serializer (`none` when it fails), `octets` gives the
octets of a `std::string`.  The second component is the buffer given to `conn->send`,
if any. -/
def MasterTcpServer.OnConnection (SerializeToString : TopicTargetsUpdate → Option (List Byte))
    (octets : String → List Byte) (s : MasterTcpServer) (peer_key : String)
    (connected : Bool) : MasterTcpServer × Option (List Byte) :=
  if connected then
    match Assoc.find s.pending_updates_ peer_key with
    | some pending_update =>
      let s' := { s with pending_updates_ := Assoc.erase s.pending_updates_ peer_key }
      match SerializeToString pending_update.update with
      | none => (s', none)
      | some message =>
        (s', some (MasterTcpServer.OnConnectionBuffer (octets pending_update.update.topic)
          message))
    | none => (s, none)
  else ({ s with active_clients_ := Assoc.erase s.active_clients_ peer_key }, none)

/-- No vertex of the graph is left without publications and subscriptions. -/
def MessageGraph.LiveInv (g : MessageGraph) : Prop :=
  ∀ n v, Assoc.find g.nodes_ n = some v → v.publishes ≠ [] ∨ v.subscribes ≠ []

/-! ## Nodes used in the concrete evaluations -/

/-- A publisher node listening on port 60001. -/
def Example.p1 : NodeInfo := ⟨"p1", "127.0.0.1", 60001⟩

/-- A publisher node listening on port 60002. -/
def Example.p2 : NodeInfo := ⟨"p2", "127.0.0.1", 60002⟩

/-- A subscriber node listening on port 60003. -/
def Example.s1 : NodeInfo := ⟨"s1", "127.0.0.1", 60003⟩

/-- A subscriber node listening on port 60004. -/
def Example.s2 : NodeInfo := ⟨"s2", "127.0.0.1", 60004⟩

/-- The publisher of the concrete evaluation: topic `T`, after its constructor ran
`updateTargets` against a targets table that holds `s1` and `s2` for `T`, and after both
connections were established. -/
def Example.publisher : Publisher :=
  (((⟨"T", "X", [], []⟩ : Publisher).updateTargets
      (some ((⟨[]⟩ : PollManager).applyUpdate ⟨"T", [Example.s1, Example.s2], []⟩))
    ).connectionCallback "127.0.0.1:60003" true).connectionCallback "127.0.0.1:60004" true

/-! ## Codec lemmas -/

theorem getD_append_length (a : List Byte) (x : Byte) (r : List Byte) :
    (a ++ x :: r).getD a.length 0 = x := by
  induction a with
  | nil => rfl
  | cons h t ih => simpa using ih

theorem getD_append_length_add (a : List Byte) (r : List Byte) (i : Nat) :
    (a ++ r).getD (a.length + i) 0 = r.getD i 0 := by
  induction a with
  | nil => simp
  | cons h t ih =>
    have : (h :: t).length + i = (t.length + i) + 1 := by simp; omega
    rw [this]; simpa using ih

theorem ntohs_append (a r : List Byte) : ntohs (a ++ r) a.length = ntohs r 0 := by
  unfold ntohs
  have h0 := getD_append_length_add a r 0
  have h1 := getD_append_length_add a r 1
  simp only [Nat.add_zero, Nat.zero_add] at h0 h1 ⊢
  rw [h0, h1]

theorem ntohl_append (a r : List Byte) : ntohl (a ++ r) a.length = ntohl r 0 := by
  unfold ntohl
  have h0 := getD_append_length_add a r 0
  have h1 := getD_append_length_add a r 1
  have h2 := getD_append_length_add a r 2
  have h3 := getD_append_length_add a r 3
  simp only [Nat.add_zero, Nat.zero_add] at h0 h1 h2 h3 ⊢
  rw [h0, h1, h2, h3]

theorem ntohs_htons (n : Nat) (r : List Byte) : ntohs (htons n ++ r) 0 = n % 65536 := by
  simp [ntohs, htons, octet]
  omega

theorem ntohl_htonl (n : Nat) (r : List Byte) : ntohl (htonl n ++ r) 0 = n % 4294967296 := by
  simp [ntohl, htonl, octet]
  omega

theorem length_htons (n : Nat) : (htons n).length = 2 := rfl

theorem length_htonl (n : Nat) : (htonl n).length = 4 := rfl

/-- One pass over a buffer that starts with a frame built by `publish` whose lengths
fit their fields hands exactly that frame to `handleMessage` and consumes it. -/
theorem onMessagePass_publishBuffer (t m p rest : List Byte)
    (ht : t.length < 65536) (hm : m.length < 65536)
    (hp : 8 + t.length + m.length + p.length < 4294967296) :
    PollManager.onMessagePass (Publisher.publishBuffer t m p ++ rest)
      = .handle ⟨t, m, p⟩ (8 + t.length + m.length + p.length) := by
  have l1 := length_htons t.length
  have l2 := length_htons m.length
  have l3 := length_htonl p.length
  have e1 : Publisher.publishBuffer t m p ++ rest
      = htons t.length ++ (t ++ (htons m.length ++ (m ++ (htonl p.length ++ (p ++ rest))))) := by
    simp [Publisher.publishBuffer, List.append_assoc]
  have e2 : Publisher.publishBuffer t m p ++ rest
      = (htons t.length ++ t) ++ (htons m.length ++ (m ++ (htonl p.length ++ (p ++ rest)))) := by
    simp [Publisher.publishBuffer, List.append_assoc]
  have e3 : Publisher.publishBuffer t m p ++ rest
      = (htons t.length ++ t ++ htons m.length) ++ (m ++ (htonl p.length ++ (p ++ rest))) := by
    simp [Publisher.publishBuffer, List.append_assoc]
  have e4 : Publisher.publishBuffer t m p ++ rest
      = (htons t.length ++ t ++ htons m.length ++ m) ++ (htonl p.length ++ (p ++ rest)) := by
    simp [Publisher.publishBuffer, List.append_assoc]
  have e5 : Publisher.publishBuffer t m p ++ rest
      = (htons t.length ++ t ++ htons m.length ++ m ++ htonl p.length) ++ (p ++ rest) := by
    simp [Publisher.publishBuffer, List.append_assoc]
  have n2 : (htons t.length ++ t).length = 2 + t.length := by
    simp only [List.length_append]; omega
  have n3 : (htons t.length ++ t ++ htons m.length).length = 2 + t.length + 2 := by
    simp only [List.length_append]; omega
  have n4 : (htons t.length ++ t ++ htons m.length ++ m).length
      = 2 + t.length + 2 + m.length := by
    simp only [List.length_append]; omega
  have n5 : (htons t.length ++ t ++ htons m.length ++ m ++ htonl p.length).length
      = 2 + t.length + 2 + m.length + 4 := by
    simp only [List.length_append]; omega
  have hlen : (Publisher.publishBuffer t m p ++ rest).length
      = 8 + t.length + m.length + p.length + rest.length := by
    rw [e5]; simp only [List.length_append] at n5 ⊢; omega
  have htl : ntohs (Publisher.publishBuffer t m p ++ rest) 0 = t.length := by
    rw [e1, ntohs_htons]; omega
  have hml : ntohs (Publisher.publishBuffer t m p ++ rest) (2 + t.length) = m.length := by
    rw [e2, ← n2, ntohs_append, ntohs_htons]; omega
  have hpl : ntohl (Publisher.publishBuffer t m p ++ rest) (2 + t.length + 2 + m.length)
      = p.length := by
    rw [e4, ← n4, ntohl_append, ntohl_htonl]; omega
  have ht' : ((Publisher.publishBuffer t m p ++ rest).drop 2).take t.length = t := by
    rw [e1, List.drop_left' l1, List.take_left' rfl]
  have hm' : ((Publisher.publishBuffer t m p ++ rest).drop (2 + t.length + 2)).take m.length
      = m := by
    rw [e3, List.drop_left' n3, List.take_left' rfl]
  have hp' : ((Publisher.publishBuffer t m p ++ rest).drop
      (2 + t.length + 2 + m.length + 4)).take p.length = p := by
    rw [e5, List.drop_left' n5, List.take_left' rfl]
  have hsz : (2 + t.length + 2 + m.length + 4 + p.length) % 2 ^ 32
      = 8 + t.length + m.length + p.length := by
    rw [Nat.mod_eq_of_lt] <;> omega
  unfold PollManager.onMessagePass
  simp only [htl, hml, hpl, ht', hm', hp', hsz, hlen]
  rw [if_neg (by omega), if_neg (by omega), if_neg (by omega), if_neg (by omega),
    if_neg (by omega), if_neg (by omega), if_neg (by omega)]

/-- Eight zero octets at the head of the buffer parse as a frame with empty topic, empty
type name and empty payload. -/
theorem onMessagePass_zeros (rest : List Byte) :
    PollManager.onMessagePass (0 :: 0 :: 0 :: 0 :: 0 :: 0 :: 0 :: 0 :: rest)
      = .handle ⟨[], [], []⟩ 8 := by
  simp only [PollManager.onMessagePass, ntohs, ntohl, List.length_cons, List.getD_cons_zero,
    List.getD_cons_succ, Fin.val_zero, Nat.zero_mul, Nat.add_zero, Nat.zero_add, List.take_zero,
    Nat.reduceAdd, Nat.reducePow, Nat.reduceMod]
  repeat rw [if_neg (by omega)]

theorem publishBuffer_long_topic :
    Publisher.publishBuffer (List.replicate 65536 0) [] []
      = 0 :: 0 :: 0 :: 0 :: 0 :: 0 :: 0 :: 0 :: (List.replicate 65530 0 ++ [0, 0, 0, 0, 0, 0]) := by
  have h : (List.replicate 65536 (0 : Byte))
      = 0 :: 0 :: 0 :: 0 :: 0 :: 0 :: List.replicate 65530 0 := rfl
  have h2 : htons 65536 = [0, 0] := by decide
  have h3 : htons 0 = [0, 0] := by decide
  have h4 : htonl 0 = [0, 0, 0, 0] := by decide
  simp only [Publisher.publishBuffer, List.length_replicate, List.length_nil, h2, h3, h4]
  rw [h]
  simp only [List.cons_append, List.nil_append, List.append_nil, List.append_assoc]

/-! ## Queue lemmas -/

theorem queued_cons (t : String) (l : List Message) (r : List (String × List Message))
    (topic : String) :
    queued ((t, l) :: r) topic = (if t = topic then l else []) ++ queued r topic := by
  simp [queued, List.flatMap_cons]

theorem popFirst_none {qs : List (String × List Message)} (h : MessageQueue.popFirst qs = none) :
    (qs.map (fun e => e.2.length)).sum = 0 ∧ ∀ topic, queued qs topic = [] := by
  induction qs with
  | nil => simp [queued]
  | cons e r ih =>
    obtain ⟨t, l⟩ := e
    cases l with
    | nil =>
      rw [MessageQueue.popFirst] at h
      cases hr : MessageQueue.popFirst r with
      | none =>
        obtain ⟨h1, h2⟩ := ih hr
        refine ⟨by simpa using h1, fun topic => ?_⟩
        rw [queued_cons, h2]; simp
      | some x => rw [hr] at h; simp at h
    | cons m l => simp [MessageQueue.popFirst] at h

theorem popFirst_some {qs qs' : List (String × List Message)} {t : String} {m : Message}
    (h : MessageQueue.popFirst qs = some (t, m, qs')) :
    (qs.map (fun e => e.2.length)).sum = (qs'.map (fun e => e.2.length)).sum + 1 ∧
      ∀ topic, queued qs topic = (if t = topic then [m] else []) ++ queued qs' topic := by
  induction qs generalizing qs' with
  | nil => simp [MessageQueue.popFirst] at h
  | cons e r ih =>
    obtain ⟨t0, l⟩ := e
    cases l with
    | nil =>
      rw [MessageQueue.popFirst] at h
      cases hr : MessageQueue.popFirst r with
      | none => rw [hr] at h; simp at h
      | some x =>
        obtain ⟨t1, m1, r1⟩ := x
        rw [hr] at h
        simp only [Option.some.injEq, Prod.mk.injEq] at h
        obtain ⟨rfl, rfl, rfl⟩ := h
        obtain ⟨h1, h2⟩ := ih hr
        refine ⟨by simpa using h1, fun topic => ?_⟩
        rw [queued_cons, queued_cons, h2]; simp
    | cons m0 l =>
      simp only [MessageQueue.popFirst, Option.some.injEq, Prod.mk.injEq] at h
      obtain ⟨rfl, rfl, rfl⟩ := h
      refine ⟨by simp; omega, fun topic => ?_⟩
      rw [queued_cons, queued_cons]
      by_cases ht : t0 = topic <;> simp [ht]

theorem invocationsFor_append (q : MessageQueue) (topic : String) (a b : List Message) :
    invocationsFor q topic (a ++ b) = invocationsFor q topic a ++ invocationsFor q topic b := by
  simp [invocationsFor, List.flatMap_append]

/-- Enough calls of `processCallbacks` deliver to the callbacks of a topic exactly the
messages stored for it, oldest first. -/
theorem drain_filter (topic : String) (n : Nat) (q : MessageQueue) (h : q.pending ≤ n) :
    (q.drain n).2.filter (fun c => decide (c.topic = topic))
      = invocationsFor q topic (queued q.message_queues_ topic) := by
  induction n generalizing q with
  | zero =>
    have h0 : q.pending = 0 := by omega
    have : queued q.message_queues_ topic = [] := by
      cases hp : MessageQueue.popFirst q.message_queues_ with
      | none => exact (popFirst_none hp).2 topic
      | some x =>
        obtain ⟨t, m, r⟩ := x
        have := (popFirst_some hp).1
        simp only [MessageQueue.pending] at h0; omega
    simp [MessageQueue.drain, this, invocationsFor]
  | succ n ih =>
    rw [MessageQueue.drain]
    cases hp : MessageQueue.popFirst q.message_queues_ with
    | none =>
      have hq : q.processCallbacks = (q, []) := by simp [MessageQueue.processCallbacks, hp]
      have h0 : q.pending ≤ n := by
        have := (popFirst_none hp).1
        simp only [MessageQueue.pending]; omega
      simp only [hq, List.nil_append]
      exact ih q h0
    | some x =>
      obtain ⟨t, m, r⟩ := x
      have hq : q.processCallbacks = ({ q with message_queues_ := r },
          ((Assoc.find q.subscribers_ t).getD []).map (fun cb => ⟨t, cb, m⟩)) := by
        simp [MessageQueue.processCallbacks, hp]
      obtain ⟨h1, h2⟩ := popFirst_some hp
      have h0 : MessageQueue.pending { q with message_queues_ := r } ≤ n := by
        simp only [MessageQueue.pending] at h ⊢; omega
      simp only [hq, List.filter_append]
      rw [ih _ h0, h2 topic]
      have e : invocationsFor { q with message_queues_ := r } topic (queued r topic)
          = invocationsFor q topic (queued r topic) := rfl
      simp only [e]
      rw [invocationsFor_append]
      congr 1
      by_cases ht : t = topic
      · subst ht
        simp [invocationsFor, List.filter_map, Function.comp_def]
      · simp [ht, invocationsFor, List.filter_map, Function.comp_def]

theorem Assoc.find_set {κ β : Type} [DecidableEq κ] (m : List (κ × β)) (k k' : κ) (v : β) :
    Assoc.find (Assoc.set m k v) k' = if k' = k then some v else Assoc.find m k' := by
  induction m with
  | nil =>
    by_cases h : k' = k
    · simp [Assoc.set, Assoc.find, h]
    · have : ¬ k = k' := fun e => h e.symm
      simp [Assoc.set, Assoc.find, h, this]
  | cons e r ih =>
    obtain ⟨k0, v0⟩ := e
    by_cases h0 : k0 = k
    · subst h0
      by_cases h : k' = k0
      · simp [Assoc.set, Assoc.find, h]
      · have : ¬ k0 = k' := fun e => h e.symm
        simp [Assoc.set, Assoc.find, h, this]
    · by_cases h : k0 = k'
      · have : ¬ k' = k := fun e => h0 (h.trans e)
        simp [Assoc.set, Assoc.find, h0, h, this]
      · simp [Assoc.set, Assoc.find, h0, h, ih]

theorem Assoc.find_erase {κ β : Type} [DecidableEq κ] (m : List (κ × β)) (k k' : κ) :
    Assoc.find (Assoc.erase m k) k' = if k' = k then none else Assoc.find m k' := by
  induction m with
  | nil => simp [Assoc.erase, Assoc.find]
  | cons e r ih =>
    obtain ⟨k0, v0⟩ := e
    simp only [Assoc.erase, ne_eq, decide_not] at ih
    by_cases h0 : k0 = k
    · subst h0
      by_cases h : k' = k0
      · subst h
        simpa [Assoc.erase] using ih
      · have : ¬ k0 = k' := fun e => h e.symm
        simp [Assoc.erase, Assoc.find, h, this, ih]
    · by_cases h : k0 = k'
      · have : ¬ k' = k := fun e => h0 (h.trans e)
        simp [Assoc.erase, Assoc.find, h0, h, this]
      · simp [Assoc.erase, Assoc.find, h0, h, ih]

/-- When the entry found for `topic` holds all the messages stored for it, that is still
so after an assignment to the entry. -/
theorem queued_set (qs : List (String × List Message)) (topic : String) (v : List Message)
    (h : queued qs topic = (Assoc.find qs topic).getD []) :
    queued (Assoc.set qs topic v) topic = v := by
  induction qs with
  | nil => simp [Assoc.set, queued]
  | cons e r ih =>
    obtain ⟨t, l⟩ := e
    by_cases ht : t = topic
    · subst ht
      rw [queued_cons] at h
      simp only [Assoc.find, if_true, Option.getD_some] at h
      have hr : queued r t = [] := by
        have := congrArg List.length h
        simp only [List.length_append] at this
        exact List.eq_nil_of_length_eq_zero (by omega)
      simp [Assoc.set, queued_cons, hr]
    · rw [queued_cons] at h
      simp only [Assoc.find, ht, if_false, List.nil_append] at h
      simp [Assoc.set, ht, queued_cons, ih h]

theorem queued_eq_nil_of_empty (qs : List (String × List Message)) (topic : String)
    (h : ∀ e ∈ qs, e.1 = topic → e.2 = []) :
    queued qs topic = [] ∧ (Assoc.find qs topic).getD [] = [] := by
  induction qs with
  | nil => simp [queued, Assoc.find]
  | cons e r ih =>
    obtain ⟨t, l⟩ := e
    have hr := ih (fun e he => h e (List.mem_cons_of_mem _ he))
    by_cases ht : t = topic
    · have : l = [] := h (t, l) (List.mem_cons_self _ _) ht
      subst this
      simp [queued_cons, Assoc.find, ht, hr.1]
    · simp [queued_cons, Assoc.find, ht, hr]

/-- The last `k` elements of a list. -/
theorem drop_last_append (k : Nat) (a b : List Message) :
    ((a.drop (a.length - k)) ++ b).drop (((a.drop (a.length - k)) ++ b).length - k)
      = (a ++ b).drop ((a ++ b).length - k) := by
  have h1 : (a ++ b).drop (a.length - k) = a.drop (a.length - k) ++ b :=
    List.drop_append_of_le_length (by omega)
  rw [← h1, List.drop_drop]
  congr 1
  simp only [List.length_drop, List.length_append]
  omega

/-- Effect of one `push` on a registered topic with capacity at least one. -/
theorem push_registered (q : MessageQueue) (topic : String) (m : Message)
    (hreg : topic ∈ q.registered_topics_) (hk : 1 ≤ q.maxSize topic)
    (hs : queued q.message_queues_ topic = (Assoc.find q.message_queues_ topic).getD [])
    (hl : (queued q.message_queues_ topic).length ≤ q.maxSize topic) :
    ∃ q', q.push topic m = some q' ∧
      q'.registered_topics_ = q.registered_topics_ ∧
      q'.maxSize topic = q.maxSize topic ∧
      q'.subscribers_ = q.subscribers_ ∧
      queued q'.message_queues_ topic = (Assoc.find q'.message_queues_ topic).getD [] ∧
      queued q'.message_queues_ topic
        = (queued q.message_queues_ topic ++ [m]).drop
            ((queued q.message_queues_ topic ++ [m]).length - q.maxSize topic) := by
  rw [hs] at hl ⊢
  unfold MessageQueue.push
  simp only [hreg, not_true_eq_false, if_false]
  by_cases hfull : ((Assoc.find q.message_queues_ topic).getD []).length ≥ q.maxSize topic
  · simp only [hfull, if_true]
    cases hc : (Assoc.find q.message_queues_ topic).getD [] with
    | nil => rw [hc] at hfull; simp at hfull; omega
    | cons x rest =>
      rw [hc] at hfull hl
      simp only [List.length_cons] at hfull hl
      refine ⟨_, rfl, rfl, rfl, rfl, ?_, ?_⟩
      · simp only [queued_set _ _ _ hs, Assoc.find_set, if_true, Option.getD_some]
      · simp only [queued_set _ _ _ hs]
        have : (x :: rest ++ [m]).length - q.maxSize topic = 1 := by
          simp only [List.length_append, List.length_cons, List.length_nil]; omega
        rw [this]; rfl
  · simp only [hfull, if_false]
    refine ⟨_, rfl, rfl, rfl, rfl, ?_, ?_⟩
    · simp only [queued_set _ _ _ hs, Assoc.find_set, if_true, Option.getD_some]
    · simp only [queued_set _ _ _ hs]
      have : ((Assoc.find q.message_queues_ topic).getD [] ++ [m]).length - q.maxSize topic
          = 0 := by
        simp only [List.length_append, List.length_cons, List.length_nil]; omega
      rw [this]; rfl

/-- Effect of a burst of pushes on a registered topic with capacity at least one: the
queue holds the last `maxSize` of what it held and what was pushed. -/
theorem pushAll_registered (topic : String) (msgs : List Message) (q : MessageQueue)
    (hreg : topic ∈ q.registered_topics_) (hk : 1 ≤ q.maxSize topic)
    (hs : queued q.message_queues_ topic = (Assoc.find q.message_queues_ topic).getD [])
    (hl : (queued q.message_queues_ topic).length ≤ q.maxSize topic) :
    ∃ q', q.pushAll topic msgs = some q' ∧
      q'.subscribers_ = q.subscribers_ ∧
      queued q'.message_queues_ topic
        = (queued q.message_queues_ topic ++ msgs).drop
            ((queued q.message_queues_ topic ++ msgs).length - q.maxSize topic) := by
  induction msgs generalizing q with
  | nil =>
    refine ⟨q, rfl, rfl, ?_⟩
    have : (queued q.message_queues_ topic ++ []).length - q.maxSize topic = 0 := by
      simp only [List.append_nil]; omega
    rw [this]; simp
  | cons m ms ih =>
    obtain ⟨q1, hp, hr1, hm1, hsub1, hs1, hq1⟩ := push_registered q topic m hreg hk hs hl
    have hl1 : (queued q1.message_queues_ topic).length ≤ q1.maxSize topic := by
      rw [hq1, hm1, List.length_drop]; omega
    obtain ⟨q2, hp2, hsub2, hq2⟩ := ih q1 (hr1 ▸ hreg) (hm1 ▸ hk) hs1 hl1
    refine ⟨q2, ?_, hsub2.trans hsub1, ?_⟩
    · simp [MessageQueue.pushAll, hp, hp2]
    · rw [hq2, hm1, hq1, drop_last_append]
      simp

/-! ## Container lemmas -/

theorem mem_insertSet {α : Type} [DecidableEq α] (x y : α) (s : List α) :
    y ∈ insertSet x s ↔ y = x ∨ y ∈ s := by
  unfold insertSet
  by_cases h : x ∈ s
  · simp only [h, if_true]
    constructor
    · exact Or.inr
    · rintro (rfl | h') <;> assumption
  · simp only [h, if_false, List.mem_append, List.mem_singleton]
    exact Or.comm

theorem mem_eraseSet {α : Type} [DecidableEq α] (x y : α) (s : List α) :
    y ∈ eraseSet x s ↔ y ∈ s ∧ y ≠ x := by
  simp [eraseSet]

theorem mem_foldl_insertSet {α β : Type} [DecidableEq α] (f : β → α) (l : List β) (s : List α)
    (y : α) :
    y ∈ l.foldl (fun es b => insertSet (f b) es) s ↔ y ∈ s ∨ ∃ b ∈ l, y = f b := by
  induction l generalizing s with
  | nil => simp
  | cons b r ih =>
    simp only [List.foldl_cons, ih, mem_insertSet, List.mem_cons]
    constructor
    · rintro ((rfl | h) | ⟨b', hb', rfl⟩)
      · exact Or.inr ⟨b, Or.inl rfl, rfl⟩
      · exact Or.inl h
      · exact Or.inr ⟨b', Or.inr hb', rfl⟩
    · rintro (h | ⟨b', rfl | hb', rfl⟩)
      · exact Or.inl (Or.inr h)
      · exact Or.inl (Or.inl rfl)
      · exact Or.inr ⟨b', hb', rfl⟩

theorem mem_foldl_eraseSet {α : Type} [DecidableEq α] (l : List α) (s : List α) (y : α) :
    y ∈ l.foldl (fun es e => eraseSet e es) s ↔ y ∈ s ∧ y ∉ l := by
  induction l generalizing s with
  | nil => simp
  | cons b r ih =>
    simp only [List.foldl_cons, ih, mem_eraseSet, List.mem_cons, not_or]
    tauto

theorem Assoc.mem_set {κ β : Type} [DecidableEq κ] (m : List (κ × β)) (k : κ) (v : β)
    (e : κ × β) (h : e ∈ Assoc.set m k v) : e ∈ m ∨ e = (k, v) := by
  induction m with
  | nil => simpa [Assoc.set] using h
  | cons e0 r ih =>
    obtain ⟨k0, v0⟩ := e0
    by_cases h0 : k0 = k
    · simp only [Assoc.set, h0, if_true, List.mem_cons] at h
      rcases h with h | h
      · exact Or.inr h
      · exact Or.inl (List.mem_cons_of_mem _ h)
    · simp only [Assoc.set, h0, if_false, List.mem_cons] at h
      rcases h with h | h
      · exact Or.inl (h ▸ List.mem_cons_self _ _)
      · rcases ih h with h' | h'
        · exact Or.inl (List.mem_cons_of_mem _ h')
        · exact Or.inr h'

theorem Assoc.mem_erase {κ β : Type} [DecidableEq κ] (m : List (κ × β)) (k : κ)
    (e : κ × β) (h : e ∈ Assoc.erase m k) : e ∈ m := by
  simp only [Assoc.erase, List.mem_filter] at h
  exact h.1

/-! ## Effect of the graph operations -/

theorem UpsertNode_find (g : MessageGraph) (info : NodeInfo) (n : String) :
    Assoc.find (g.UpsertNode info).nodes_ n
      = if n = info.node_name then
          some { (Assoc.find g.nodes_ info.node_name).getD NodeVertex.default with info := info }
        else Assoc.find g.nodes_ n := by
  simp only [MessageGraph.UpsertNode, Assoc.find_set]

theorem AddPublisher_find (g : MessageGraph) (node : NodeInfo) (k : TopicKey) (n : String) :
    Assoc.find (g.AddPublisher node k).nodes_ n
      = if n = node.node_name then
          some ⟨node,
            insertSet k ((Assoc.find g.nodes_ node.node_name).getD NodeVertex.default).publishes,
            ((Assoc.find g.nodes_ node.node_name).getD NodeVertex.default).subscribes⟩
        else Assoc.find g.nodes_ n := by
  unfold MessageGraph.AddPublisher MessageGraph.ConnectPublisherToSubscribers
  simp only [MessageGraph.UpsertNode]
  split <;> (simp only [Assoc.find_set]; split <;> simp)

theorem AddPublisher_publishersOf (g : MessageGraph) (node : NodeInfo) (k k' : TopicKey) :
    (g.AddPublisher node k).publishersOf k'
      = if k' = k then insertSet node.node_name (g.publishersOf k) else g.publishersOf k' := by
  unfold MessageGraph.AddPublisher MessageGraph.ConnectPublisherToSubscribers
  simp only [MessageGraph.UpsertNode, MessageGraph.publishersOf]
  split <;> (simp only [Assoc.find_set]; split <;> simp)

theorem AddPublisher_subscribers (g : MessageGraph) (node : NodeInfo) (k : TopicKey) :
    (g.AddPublisher node k).subscribers_by_topic_ = g.subscribers_by_topic_ := by
  unfold MessageGraph.AddPublisher MessageGraph.ConnectPublisherToSubscribers
  simp only [MessageGraph.UpsertNode]
  split <;> rfl

theorem AddPublisher_edges (g : MessageGraph) (node : NodeInfo) (k : TopicKey) (e : Edge) :
    e ∈ (g.AddPublisher node k).edges_
      ↔ e ∈ g.edges_ ∨ ∃ s ∈ g.subscribersOf k, e = ⟨node.node_name, s, k⟩ := by
  unfold MessageGraph.AddPublisher MessageGraph.ConnectPublisherToSubscribers
  simp only [MessageGraph.UpsertNode, MessageGraph.subscribersOf]
  split
  · rename_i h; simp [h]
  · rename_i subs h
    simp only [mem_foldl_insertSet, h, Option.getD_some]

theorem AddSubscriber_find (g : MessageGraph) (node : NodeInfo) (k : TopicKey) (n : String) :
    Assoc.find (g.AddSubscriber node k).nodes_ n
      = if n = node.node_name then
          some ⟨node,
            ((Assoc.find g.nodes_ node.node_name).getD NodeVertex.default).publishes,
            insertSet k ((Assoc.find g.nodes_ node.node_name).getD NodeVertex.default).subscribes⟩
        else Assoc.find g.nodes_ n := by
  unfold MessageGraph.AddSubscriber MessageGraph.ConnectPublishersToSubscriber
  simp only [MessageGraph.UpsertNode]
  split <;> (simp only [Assoc.find_set]; split <;> simp)

theorem AddSubscriber_subscribersOf (g : MessageGraph) (node : NodeInfo) (k k' : TopicKey) :
    (g.AddSubscriber node k).subscribersOf k'
      = if k' = k then insertSet node.node_name (g.subscribersOf k) else g.subscribersOf k' := by
  unfold MessageGraph.AddSubscriber MessageGraph.ConnectPublishersToSubscriber
  simp only [MessageGraph.UpsertNode, MessageGraph.subscribersOf]
  split <;> (simp only [Assoc.find_set]; split <;> simp)

theorem AddSubscriber_publishers (g : MessageGraph) (node : NodeInfo) (k : TopicKey) :
    (g.AddSubscriber node k).publishers_by_topic_ = g.publishers_by_topic_ := by
  unfold MessageGraph.AddSubscriber MessageGraph.ConnectPublishersToSubscriber
  simp only [MessageGraph.UpsertNode]
  split <;> rfl

theorem AddSubscriber_edges (g : MessageGraph) (node : NodeInfo) (k : TopicKey) (e : Edge) :
    e ∈ (g.AddSubscriber node k).edges_
      ↔ e ∈ g.edges_ ∨ ∃ p ∈ g.publishersOf k, e = ⟨p, node.node_name, k⟩ := by
  unfold MessageGraph.AddSubscriber MessageGraph.ConnectPublishersToSubscriber
  simp only [MessageGraph.UpsertNode, MessageGraph.publishersOf]
  split
  · rename_i h; simp [h]
  · rename_i pubs h
    simp only [mem_foldl_insertSet, h, Option.getD_some]

theorem RemoveEdgesBy_edges (g : MessageGraph) (node : String) (k : TopicKey) (b : Bool)
    (e : Edge) :
    e ∈ (g.RemoveEdgesBy node k b).edges_
      ↔ e ∈ g.edges_ ∧
        ¬ (e.key = k ∧ ((b = true ∧ e.src_node = node) ∨ (b = false ∧ e.dst_node = node))) := by
  have hk : e.key = k ↔ (e.key.topic = k.topic ∧ e.key.msg_type = k.msg_type) := by
    obtain ⟨a, b⟩ := k
    rcases h : e.key with ⟨c, d⟩
    simp
  simp only [MessageGraph.RemoveEdgesBy, mem_foldl_eraseSet, List.mem_filter, hk]
  cases b <;> simp <;> tauto

theorem CleanupIsolatedNodeIfAny_edges (g : MessageGraph) (n : String) :
    (g.CleanupIsolatedNodeIfAny n).edges_ = g.edges_ := by
  unfold MessageGraph.CleanupIsolatedNodeIfAny
  cases Assoc.find g.nodes_ n with
  | none => rfl
  | some v => dsimp only; split_ifs <;> rfl

theorem CleanupIsolatedNodeIfAny_publishers (g : MessageGraph) (n : String) :
    (g.CleanupIsolatedNodeIfAny n).publishers_by_topic_ = g.publishers_by_topic_ := by
  unfold MessageGraph.CleanupIsolatedNodeIfAny
  cases Assoc.find g.nodes_ n with
  | none => rfl
  | some v => dsimp only; split_ifs <;> rfl

theorem CleanupIsolatedNodeIfAny_subscribers (g : MessageGraph) (n : String) :
    (g.CleanupIsolatedNodeIfAny n).subscribers_by_topic_ = g.subscribers_by_topic_ := by
  unfold MessageGraph.CleanupIsolatedNodeIfAny
  cases Assoc.find g.nodes_ n with
  | none => rfl
  | some v => dsimp only; split_ifs <;> rfl

/-- The test made by `CleanupIsolatedNodeIfAny` before it erases a node. -/
theorem CleanupIsolatedNodeIfAny_find (g : MessageGraph) (n n' : String) :
    Assoc.find (g.CleanupIsolatedNodeIfAny n).nodes_ n'
      = if n' = n ∧ (∃ v, Assoc.find g.nodes_ n = some v ∧ v.publishes = [] ∧ v.subscribes = [])
            ∧ ∀ e ∈ g.edges_, e.src_node ≠ n ∧ e.dst_node ≠ n
        then none else Assoc.find g.nodes_ n' := by
  unfold MessageGraph.CleanupIsolatedNodeIfAny
  split
  · rename_i h
    simp [h]
  · rename_i v h
    by_cases hp : v.publishes = []
    · by_cases hs : v.subscribes = []
      · by_cases he : ∀ e ∈ g.edges_, e.src_node ≠ n ∧ e.dst_node ≠ n
        · have : g.edges_.any (fun e => decide (e.src_node = n ∨ e.dst_node = n)) = false := by
            rw [List.any_eq_false]
            intro e hmem
            have := he e hmem
            simp [this.1, this.2]
          simp only [hp, hs, this, List.isEmpty_nil, Bool.not_true, Bool.or_self,
            Bool.false_eq_true, if_false, Assoc.find_erase, h]
          by_cases hn : n' = n
          · rw [if_pos hn, if_pos ⟨hn, ⟨v, rfl, hp, hs⟩, he⟩]
          · rw [if_neg hn, if_neg (fun c => hn c.1)]
        · have : g.edges_.any (fun e => decide (e.src_node = n ∨ e.dst_node = n)) = true := by
            rw [List.any_eq_true]
            push_neg at he
            obtain ⟨e, hmem, hne⟩ := he
            refine ⟨e, hmem, ?_⟩
            by_cases h1 : e.src_node = n
            · simp [h1]
            · simp [h1, hne h1]
          simp only [hp, hs, this, List.isEmpty_nil, Bool.not_true, Bool.or_self,
            Bool.false_eq_true, if_false, if_true]
          rw [if_neg]
          exact fun hc => he hc.2.2
      · have hb : (!v.subscribes.isEmpty) = true := by
          cases hv : v.subscribes with
          | nil => exact absurd hv hs
          | cons a l => rfl
        simp only [hb, Bool.or_true, if_true]
        rw [if_neg]
        rintro ⟨-, ⟨v', hv', -, hs'⟩, -⟩
        rw [h] at hv'; cases hv'; exact hs hs'
    · have hb : (!v.publishes.isEmpty) = true := by
        cases hv : v.publishes with
        | nil => exact absurd hv hp
        | cons a l => rfl
      simp only [hb, Bool.true_or, if_true]
      rw [if_neg]
      rintro ⟨-, ⟨v', hv', hp', -⟩, -⟩
      rw [h] at hv'; cases hv'; exact hp hp'

theorem find_eraseFromIndex (index : List (TopicKey × List String)) (n : String)
    (k k' : TopicKey) :
    (Assoc.find (eraseFromIndex index n k) k').getD []
      = if k' = k then eraseSet n ((Assoc.find index k).getD [])
        else (Assoc.find index k').getD [] := by
  unfold eraseFromIndex
  cases hp : Assoc.find index k with
  | none =>
    dsimp only
    by_cases hk : k' = k
    · simp [hk, hp, eraseSet]
    · simp [hk]
  | some names =>
    dsimp only
    by_cases he : (eraseSet n names).isEmpty = true
    · simp only [he, if_true, Assoc.find_erase]
      by_cases hk : k' = k
      · simp only [hk, if_true, Option.getD_none, Option.getD_some]
        exact (List.isEmpty_iff.mp he).symm
      · simp [hk]
    · simp only [he, if_false]
      by_cases hk : k' = k
      · simp [hk, Assoc.find_set]
      · simp [hk, Assoc.find_set]

theorem mem_eraseFromIndex (index : List (TopicKey × List String)) (n : String)
    (k : TopicKey) (e : TopicKey × List String) (h : e ∈ eraseFromIndex index n k) :
    e.1 = k ∨ e ∈ index := by
  unfold eraseFromIndex at h
  cases hp : Assoc.find index k with
  | none => rw [hp] at h; exact Or.inr h
  | some names =>
    rw [hp] at h
    dsimp only at h
    split_ifs at h
    · exact Or.inr (Assoc.mem_erase _ _ _ h)
    · rcases Assoc.mem_set _ _ _ _ h with h' | h'
      · exact Or.inr h'
      · exact Or.inl (by rw [h'])

/-- `RemovePublisher` is `CleanupIsolatedNodeIfAny` applied to a graph `h` in which the key
is erased from the node's `publishes`, the node from the key's index entry, and the
node's outgoing edges on the key from the edge set. -/
theorem RemovePublisher_eq (g : MessageGraph) (node : NodeInfo) (k : TopicKey) :
    ∃ h : MessageGraph,
      g.RemovePublisher node k = h.CleanupIsolatedNodeIfAny node.node_name ∧
      (∀ n, Assoc.find h.nodes_ n
        = if n = node.node_name then
            (Assoc.find g.nodes_ node.node_name).map
              (fun v => { v with publishes := eraseSet k v.publishes })
          else Assoc.find g.nodes_ n) ∧
      (∀ e, e ∈ h.edges_ ↔ e ∈ g.edges_ ∧ ¬ (e.key = k ∧ e.src_node = node.node_name)) ∧
      (∀ k', h.publishersOf k'
        = if k' = k then eraseSet node.node_name (g.publishersOf k) else g.publishersOf k') ∧
      h.subscribers_by_topic_ = g.subscribers_by_topic_ ∧
      (∀ e ∈ h.publishers_by_topic_, e.1 = k ∨ e ∈ g.publishers_by_topic_) := by
  refine ⟨_, rfl, ?_, ?_, ?_, rfl, ?_⟩
  · intro n
    simp only [MessageGraph.RemoveEdgesBy]
    cases hn : Assoc.find g.nodes_ node.node_name with
    | none =>
      dsimp only
      by_cases h : n = node.node_name
      · simp [h, hn]
      · simp [h]
    | some v => simp [Assoc.find_set]
  · intro e
    rw [RemoveEdgesBy_edges]
    simp
  · intro k'
    simp only [MessageGraph.RemoveEdgesBy, MessageGraph.publishersOf, find_eraseFromIndex]
  · intro e he
    exact mem_eraseFromIndex _ _ _ _ he

/-- `RemoveSubscriber` is `CleanupIsolatedNodeIfAny` applied to a graph `h` in which the
key is erased from the node's `subscribes`, the node from the key's index entry, and the
node's incoming edges on the key from the edge set. -/
theorem RemoveSubscriber_eq (g : MessageGraph) (node : NodeInfo) (k : TopicKey) :
    ∃ h : MessageGraph,
      g.RemoveSubscriber node k = h.CleanupIsolatedNodeIfAny node.node_name ∧
      (∀ n, Assoc.find h.nodes_ n
        = if n = node.node_name then
            (Assoc.find g.nodes_ node.node_name).map
              (fun v => { v with subscribes := eraseSet k v.subscribes })
          else Assoc.find g.nodes_ n) ∧
      (∀ e, e ∈ h.edges_ ↔ e ∈ g.edges_ ∧ ¬ (e.key = k ∧ e.dst_node = node.node_name)) ∧
      (∀ k', h.subscribersOf k'
        = if k' = k then eraseSet node.node_name (g.subscribersOf k) else g.subscribersOf k') ∧
      h.publishers_by_topic_ = g.publishers_by_topic_ ∧
      (∀ e ∈ h.subscribers_by_topic_, e.1 = k ∨ e ∈ g.subscribers_by_topic_) := by
  refine ⟨_, rfl, ?_, ?_, ?_, rfl, ?_⟩
  · intro n
    simp only [MessageGraph.RemoveEdgesBy]
    cases hn : Assoc.find g.nodes_ node.node_name with
    | none =>
      dsimp only
      by_cases h : n = node.node_name
      · simp [h, hn]
      · simp [h]
    | some v => simp [Assoc.find_set]
  · intro e
    rw [RemoveEdgesBy_edges]
    simp
  · intro k'
    simp only [MessageGraph.RemoveEdgesBy, MessageGraph.subscribersOf, find_eraseFromIndex]
  · intro e he
    exact mem_eraseFromIndex _ _ _ _ he

theorem publishersOf_congr {g h : MessageGraph}
    (e : h.publishers_by_topic_ = g.publishers_by_topic_) (k : TopicKey) :
    h.publishersOf k = g.publishersOf k := by
  simp only [MessageGraph.publishersOf, e]

theorem subscribersOf_congr {g h : MessageGraph}
    (e : h.subscribers_by_topic_ = g.subscribers_by_topic_) (k : TopicKey) :
    h.subscribersOf k = g.subscribersOf k := by
  simp only [MessageGraph.subscribersOf, e]

theorem EdgeInv_empty : MessageGraph.empty.EdgeInv := by
  intro p s k
  simp [MessageGraph.empty, MessageGraph.publishersOf, Assoc.find]

theorem IndexInv_empty : MessageGraph.empty.IndexInv := by
  constructor <;> intro k n h <;>
    simp [MessageGraph.empty, MessageGraph.publishersOf, MessageGraph.subscribersOf,
      Assoc.find] at h

theorem EdgeInv_UpsertNode {g : MessageGraph} (h : g.EdgeInv) (info : NodeInfo) :
    (g.UpsertNode info).EdgeInv := h

theorem EdgeInv_AddPublisher {g : MessageGraph} (h : g.EdgeInv) (node : NodeInfo)
    (k : TopicKey) : (g.AddPublisher node k).EdgeInv := by
  intro p s k'
  rw [AddPublisher_edges, AddPublisher_publishersOf,
    subscribersOf_congr (AddPublisher_subscribers g node k), h p s k']
  by_cases hk : k' = k
  · subst hk
    simp only [if_true, mem_insertSet, Edge.mk.injEq, and_true]
    constructor
    · rintro (⟨hp, hs⟩ | ⟨s0, hs0, rfl, rfl⟩)
      · exact ⟨Or.inr hp, hs⟩
      · exact ⟨Or.inl rfl, hs0⟩
    · rintro ⟨rfl | hp, hs⟩
      · exact Or.inr ⟨s, hs, rfl, rfl⟩
      · exact Or.inl ⟨hp, hs⟩
  · simp only [hk, if_false, Edge.mk.injEq, and_false, exists_false, or_false]

theorem EdgeInv_AddSubscriber {g : MessageGraph} (h : g.EdgeInv) (node : NodeInfo)
    (k : TopicKey) : (g.AddSubscriber node k).EdgeInv := by
  intro p s k'
  rw [AddSubscriber_edges, AddSubscriber_subscribersOf,
    publishersOf_congr (AddSubscriber_publishers g node k), h p s k']
  by_cases hk : k' = k
  · subst hk
    simp only [if_true, mem_insertSet, Edge.mk.injEq, and_true]
    constructor
    · rintro (⟨hp, hs⟩ | ⟨p0, hp0, rfl, rfl⟩)
      · exact ⟨hp, Or.inr hs⟩
      · exact ⟨hp0, Or.inl rfl⟩
    · rintro ⟨hp, rfl | hs⟩
      · exact Or.inr ⟨p, hp, rfl, rfl⟩
      · exact Or.inl ⟨hp, hs⟩
  · simp only [hk, if_false, Edge.mk.injEq, and_false, exists_false, or_false]

theorem EdgeInv_Cleanup {h : MessageGraph} (hh : h.EdgeInv) (n : String) :
    (h.CleanupIsolatedNodeIfAny n).EdgeInv := by
  intro p s k
  rw [CleanupIsolatedNodeIfAny_edges,
    publishersOf_congr (CleanupIsolatedNodeIfAny_publishers h n),
    subscribersOf_congr (CleanupIsolatedNodeIfAny_subscribers h n)]
  exact hh p s k

theorem IndexInv_Cleanup {h : MessageGraph} (hh : h.IndexInv) (n : String) :
    (h.CleanupIsolatedNodeIfAny n).IndexInv := by
  constructor
  · intro k n' hn'
    rw [publishersOf_congr (CleanupIsolatedNodeIfAny_publishers h n)] at hn'
    obtain ⟨v, hv, hk⟩ := hh.1 k n' hn'
    refine ⟨v, ?_, hk⟩
    rw [CleanupIsolatedNodeIfAny_find, if_neg, hv]
    rintro ⟨rfl, ⟨v0, hv0, hp0, -⟩, -⟩
    rw [hv] at hv0; cases hv0
    rw [hp0] at hk; cases hk
  · intro k n' hn'
    rw [subscribersOf_congr (CleanupIsolatedNodeIfAny_subscribers h n)] at hn'
    obtain ⟨v, hv, hk⟩ := hh.2 k n' hn'
    refine ⟨v, ?_, hk⟩
    rw [CleanupIsolatedNodeIfAny_find, if_neg, hv]
    rintro ⟨rfl, ⟨v0, hv0, -, hs0⟩, -⟩
    rw [hv] at hv0; cases hv0
    rw [hs0] at hk; cases hk

/-- The graph `h` of `RemovePublisher_eq` keeps both invariants. -/
theorem RemovePublisher_pre {g : MessageGraph} (he : g.EdgeInv) (hi : g.IndexInv)
    (node : NodeInfo) (k : TopicKey) :
    ∃ h : MessageGraph,
      g.RemovePublisher node k = h.CleanupIsolatedNodeIfAny node.node_name ∧
      h.EdgeInv ∧ h.IndexInv ∧
      (∀ n v', Assoc.find h.nodes_ n = some v' → ∃ v, Assoc.find g.nodes_ n = some v ∧
        v'.info = v.info ∧ v'.subscribes = v.subscribes ∧
        (∀ x, x ∈ v'.publishes ↔ x ∈ v.publishes ∧ (n = node.node_name → x ≠ k))) := by
  obtain ⟨h, heq, hfind, hedges, hpubs, hsubs, -⟩ := RemovePublisher_eq g node k
  refine ⟨h, heq, ?_, ?_, ?_⟩
  · intro p s k'
    rw [hedges, hpubs, subscribersOf_congr hsubs, he p s k']
    by_cases hk : k' = k
    · subst hk
      simp only [if_true, mem_eraseSet, true_and]
      tauto
    · simp only [hk, if_false, false_and, not_false_eq_true, and_true]
  · constructor
    · intro k' n hn
      rw [hpubs] at hn
      by_cases hk : k' = k
      · subst hk
        simp only [if_true, mem_eraseSet] at hn
        obtain ⟨v, hv, hkv⟩ := hi.1 k' n hn.1
        exact ⟨v, by rw [hfind, if_neg hn.2, hv], hkv⟩
      · simp only [hk, if_false] at hn
        obtain ⟨v, hv, hkv⟩ := hi.1 k' n hn
        by_cases hnn : n = node.node_name
        · subst hnn
          refine ⟨_, by rw [hfind, if_pos rfl, hv]; rfl, ?_⟩
          exact (mem_eraseSet _ _ _).2 ⟨hkv, hk⟩
        · exact ⟨v, by rw [hfind, if_neg hnn, hv], hkv⟩
    · intro k' n hn
      rw [subscribersOf_congr hsubs] at hn
      obtain ⟨v, hv, hkv⟩ := hi.2 k' n hn
      by_cases hnn : n = node.node_name
      · subst hnn
        exact ⟨{ v with publishes := eraseSet k v.publishes },
          by rw [hfind, if_pos rfl, hv]; rfl, hkv⟩
      · exact ⟨v, by rw [hfind, if_neg hnn, hv], hkv⟩
  · intro n v' hv'
    rw [hfind] at hv'
    by_cases hnn : n = node.node_name
    · subst hnn
      rw [if_pos rfl] at hv'
      cases hv : Assoc.find g.nodes_ node.node_name with
      | none => rw [hv] at hv'; cases hv'
      | some v =>
        rw [hv] at hv'
        simp only [Option.map_some', Option.some.injEq] at hv'
        subst hv'
        exact ⟨v, rfl, rfl, rfl, fun x => by simp [mem_eraseSet]⟩
    · rw [if_neg hnn] at hv'
      exact ⟨v', hv', rfl, rfl, fun x => by simp [hnn]⟩

/-- The graph `h` of `RemoveSubscriber_eq` keeps both invariants. -/
theorem RemoveSubscriber_pre {g : MessageGraph} (he : g.EdgeInv) (hi : g.IndexInv)
    (node : NodeInfo) (k : TopicKey) :
    ∃ h : MessageGraph,
      g.RemoveSubscriber node k = h.CleanupIsolatedNodeIfAny node.node_name ∧
      h.EdgeInv ∧ h.IndexInv ∧
      (∀ n v', Assoc.find h.nodes_ n = some v' → ∃ v, Assoc.find g.nodes_ n = some v ∧
        v'.info = v.info ∧ v'.publishes = v.publishes ∧
        (∀ x, x ∈ v'.subscribes ↔ x ∈ v.subscribes ∧ (n = node.node_name → x ≠ k))) := by
  obtain ⟨h, heq, hfind, hedges, hsubs, hpubs, -⟩ := RemoveSubscriber_eq g node k
  refine ⟨h, heq, ?_, ?_, ?_⟩
  · intro p s k'
    rw [hedges, hsubs, publishersOf_congr hpubs, he p s k']
    by_cases hk : k' = k
    · subst hk
      simp only [if_true, mem_eraseSet, true_and]
      tauto
    · simp only [hk, if_false, false_and, not_false_eq_true, and_true]
  · constructor
    · intro k' n hn
      rw [publishersOf_congr hpubs] at hn
      obtain ⟨v, hv, hkv⟩ := hi.1 k' n hn
      by_cases hnn : n = node.node_name
      · subst hnn
        exact ⟨{ v with subscribes := eraseSet k v.subscribes },
          by rw [hfind, if_pos rfl, hv]; rfl, hkv⟩
      · exact ⟨v, by rw [hfind, if_neg hnn, hv], hkv⟩
    · intro k' n hn
      rw [hsubs] at hn
      by_cases hk : k' = k
      · subst hk
        simp only [if_true, mem_eraseSet] at hn
        obtain ⟨v, hv, hkv⟩ := hi.2 k' n hn.1
        exact ⟨v, by rw [hfind, if_neg hn.2, hv], hkv⟩
      · simp only [hk, if_false] at hn
        obtain ⟨v, hv, hkv⟩ := hi.2 k' n hn
        by_cases hnn : n = node.node_name
        · subst hnn
          refine ⟨_, by rw [hfind, if_pos rfl, hv]; rfl, ?_⟩
          exact (mem_eraseSet _ _ _).2 ⟨hkv, hk⟩
        · exact ⟨v, by rw [hfind, if_neg hnn, hv], hkv⟩
  · intro n v' hv'
    rw [hfind] at hv'
    by_cases hnn : n = node.node_name
    · subst hnn
      rw [if_pos rfl] at hv'
      cases hv : Assoc.find g.nodes_ node.node_name with
      | none => rw [hv] at hv'; cases hv'
      | some v =>
        rw [hv] at hv'
        simp only [Option.map_some', Option.some.injEq] at hv'
        subst hv'
        exact ⟨v, rfl, rfl, rfl, fun x => by simp [mem_eraseSet]⟩
    · rw [if_neg hnn] at hv'
      exact ⟨v', hv', rfl, rfl, fun x => by simp [hnn]⟩

theorem IndexInv_UpsertNode {g : MessageGraph} (h : g.IndexInv) (info : NodeInfo) :
    (g.UpsertNode info).IndexInv := by
  constructor
  · intro k n hn
    obtain ⟨v, hv, hk⟩ := h.1 k n hn
    rw [UpsertNode_find]
    by_cases hnn : n = info.node_name
    · subst hnn
      rw [if_pos rfl, hv]
      exact ⟨_, rfl, hk⟩
    · rw [if_neg hnn]
      exact ⟨v, hv, hk⟩
  · intro k n hn
    obtain ⟨v, hv, hk⟩ := h.2 k n hn
    rw [UpsertNode_find]
    by_cases hnn : n = info.node_name
    · subst hnn
      rw [if_pos rfl, hv]
      exact ⟨_, rfl, hk⟩
    · rw [if_neg hnn]
      exact ⟨v, hv, hk⟩

theorem IndexInv_AddPublisher {g : MessageGraph} (h : g.IndexInv) (node : NodeInfo)
    (k : TopicKey) : (g.AddPublisher node k).IndexInv := by
  constructor
  · intro k' n hn
    rw [AddPublisher_publishersOf] at hn
    rw [AddPublisher_find]
    by_cases hnn : n = node.node_name
    · subst hnn
      rw [if_pos rfl]
      refine ⟨_, rfl, ?_⟩
      by_cases hk : k' = k
      · subst hk; exact (mem_insertSet _ _ _).2 (Or.inl rfl)
      · rw [if_neg hk] at hn
        obtain ⟨v, hv, hkv⟩ := h.1 k' _ hn
        rw [hv]
        exact (mem_insertSet _ _ _).2 (Or.inr hkv)
    · rw [if_neg hnn]
      by_cases hk : k' = k
      · subst hk
        rw [if_pos rfl, mem_insertSet] at hn
        rcases hn with hn | hn
        · exact absurd hn hnn
        · exact h.1 k' n hn
      · rw [if_neg hk] at hn
        exact h.1 k' n hn
  · intro k' n hn
    rw [subscribersOf_congr (AddPublisher_subscribers g node k)] at hn
    obtain ⟨v, hv, hkv⟩ := h.2 k' n hn
    rw [AddPublisher_find]
    by_cases hnn : n = node.node_name
    · subst hnn
      rw [if_pos rfl, hv]
      exact ⟨_, rfl, hkv⟩
    · rw [if_neg hnn]
      exact ⟨v, hv, hkv⟩

theorem IndexInv_AddSubscriber {g : MessageGraph} (h : g.IndexInv) (node : NodeInfo)
    (k : TopicKey) : (g.AddSubscriber node k).IndexInv := by
  constructor
  · intro k' n hn
    rw [publishersOf_congr (AddSubscriber_publishers g node k)] at hn
    obtain ⟨v, hv, hkv⟩ := h.1 k' n hn
    rw [AddSubscriber_find]
    by_cases hnn : n = node.node_name
    · subst hnn
      rw [if_pos rfl, hv]
      exact ⟨_, rfl, hkv⟩
    · rw [if_neg hnn]
      exact ⟨v, hv, hkv⟩
  · intro k' n hn
    rw [AddSubscriber_subscribersOf] at hn
    rw [AddSubscriber_find]
    by_cases hnn : n = node.node_name
    · subst hnn
      rw [if_pos rfl]
      refine ⟨_, rfl, ?_⟩
      by_cases hk : k' = k
      · subst hk; exact (mem_insertSet _ _ _).2 (Or.inl rfl)
      · rw [if_neg hk] at hn
        obtain ⟨v, hv, hkv⟩ := h.2 k' _ hn
        rw [hv]
        exact (mem_insertSet _ _ _).2 (Or.inr hkv)
    · rw [if_neg hnn]
      by_cases hk : k' = k
      · subst hk
        rw [if_pos rfl, mem_insertSet] at hn
        rcases hn with hn | hn
        · exact absurd hn hnn
        · exact h.2 k' n hn
      · rw [if_neg hk] at hn
        exact h.2 k' n hn

/-- Every public operation keeps the edge invariant and the index invariant. -/
theorem Inv_apply {g : MessageGraph} (he : g.EdgeInv) (hi : g.IndexInv) (op : GraphOp) :
    (g.apply op).EdgeInv ∧ (g.apply op).IndexInv := by
  cases op with
  | UpsertNode info => exact ⟨EdgeInv_UpsertNode he info, IndexInv_UpsertNode hi info⟩
  | AddPublisher node k => exact ⟨EdgeInv_AddPublisher he node k, IndexInv_AddPublisher hi node k⟩
  | AddSubscriber node k =>
    exact ⟨EdgeInv_AddSubscriber he node k, IndexInv_AddSubscriber hi node k⟩
  | RemovePublisher node k =>
    obtain ⟨h, heq, he', hi', -⟩ := RemovePublisher_pre he hi node k
    simp only [MessageGraph.apply, heq]
    exact ⟨EdgeInv_Cleanup he' _, IndexInv_Cleanup hi' _⟩
  | RemoveSubscriber node k =>
    obtain ⟨h, heq, he', hi', -⟩ := RemoveSubscriber_pre he hi node k
    simp only [MessageGraph.apply, heq]
    exact ⟨EdgeInv_Cleanup he' _, IndexInv_Cleanup hi' _⟩

theorem Inv_applyAll (ops : List GraphOp) {g : MessageGraph} (he : g.EdgeInv)
    (hi : g.IndexInv) : (g.applyAll ops).EdgeInv ∧ (g.applyAll ops).IndexInv := by
  induction ops generalizing g with
  | nil => exact ⟨he, hi⟩
  | cons op r ih =>
    obtain ⟨he', hi'⟩ := Inv_apply he hi op
    exact ih he' hi'

theorem applyAll_append (g : MessageGraph) (a b : List GraphOp) :
    g.applyAll (a ++ b) = (g.applyAll a).applyAll b := by
  simp [MessageGraph.applyAll, List.foldl_append]

/-- A node that survives the `CleanupIsolatedNodeIfAny` of a graph with both invariants
has a publication or a subscription. -/
theorem Cleanup_live {h : MessageGraph} (he : h.EdgeInv) (hi : h.IndexInv) (n : String)
    (v : NodeVertex) (hv : Assoc.find (h.CleanupIsolatedNodeIfAny n).nodes_ n = some v) :
    Assoc.find h.nodes_ n = some v ∧ (v.publishes ≠ [] ∨ v.subscribes ≠ []) := by
  rw [CleanupIsolatedNodeIfAny_find] at hv
  split at hv
  · cases hv
  · rename_i hc
    refine ⟨hv, ?_⟩
    by_contra hcon
    push_neg at hcon
    apply hc
    refine ⟨rfl, ⟨v, hv, hcon.1, hcon.2⟩, ?_⟩
    intro e hmem
    obtain ⟨p, s, k⟩ := e
    obtain ⟨hp, hs⟩ := (he p s k).1 hmem
    constructor
    · rintro rfl
      obtain ⟨v0, hv0, hk0⟩ := hi.1 k _ hp
      rw [hv] at hv0; cases hv0
      rw [hcon.1] at hk0; cases hk0
    · rintro rfl
      obtain ⟨v0, hv0, hk0⟩ := hi.2 k _ hs
      rw [hv] at hv0; cases hv0
      rw [hcon.2] at hk0; cases hk0

theorem Cleanup_find_some {h : MessageGraph} {n n' : String} {v : NodeVertex}
    (hv : Assoc.find (h.CleanupIsolatedNodeIfAny n).nodes_ n' = some v) :
    Assoc.find h.nodes_ n' = some v := by
  rw [CleanupIsolatedNodeIfAny_find] at hv
  split at hv
  · cases hv
  · exact hv

/-- One removal for node `n`: if `n` is still present, it has a publication or a
subscription, and its sets have only shrunk, without the removed key. -/
theorem removal_step {g : MessageGraph} (he : g.EdgeInv) (hi : g.IndexInv) (n : String)
    (r : GraphOp) (hr : r.isRemovalOf n = true) (v' : NodeVertex)
    (hv' : Assoc.find (g.apply r).nodes_ n = some v') :
    (v'.publishes ≠ [] ∨ v'.subscribes ≠ []) ∧
    ∃ v, Assoc.find g.nodes_ n = some v ∧
      (∀ x ∈ v'.publishes, x ∈ v.publishes ∧ r.removesPublisher n x = false) ∧
      (∀ x ∈ v'.subscribes, x ∈ v.subscribes ∧ r.removesSubscriber n x = false) := by
  cases r with
  | UpsertNode info => simp [GraphOp.isRemovalOf] at hr
  | AddPublisher node k => simp [GraphOp.isRemovalOf] at hr
  | AddSubscriber node k => simp [GraphOp.isRemovalOf] at hr
  | RemovePublisher node k =>
    simp only [GraphOp.isRemovalOf, decide_eq_true_eq] at hr
    subst hr
    obtain ⟨h, heq, he', hi', hsh⟩ := RemovePublisher_pre he hi node k
    simp only [MessageGraph.apply, heq] at hv'
    obtain ⟨hv1, hlive⟩ := Cleanup_live he' hi' _ _ hv'
    obtain ⟨v, hv, -, hsub, hpub⟩ := hsh _ _ hv1
    refine ⟨hlive, v, hv, ?_, ?_⟩
    · intro x hx
      have := (hpub x).1 hx
      refine ⟨this.1, ?_⟩
      simp only [GraphOp.removesPublisher, decide_True, Bool.true_and, decide_eq_false_iff_not]
      exact fun e => this.2 rfl e.symm
    · intro x hx
      exact ⟨hsub ▸ hx, rfl⟩
  | RemoveSubscriber node k =>
    simp only [GraphOp.isRemovalOf, decide_eq_true_eq] at hr
    subst hr
    obtain ⟨h, heq, he', hi', hsh⟩ := RemoveSubscriber_pre he hi node k
    simp only [MessageGraph.apply, heq] at hv'
    obtain ⟨hv1, hlive⟩ := Cleanup_live he' hi' _ _ hv'
    obtain ⟨v, hv, -, hpub, hsub⟩ := hsh _ _ hv1
    refine ⟨hlive, v, hv, ?_, ?_⟩
    · intro x hx
      exact ⟨hpub ▸ hx, rfl⟩
    · intro x hx
      have := (hsub x).1 hx
      refine ⟨this.1, ?_⟩
      simp only [GraphOp.removesSubscriber, decide_True, Bool.true_and, decide_eq_false_iff_not]
      exact fun e => this.2 rfl e.symm

/-- A sequence of removals for node `n`: if `n` is still present, its sets hold only keys
it had before and that no removal of the sequence names. -/
theorem removals_shrink (n : String) (rs : List GraphOp) {g : MessageGraph} (he : g.EdgeInv)
    (hi : g.IndexInv) (hrs : ∀ r ∈ rs, r.isRemovalOf n = true) (v' : NodeVertex)
    (hv' : Assoc.find (g.applyAll rs).nodes_ n = some v') :
    ∃ v, Assoc.find g.nodes_ n = some v ∧
      (∀ x ∈ v'.publishes, x ∈ v.publishes ∧ ∀ r ∈ rs, r.removesPublisher n x = false) ∧
      (∀ x ∈ v'.subscribes, x ∈ v.subscribes ∧ ∀ r ∈ rs, r.removesSubscriber n x = false) := by
  induction rs generalizing g with
  | nil => exact ⟨v', hv', fun x hx => ⟨hx, by simp⟩, fun x hx => ⟨hx, by simp⟩⟩
  | cons r rest ih =>
    obtain ⟨he1, hi1⟩ := Inv_apply he hi r
    obtain ⟨v1, hv1, hp1, hs1⟩ := ih he1 hi1 (fun r' hr' => hrs r' (List.mem_cons_of_mem _ hr')) hv'
    obtain ⟨-, v, hv, hp, hs⟩ := removal_step he hi n r (hrs r (List.mem_cons_self _ _)) v1 hv1
    refine ⟨v, hv, ?_, ?_⟩
    · intro x hx
      obtain ⟨hx1, hr1⟩ := hp1 x hx
      obtain ⟨hx0, hr0⟩ := hp x hx1
      refine ⟨hx0, ?_⟩
      intro r' hr'
      rcases List.mem_cons.1 hr' with rfl | h'
      · exact hr0
      · exact hr1 r' h'
    · intro x hx
      obtain ⟨hx1, hr1⟩ := hs1 x hx
      obtain ⟨hx0, hr0⟩ := hs x hx1
      refine ⟨hx0, ?_⟩
      intro r' hr'
      rcases List.mem_cons.1 hr' with rfl | h'
      · exact hr0
      · exact hr1 r' h'

/-! ## Targets table lemmas -/

theorem NodeInfoEqual_iff (a b : NodeInfo) :
    NodeInfoEqual a b = true ↔ a.ip = b.ip ∧ a.port = b.port := by
  simp [NodeInfoEqual]

theorem mem_insertTarget (n : NodeInfo) (ts : List NodeInfo) (y : NodeInfo) :
    y ∈ insertTarget n ts ↔ y ∈ ts ∨ (y = n ∧ ∀ z ∈ ts, NodeInfoEqual z n = false) := by
  unfold insertTarget
  by_cases h : ts.any (fun x => NodeInfoEqual x n) = true
  · simp only [h, if_true]
    constructor
    · exact Or.inl
    · rintro (h' | ⟨-, h'⟩)
      · exact h'
      · rw [List.any_eq_true] at h
        obtain ⟨z, hz, hz'⟩ := h
        rw [h' z hz] at hz'; cases hz'
  · rw [if_neg h]
    simp only [List.mem_append, List.mem_singleton]
    have : ∀ z ∈ ts, NodeInfoEqual z n = false := by
      intro z hz
      cases hb : NodeInfoEqual z n with
      | false => rfl
      | true => exact absurd (List.any_eq_true.2 ⟨z, hz, hb⟩) h
    constructor
    · rintro (h' | h')
      · exact Or.inl h'
      · exact Or.inr ⟨h', this⟩
    · rintro (h' | ⟨h', -⟩)
      · exact Or.inl h'
      · exact Or.inr h'

/-- Inserting targets one by one: an address is in the result exactly when it was there
or is the address of one of the inserted targets. -/
theorem addr_mem_foldl_insertTarget (add ts : List NodeInfo) (x : NodeInfo) :
    (∃ y ∈ add.foldl (fun ts n => insertTarget n ts) ts, NodeInfoEqual y x = true)
      ↔ (∃ y ∈ ts, NodeInfoEqual y x = true) ∨ (∃ y ∈ add, NodeInfoEqual y x = true) := by
  induction add generalizing ts with
  | nil => simp
  | cons n r ih =>
    rw [List.foldl_cons, ih]
    constructor
    · rintro (⟨y, hy, hyx⟩ | ⟨y, hy, hyx⟩)
      · rcases (mem_insertTarget n ts y).1 hy with h | ⟨rfl, -⟩
        · exact Or.inl ⟨y, h, hyx⟩
        · exact Or.inr ⟨y, List.mem_cons_self _ _, hyx⟩
      · exact Or.inr ⟨y, List.mem_cons_of_mem _ hy, hyx⟩
    · rintro (⟨y, hy, hyx⟩ | ⟨y, hy, hyx⟩)
      · exact Or.inl ⟨y, (mem_insertTarget n ts y).2 (Or.inl hy), hyx⟩
      · rcases List.mem_cons.1 hy with rfl | hy'
        · by_cases hall : ∀ z ∈ ts, NodeInfoEqual z y = false
          · exact Or.inl ⟨y, (mem_insertTarget y ts y).2 (Or.inr ⟨rfl, hall⟩), hyx⟩
          · push_neg at hall
            obtain ⟨z, hz, hzy⟩ := hall
            have hzy' : NodeInfoEqual z y = true := by
              cases hb : NodeInfoEqual z y with
              | false => exact absurd hb hzy
              | true => rfl
            refine Or.inl ⟨z, (mem_insertTarget y ts z).2 (Or.inl hz), ?_⟩
            rw [NodeInfoEqual_iff] at hzy' hyx ⊢
            exact ⟨hzy'.1.trans hyx.1, hzy'.2.trans hyx.2⟩
        · exact Or.inr ⟨y, hy', hyx⟩

theorem mem_foldl_insertTarget (add ts : List NodeInfo) (y : NodeInfo)
    (h : y ∈ add.foldl (fun ts n => insertTarget n ts) ts) : y ∈ ts ∨ y ∈ add := by
  induction add generalizing ts with
  | nil => exact Or.inl h
  | cons n r ih =>
    rcases ih _ h with h' | h'
    · rcases (mem_insertTarget n ts y).1 h' with h'' | ⟨rfl, -⟩
      · exact Or.inl h''
      · exact Or.inr (List.mem_cons_self _ _)
    · exact Or.inr (List.mem_cons_of_mem _ h')

theorem mem_foldl_eraseTarget (rem ts : List NodeInfo) (y : NodeInfo) :
    y ∈ rem.foldl (fun ts n => eraseTarget n ts) ts
      ↔ y ∈ ts ∧ ∀ r ∈ rem, NodeInfoEqual y r = false := by
  induction rem generalizing ts with
  | nil => simp
  | cons n r ih =>
    rw [List.foldl_cons, ih]
    simp only [eraseTarget, List.mem_filter, Bool.not_eq_true', List.mem_cons, forall_eq_or_imp]
    tauto

theorem getTargets_eq (pm : PollManager) (topic : String) :
    pm.getTargets topic = (Assoc.find pm.topic_targets_ topic).getD [] := by
  unfold PollManager.getTargets
  cases Assoc.find pm.topic_targets_ topic <;> rfl

theorem getTargets_applyUpdate (pm : PollManager) (update : TopicTargetsUpdate) (t : String) :
    (pm.applyUpdate update).getTargets t
      = if t = update.topic then
          update.remove_targets.foldl (fun ts n => eraseTarget n ts)
            (update.add_targets.foldl (fun ts n => insertTarget n ts)
              (pm.getTargets update.topic))
        else pm.getTargets t := by
  simp only [getTargets_eq, PollManager.applyUpdate, Assoc.find_set]
  split <;> simp

/-- The targets of the updated topic after `applyUpdate`, address by address. -/
theorem addr_mem_applyUpdate (pm : PollManager) (update : TopicTargetsUpdate) (x : NodeInfo) :
    (∃ y ∈ (pm.applyUpdate update).getTargets update.topic, NodeInfoEqual y x = true)
      ↔ ((∃ y ∈ pm.getTargets update.topic, NodeInfoEqual y x = true)
          ∨ (∃ y ∈ update.add_targets, NodeInfoEqual y x = true))
        ∧ ¬ ∃ y ∈ update.remove_targets, NodeInfoEqual y x = true := by
  rw [getTargets_applyUpdate, if_pos rfl, ← addr_mem_foldl_insertTarget]
  constructor
  · rintro ⟨y, hy, hyx⟩
    rw [mem_foldl_eraseTarget] at hy
    refine ⟨⟨y, hy.1, hyx⟩, ?_⟩
    rintro ⟨r, hr, hrx⟩
    have := hy.2 r hr
    rw [NodeInfoEqual_iff] at hyx hrx
    have hyr : NodeInfoEqual y r = true :=
      (NodeInfoEqual_iff y r).2 ⟨hyx.1.trans hrx.1.symm, hyx.2.trans hrx.2.symm⟩
    rw [this] at hyr; cases hyr
  · rintro ⟨⟨y, hy, hyx⟩, hno⟩
    refine ⟨y, (mem_foldl_eraseTarget _ _ _).2 ⟨hy, ?_⟩, hyx⟩
    intro r hr
    cases hb : NodeInfoEqual y r with
    | false => rfl
    | true =>
      exfalso
      apply hno
      refine ⟨r, hr, ?_⟩
      rw [NodeInfoEqual_iff] at hb hyx ⊢
      exact ⟨hb.1.symm.trans hyx.1, hb.2.symm.trans hyx.2⟩

/-! ## Requests: graph part -/

theorem handle_graph (g : MessageGraph) (c : RpcCall) :
    (RosRpcServiceImpl.handle g c).1 = g.apply c.toOp := by
  cases c <;> rfl

theorem AddPublisher_mem_publishers (g : MessageGraph) (node : NodeInfo) (k : TopicKey)
    (e : TopicKey × List String) (h : e ∈ (g.AddPublisher node k).publishers_by_topic_) :
    e.1 = k ∨ e ∈ g.publishers_by_topic_ := by
  unfold MessageGraph.AddPublisher MessageGraph.ConnectPublisherToSubscribers at h
  simp only [MessageGraph.UpsertNode] at h
  have key : e ∈ Assoc.set g.publishers_by_topic_ k
      (insertSet node.node_name ((Assoc.find g.publishers_by_topic_ k).getD [])) := by
    split at h <;> exact h
  rcases Assoc.mem_set _ _ _ _ key with h' | h'
  · exact Or.inr h'
  · exact Or.inl (by rw [h'])

theorem AddSubscriber_mem_subscribers (g : MessageGraph) (node : NodeInfo) (k : TopicKey)
    (e : TopicKey × List String) (h : e ∈ (g.AddSubscriber node k).subscribers_by_topic_) :
    e.1 = k ∨ e ∈ g.subscribers_by_topic_ := by
  unfold MessageGraph.AddSubscriber MessageGraph.ConnectPublishersToSubscriber at h
  simp only [MessageGraph.UpsertNode] at h
  have key : e ∈ Assoc.set g.subscribers_by_topic_ k
      (insertSet node.node_name ((Assoc.find g.subscribers_by_topic_ k).getD [])) := by
    split at h <;> exact h
  rcases Assoc.mem_set _ _ _ _ key with h' | h'
  · exact Or.inr h'
  · exact Or.inl (by rw [h'])

/-- The indexes after a request hold the keys they held, and the key of the request. -/
theorem mem_index_apply (g : MessageGraph) (c : RpcCall) :
    (∀ e ∈ (g.apply c.toOp).publishers_by_topic_,
      e.1 = ⟨c.topic_name, c.msg_type⟩ ∨ e ∈ g.publishers_by_topic_) ∧
    (∀ e ∈ (g.apply c.toOp).subscribers_by_topic_,
      e.1 = ⟨c.topic_name, c.msg_type⟩ ∨ e ∈ g.subscribers_by_topic_) := by
  cases c with
  | Subscribe t m n =>
    refine ⟨fun e he => Or.inr ?_, fun e he => AddSubscriber_mem_subscribers _ _ _ _ he⟩
    simpa only [RpcCall.toOp, MessageGraph.apply, AddSubscriber_publishers] using he
  | Unsubscribe t m n =>
    obtain ⟨h, heq, -, -, -, hpubs, hmem⟩ := RemoveSubscriber_eq g n ⟨t, m⟩
    simp only [RpcCall.toOp, MessageGraph.apply, heq, CleanupIsolatedNodeIfAny_publishers,
      CleanupIsolatedNodeIfAny_subscribers, hpubs]
    exact ⟨fun e he => Or.inr he, hmem⟩
  | RegisterPublisher t m n =>
    refine ⟨fun e he => AddPublisher_mem_publishers _ _ _ _ he, fun e he => Or.inr ?_⟩
    simpa only [RpcCall.toOp, MessageGraph.apply, AddPublisher_subscribers] using he
  | UnregisterPublisher t m n =>
    obtain ⟨h, heq, -, -, -, hsubs, hmem⟩ := RemovePublisher_eq g n ⟨t, m⟩
    simp only [RpcCall.toOp, MessageGraph.apply, heq, CleanupIsolatedNodeIfAny_publishers,
      CleanupIsolatedNodeIfAny_subscribers, hsubs]
    exact ⟨hmem, fun e he => Or.inr he⟩

theorem KeyInv_apply (ty : String → String) (g : MessageGraph) (c : RpcCall)
    (hc : c.msg_type = ty c.topic_name)
    (hp : KeyInv ty g.publishers_by_topic_) (hs : KeyInv ty g.subscribers_by_topic_) :
    KeyInv ty (g.apply c.toOp).publishers_by_topic_ ∧
      KeyInv ty (g.apply c.toOp).subscribers_by_topic_ := by
  obtain ⟨h1, h2⟩ := mem_index_apply g c
  constructor
  · intro e he
    rcases h1 e he with h | h
    · rw [h]; exact hc
    · exact hp e h
  · intro e he
    rcases h2 e he with h | h
    · rw [h]; exact hc
    · exact hs e h

/-- The vertices after a request: the vertex of the request's node carries the request's
`node_info` after a registration; every other surviving vertex keeps its `info`. -/
theorem AddrInv_apply (addr : String → String × Int) {g : MessageGraph} (he : g.EdgeInv)
    (hi : g.IndexInv) (c : RpcCall) (hc : (c.node.ip, c.node.port) = addr c.node.node_name)
    (ha : g.AddrInv addr) : (g.apply c.toOp).AddrInv addr := by
  intro n v hv
  cases c with
  | Subscribe t m node =>
    simp only [RpcCall.toOp, MessageGraph.apply, AddSubscriber_find] at hv
    split at hv
    · rename_i hn; cases hv; exact ⟨hn.symm, hn ▸ hc⟩
    · exact ha n v hv
  | RegisterPublisher t m node =>
    simp only [RpcCall.toOp, MessageGraph.apply, AddPublisher_find] at hv
    split at hv
    · rename_i hn; cases hv; exact ⟨hn.symm, hn ▸ hc⟩
    · exact ha n v hv
  | Unsubscribe t m node =>
    obtain ⟨h, heq, -, -, hsh⟩ := RemoveSubscriber_pre he hi node ⟨t, m⟩
    simp only [RpcCall.toOp, MessageGraph.apply, heq] at hv
    obtain ⟨v0, hv0, hinfo, -, -⟩ := hsh n v (Cleanup_find_some hv)
    rw [hinfo]; exact ha n v0 hv0
  | UnregisterPublisher t m node =>
    obtain ⟨h, heq, -, -, hsh⟩ := RemovePublisher_pre he hi node ⟨t, m⟩
    simp only [RpcCall.toOp, MessageGraph.apply, heq] at hv
    obtain ⟨v0, hv0, hinfo, -, -⟩ := hsh n v (Cleanup_find_some hv)
    rw [hinfo]; exact ha n v0 hv0

/-- The vertices after a request: a registration stores the request's `node_info`, which
is at the address of `p` only when it is `p`; every other surviving vertex keeps its
`info`. -/
theorem PeerInv_apply (listener : String × Int → String × Int)
    (addr : String → String × Int) (p : String) {g : MessageGraph}
    (he : g.EdgeInv) (hi : g.IndexInv) (c : RpcCall)
    (hc : listener (MasterTcpServer.peer_addr c.node) = World.peer listener addr p →
      c.node.node_name = p)
    (hpe : g.PeerInv listener addr p) : (g.apply c.toOp).PeerInv listener addr p := by
  intro n v hv hpeer
  cases c with
  | Subscribe t m node =>
    simp only [RpcCall.toOp, MessageGraph.apply, AddSubscriber_find] at hv
    split at hv
    · rename_i hn; cases hv; rw [hn]; exact hc hpeer
    · exact hpe n v hv hpeer
  | RegisterPublisher t m node =>
    simp only [RpcCall.toOp, MessageGraph.apply, AddPublisher_find] at hv
    split at hv
    · rename_i hn; cases hv; rw [hn]; exact hc hpeer
    · exact hpe n v hv hpeer
  | Unsubscribe t m node =>
    obtain ⟨h, heq, -, -, hsh⟩ := RemoveSubscriber_pre he hi node ⟨t, m⟩
    simp only [RpcCall.toOp, MessageGraph.apply, heq] at hv
    obtain ⟨v0, hv0, hinfo, -, -⟩ := hsh n v (Cleanup_find_some hv)
    rw [hinfo] at hpeer; exact hpe n v0 hv0 hpeer
  | UnregisterPublisher t m node =>
    obtain ⟨h, heq, -, -, hsh⟩ := RemovePublisher_pre he hi node ⟨t, m⟩
    simp only [RpcCall.toOp, MessageGraph.apply, heq] at hv
    obtain ⟨v0, hv0, hinfo, -, -⟩ := hsh n v (Cleanup_find_some hv)
    rw [hinfo] at hpeer; exact hpe n v0 hv0 hpeer

theorem find?_of_KeyInv (ty : String → String) (index : List (TopicKey × List String))
    (h : KeyInv ty index) (t : String) :
    index.find? (fun pair => decide (pair.1.topic = t))
      = (Assoc.find index ⟨t, ty t⟩).map (fun names => (⟨t, ty t⟩, names)) := by
  induction index with
  | nil => rfl
  | cons e r ih =>
    obtain ⟨k0, v0⟩ := e
    have hk0 : k0.msg_type = ty k0.topic := h (k0, v0) (List.mem_cons_self _ _)
    have ih' := ih (fun e he => h e (List.mem_cons_of_mem _ he))
    by_cases ht : k0.topic = t
    · have : k0 = ⟨t, ty t⟩ := by
        obtain ⟨a, b⟩ := k0
        simp only at ht hk0
        subst ht; rw [hk0]
      subst this
      simp [Assoc.find]
    · have : ¬ k0 = ⟨t, ty t⟩ := fun e => ht (by rw [e])
      simp [Assoc.find, ht, this, ih']

/-- When each topic name is used with one message type, the lookup by topic name returns
the nodes of the index entry of that one key. -/
theorem lookupByTopic_of_KeyInv (ty : String → String) (g : MessageGraph)
    (index : List (TopicKey × List String)) (h : KeyInv ty index) (t : String) :
    g.lookupByTopic index t
      = ((Assoc.find index ⟨t, ty t⟩).getD []).filterMap
          (fun node_name => (Assoc.find g.nodes_ node_name).map (fun v => v.info)) := by
  unfold MessageGraph.lookupByTopic
  rw [find?_of_KeyInv ty index h t]
  cases Assoc.find index ⟨t, ty t⟩ <;> rfl

/-! ## Requests: delivery of the pushes -/

theorem SendUpdate_eq_some {g : MessageGraph} {q : String} {u u' : TopicTargetsUpdate}
    {info : NodeInfo} (h : MasterTcpServer.SendUpdate g q u = some (info, u')) : u' = u := by
  unfold MasterTcpServer.SendUpdate at h
  cases hg : g.GetNodeByName q with
  | none => rw [hg] at h; cases h
  | some i =>
    rw [hg] at h
    dsimp only at h
    split at h
    · cases h
    · cases h; rfl

theorem SendUpdate_isSome (addr : String → String × Int) {g : MessageGraph}
    (ha : g.AddrInv addr) (q : String) (u : TopicTargetsUpdate) :
    (MasterTcpServer.SendUpdate g q u).isSome = true
      ↔ (∃ v, Assoc.find g.nodes_ q = some v) ∧ (addr q).1 ≠ "" ∧ 0 < (addr q).2 := by
  unfold MasterTcpServer.SendUpdate MessageGraph.GetNodeByName
  cases hv : Assoc.find g.nodes_ q with
  | none => simp
  | some v =>
    have h := (ha q v hv).2
    have h1 : v.info.ip = (addr q).1 := by rw [← h]
    have h2 : v.info.port = (addr q).2 := by rw [← h]
    simp only [Option.map_some', h1, h2]
    by_cases hc : (addr q).1 = "" ∨ (addr q).2 ≤ 0
    · rw [if_pos hc]
      simp only [Option.isSome_none, Bool.false_eq_true, false_iff]
      rintro ⟨-, h3, h4⟩
      rcases hc with hc | hc
      · exact h3 hc
      · omega
    · rw [if_neg hc]
      push_neg at hc
      simp only [Option.isSome_some, true_iff]
      exact ⟨⟨v, rfl⟩, hc.1, hc.2⟩

theorem SendUpdate_node {g : MessageGraph} {q : String} {u u' : TopicTargetsUpdate}
    {info : NodeInfo} (h : MasterTcpServer.SendUpdate g q u = some (info, u')) :
    ∃ v, Assoc.find g.nodes_ q = some v ∧ v.info = info := by
  unfold MasterTcpServer.SendUpdate MessageGraph.GetNodeByName at h
  cases hv : Assoc.find g.nodes_ q with
  | none => rw [hv] at h; cases h
  | some v =>
    rw [hv] at h
    simp only [Option.map_some'] at h
    split at h
    · cases h
    · cases h; exact ⟨v, rfl, rfl⟩

/-- The table of the process of `p` after the delivery of one push: the push reaches it
exactly when it is sent for `p` and the push channel accepts the address of `p`. -/
theorem deliver_poll (listener : String × Int → String × Int)
    (addr : String → String × Int) (p : String) {g : MessageGraph}
    (ha : g.AddrInv addr) (hpe : g.PeerInv listener addr p)
    (polls : List ((String × Int) × PollManager)) (c : SendUpdateCall) :
    (Assoc.find (World.deliver listener g polls c) (World.peer listener addr p)).getD ⟨[]⟩
      = if c.node_name = p ∧ (MasterTcpServer.SendUpdate g c.node_name c.update).isSome = true
        then ((Assoc.find polls (World.peer listener addr p)).getD ⟨[]⟩).applyUpdate c.update
        else (Assoc.find polls (World.peer listener addr p)).getD ⟨[]⟩ := by
  unfold World.deliver
  cases hs : MasterTcpServer.SendUpdate g c.node_name c.update with
  | none => simp
  | some x =>
    obtain ⟨info, u'⟩ := x
    have := SendUpdate_eq_some hs
    subst this
    obtain ⟨v, hv, hinfo⟩ := SendUpdate_node hs
    subst hinfo
    simp only [Assoc.find_set, Option.isSome_some, and_true]
    by_cases hp : c.node_name = p
    · have hkey : World.peer listener addr p
          = listener (MasterTcpServer.peer_addr v.info) := by
        have h2 := (ha _ v hv).2
        rw [hp] at h2
        simp only [World.peer, MasterTcpServer.peer_addr, ← h2]
      rw [if_pos hkey, if_pos hp, ← hkey]
      rfl
    · have hkey : ¬ World.peer listener addr p
          = listener (MasterTcpServer.peer_addr v.info) :=
        fun e => hp (hpe _ v hv e.symm)
      rw [if_neg hkey, if_neg hp]

/-- Pushes that are not delivered to `p` leave the `PollManager` of `p` as it was. -/
theorem foldl_deliver_skip (listener : String × Int → String × Int)
    (addr : String → String × Int) (p : String) {g : MessageGraph}
    (ha : g.AddrInv addr) (hpe : g.PeerInv listener addr p) (pushes : List SendUpdateCall)
    (polls : List ((String × Int) × PollManager))
    (h : ∀ c ∈ pushes, c.node_name = p →
      (MasterTcpServer.SendUpdate g c.node_name c.update).isSome = false) :
    (Assoc.find (pushes.foldl (World.deliver listener g) polls) (World.peer listener addr p)).getD ⟨[]⟩
      = (Assoc.find polls (World.peer listener addr p)).getD ⟨[]⟩ := by
  induction pushes generalizing polls with
  | nil => rfl
  | cons c r ih =>
    rw [List.foldl_cons, ih _ (fun c' hc' => h c' (List.mem_cons_of_mem _ hc')),
      deliver_poll listener addr p ha hpe, if_neg]
    rintro ⟨h1, h2⟩
    rw [h c (List.mem_cons_self _ _) h1] at h2
    cases h2

/-- A property of the `PollManager` of `p` that every pushed update keeps is kept by the
delivery of the pushes. -/
theorem foldl_deliver_preserved (listener : String × Int → String × Int)
    (addr : String → String × Int) (p : String)
    {g : MessageGraph} (ha : g.AddrInv addr) (hpe : g.PeerInv listener addr p)
    (Q : PollManager → Prop)
    (pushes : List SendUpdateCall) (polls : List ((String × Int) × PollManager))
    (h : ∀ c ∈ pushes, ∀ pm : PollManager, Q pm → Q (pm.applyUpdate c.update))
    (h0 : Q ((Assoc.find polls (World.peer listener addr p)).getD ⟨[]⟩)) :
    Q ((Assoc.find (pushes.foldl (World.deliver listener g) polls)
      (World.peer listener addr p)).getD ⟨[]⟩) := by
  induction pushes generalizing polls with
  | nil => exact h0
  | cons c r ih =>
    rw [List.foldl_cons]
    apply ih _ (fun c' hc' => h c' (List.mem_cons_of_mem _ hc'))
    rw [deliver_poll listener addr p ha hpe]
    split
    · exact h c (List.mem_cons_self _ _) _ h0
    · exact h0

/-- A property that holds after every pushed update holds for the `PollManager` of `p`
once one of the pushes has been delivered to `p`. -/
theorem foldl_deliver_established (listener : String × Int → String × Int)
    (addr : String → String × Int) (p : String)
    {g : MessageGraph} (ha : g.AddrInv addr) (hpe : g.PeerInv listener addr p)
    (R : PollManager → Prop)
    (pushes : List SendUpdateCall) (polls : List ((String × Int) × PollManager))
    (h : ∀ c ∈ pushes, ∀ pm : PollManager, R (pm.applyUpdate c.update))
    (h0 : R ((Assoc.find polls (World.peer listener addr p)).getD ⟨[]⟩) ∨ ∃ c ∈ pushes,
      c.node_name = p ∧ (MasterTcpServer.SendUpdate g c.node_name c.update).isSome = true) :
    R ((Assoc.find (pushes.foldl (World.deliver listener g) polls)
      (World.peer listener addr p)).getD ⟨[]⟩) := by
  induction pushes generalizing polls with
  | nil =>
    rcases h0 with h0 | ⟨c, hc, -⟩
    · exact h0
    · cases hc
  | cons c r ih =>
    rw [List.foldl_cons]
    apply ih _ (fun c' hc' => h c' (List.mem_cons_of_mem _ hc'))
    rw [deliver_poll listener addr p ha hpe]
    by_cases hd : c.node_name = p ∧
      (MasterTcpServer.SendUpdate g c.node_name c.update).isSome = true
    · rw [if_pos hd]
      exact Or.inl (h c (List.mem_cons_self _ _) _)
    · rw [if_neg hd]
      rcases h0 with h0 | ⟨c', hc', hd'⟩
      · exact Or.inl h0
      · rcases List.mem_cons.1 hc' with rfl | hc''
        · exact absurd hd' hd
        · exact Or.inr ⟨c', hc'', hd'⟩

/-- The nodes a lookup by topic name returns, when each topic name is used with one
message type: the vertices of the names in the index entry of the key. -/
theorem mem_lookupByTopic (ty : String → String) (g : MessageGraph)
    (index : List (TopicKey × List String)) (h : KeyInv ty index) (t : String)
    (info : NodeInfo) :
    info ∈ g.lookupByTopic index t
      ↔ ∃ n ∈ (Assoc.find index ⟨t, ty t⟩).getD [], ∃ v, Assoc.find g.nodes_ n = some v
          ∧ v.info = info := by
  rw [lookupByTopic_of_KeyInv ty g index h t, List.mem_filterMap]
  constructor
  · rintro ⟨n, hn, hv⟩
    cases hf : Assoc.find g.nodes_ n with
    | none => rw [hf] at hv; cases hv
    | some v =>
      rw [hf] at hv
      simp only [Option.map_some', Option.some.injEq] at hv
      exact ⟨n, hn, v, hf, hv⟩
  · rintro ⟨n, hn, v, hv, rfl⟩
    exact ⟨n, hn, by rw [hv]; rfl⟩

theorem RemoveSubscriber_subscribersOf (g : MessageGraph) (node : NodeInfo) (k k' : TopicKey) :
    (g.RemoveSubscriber node k).subscribersOf k'
      = if k' = k then eraseSet node.node_name (g.subscribersOf k) else g.subscribersOf k' := by
  obtain ⟨h, heq, -, -, hsubs, -, -⟩ := RemoveSubscriber_eq g node k
  rw [heq, subscribersOf_congr (CleanupIsolatedNodeIfAny_subscribers h _), hsubs]

theorem RemoveSubscriber_publishersOf (g : MessageGraph) (node : NodeInfo) (k k' : TopicKey) :
    (g.RemoveSubscriber node k).publishersOf k' = g.publishersOf k' := by
  obtain ⟨h, heq, -, -, -, hpubs, -⟩ := RemoveSubscriber_eq g node k
  rw [heq, publishersOf_congr (CleanupIsolatedNodeIfAny_publishers h _),
    publishersOf_congr hpubs]

theorem RemovePublisher_publishersOf (g : MessageGraph) (node : NodeInfo) (k k' : TopicKey) :
    (g.RemovePublisher node k).publishersOf k'
      = if k' = k then eraseSet node.node_name (g.publishersOf k) else g.publishersOf k' := by
  obtain ⟨h, heq, -, -, hpubs, -, -⟩ := RemovePublisher_eq g node k
  rw [heq, publishersOf_congr (CleanupIsolatedNodeIfAny_publishers h _), hpubs]

theorem RemovePublisher_subscribersOf (g : MessageGraph) (node : NodeInfo) (k k' : TopicKey) :
    (g.RemovePublisher node k).subscribersOf k' = g.subscribersOf k' := by
  obtain ⟨h, heq, -, -, -, hsubs, -⟩ := RemovePublisher_eq g node k
  rw [heq, subscribersOf_congr (CleanupIsolatedNodeIfAny_subscribers h _),
    subscribersOf_congr hsubs]

/-- A request on another topic name leaves the index entries of the key `k` alone. -/
theorem index_apply_other (g : MessageGraph) (c : RpcCall) (k : TopicKey)
    (h : c.topic_name ≠ k.topic) :
    (g.apply c.toOp).publishersOf k = g.publishersOf k ∧
      (g.apply c.toOp).subscribersOf k = g.subscribersOf k := by
  have hk : ∀ m, ¬ k = ⟨c.topic_name, m⟩ := fun m e => h (by rw [e])
  cases c with
  | Subscribe t m n =>
    exact ⟨publishersOf_congr (AddSubscriber_publishers g n _) k,
      by simp only [RpcCall.toOp, MessageGraph.apply, AddSubscriber_subscribersOf]
         exact if_neg (hk m)⟩
  | Unsubscribe t m n =>
    exact ⟨RemoveSubscriber_publishersOf g n _ k,
      by simp only [RpcCall.toOp, MessageGraph.apply, RemoveSubscriber_subscribersOf]
         exact if_neg (hk m)⟩
  | RegisterPublisher t m n =>
    exact ⟨by simp only [RpcCall.toOp, MessageGraph.apply, AddPublisher_publishersOf]
              exact if_neg (hk m),
      subscribersOf_congr (AddPublisher_subscribers g n _) k⟩
  | UnregisterPublisher t m n =>
    exact ⟨by simp only [RpcCall.toOp, MessageGraph.apply, RemovePublisher_publishersOf]
              exact if_neg (hk m),
      RemovePublisher_subscribersOf g n _ k⟩

/-- Every push a handler issues carries the topic name of the request. -/
theorem handle_pushes_topic (g : MessageGraph) (c : RpcCall) :
    ∀ u ∈ (RosRpcServiceImpl.handle g c).2, u.update.topic = c.topic_name := by
  intro u hu
  cases c with
  | Subscribe t m n =>
    simp only [RosRpcServiceImpl.handle, RosRpcServiceImpl.Subscribe, List.mem_map] at hu
    obtain ⟨_, -, rfl⟩ := hu; rfl
  | Unsubscribe t m n =>
    simp only [RosRpcServiceImpl.handle, RosRpcServiceImpl.Unsubscribe, List.mem_map] at hu
    obtain ⟨_, -, rfl⟩ := hu; rfl
  | RegisterPublisher t m n =>
    simp only [RosRpcServiceImpl.handle, RosRpcServiceImpl.RegisterPublisher,
      List.mem_singleton] at hu
    subst hu; rfl
  | UnregisterPublisher t m n =>
    simp [RosRpcServiceImpl.handle, RosRpcServiceImpl.UnregisterPublisher] at hu

theorem getTargets_applyUpdate_other (pm : PollManager) (u : TopicTargetsUpdate) (t : String)
    (h : u.topic ≠ t) : (pm.applyUpdate u).getTargets t = pm.getTargets t := by
  rw [getTargets_applyUpdate, if_neg (fun e => h e.symm)]

theorem mem_getTargets_applyUpdate (pm : PollManager) (u : TopicTargetsUpdate) (t : String)
    (x : NodeInfo) (h : x ∈ (pm.applyUpdate u).getTargets t) :
    x ∈ pm.getTargets t ∨ (u.topic = t ∧ x ∈ u.add_targets) := by
  rw [getTargets_applyUpdate] at h
  split at h
  · rename_i ht
    subst ht
    rw [mem_foldl_eraseTarget] at h
    rcases mem_foldl_insertTarget _ _ _ h.1 with h' | h'
    · exact Or.inl h'
    · exact Or.inr ⟨rfl, h'⟩
  · exact Or.inl h

/-- The pushes of `Subscribe` and `Unsubscribe` go to the publishers of the key. -/
theorem mem_pushes (ty : String → String) (addr : String → String × Int) (g : MessageGraph)
    (hk : KeyInv ty g.publishers_by_topic_) (ha : g.AddrInv addr) (t : String)
    (u : TopicTargetsUpdate) (c : SendUpdateCall)
    (hc : c ∈ (g.GetPublishersByTopic t).map (fun pub => (⟨pub.node_name, u⟩ : SendUpdateCall))) :
    c.update = u ∧ c.node_name ∈ g.publishersOf ⟨t, ty t⟩ := by
  rw [List.mem_map] at hc
  obtain ⟨info, hinfo, rfl⟩ := hc
  refine ⟨rfl, ?_⟩
  rw [MessageGraph.GetPublishersByTopic, mem_lookupByTopic ty g _ hk] at hinfo
  obtain ⟨n, hn, v, hv, rfl⟩ := hinfo
  rw [(ha n v hv).1]
  exact hn

theorem mem_pushes_of (ty : String → String) (addr : String → String × Int) (g : MessageGraph)
    (hk : KeyInv ty g.publishers_by_topic_) (ha : g.AddrInv addr) (hi : g.IndexInv)
    (t : String) (u : TopicTargetsUpdate) (q : String)
    (hq : q ∈ g.publishersOf ⟨t, ty t⟩) :
    (⟨q, u⟩ : SendUpdateCall)
      ∈ (g.GetPublishersByTopic t).map (fun pub => (⟨pub.node_name, u⟩ : SendUpdateCall)) := by
  obtain ⟨v, hv, -⟩ := hi.1 _ q hq
  rw [List.mem_map]
  refine ⟨v.info, ?_, by rw [(ha q v hv).1]⟩
  rw [MessageGraph.GetPublishersByTopic, mem_lookupByTopic ty g _ hk]
  exact ⟨q, hq, v, hv, rfl⟩

theorem isSome_false_of_not_valid (addr : String → String × Int) {g : MessageGraph}
    (ha : g.AddrInv addr) (q : String) (u : TopicTargetsUpdate)
    (h : ¬ ((addr q).1 ≠ "" ∧ 0 < (addr q).2)) :
    (MasterTcpServer.SendUpdate g q u).isSome = false := by
  cases hb : (MasterTcpServer.SendUpdate g q u).isSome with
  | false => rfl
  | true => exact absurd ((SendUpdate_isSome addr ha q u).1 hb).2 h

/-- One request keeps the invariant, provided its type name and address agree with `ty`
and `addr`, it does not come from another node at the address of `p`, and it is not an
`UnregisterPublisher` of `t` by `p`. -/
theorem step_Inv (listener : String × Int → String × Int) (ty : String → String)
    (addr : String → String × Int) (t p : String)
    (w : World) (c : RpcCall) (hw : w.Inv listener ty addr t p)
    (hty : c.msg_type = ty c.topic_name)
    (haddr : (c.node.ip, c.node.port) = addr c.node.node_name)
    (hpeer : listener (MasterTcpServer.peer_addr c.node) = World.peer listener addr p →
      c.node.node_name = p)
    (hun : c.unregisters t p = false) :
    (w.step listener c).Inv listener ty addr t p := by
  obtain ⟨he, hi, hkp, hks, ha, hpe, hT1, hT2⟩ := hw
  have hg : (w.step listener c).graph = w.graph.apply c.toOp := handle_graph w.graph c
  have hpoll : (w.step listener c).poll (World.peer listener addr p)
      = (Assoc.find ((RosRpcServiceImpl.handle w.graph c).2.foldl
          (World.deliver listener (w.graph.apply c.toOp)) w.polls)
          (World.peer listener addr p)).getD ⟨[]⟩ := by
    simp only [World.step, World.poll, handle_graph]
  obtain ⟨he', hi'⟩ := Inv_apply he hi c.toOp
  obtain ⟨hkp', hks'⟩ := KeyInv_apply ty w.graph c hty hkp hks
  have ha' := AddrInv_apply addr he hi c haddr ha
  have hpe' := PeerInv_apply listener addr p he hi c hpeer hpe
  unfold World.Inv
  rw [hg, hpoll]
  refine ⟨he', hi', hkp', hks', ha', hpe', ?_⟩
  by_cases htt : c.topic_name = t
  swap
  · -- a request on another topic name
    obtain ⟨hpo, hso⟩ := index_apply_other w.graph c ⟨t, ty t⟩ htt
    have htar := foldl_deliver_preserved listener addr p ha' hpe'
      (fun pm => pm.getTargets t = (w.poll (World.peer listener addr p)).getTargets t)
      (RosRpcServiceImpl.handle w.graph c).2 w.polls
      (fun c' hc' pm hq => by
        have : c'.update.topic ≠ t := by rw [handle_pushes_topic _ _ c' hc']; exact htt
        show (pm.applyUpdate c'.update).getTargets t = _
        rw [getTargets_applyUpdate_other _ _ _ this]; exact hq) rfl
    simp only at htar
    rw [htar, hpo, hso]
    exact ⟨hT1, hT2⟩
  · cases c with
    | Subscribe t' m node =>
      simp only [RpcCall.msg_type, RpcCall.topic_name, RpcCall.node] at hty haddr htt
      subst htt; subst hty
      simp only [RpcCall.toOp, MessageGraph.apply] at he' hi' hkp' hks' ha' hpe' ⊢
      simp only [RosRpcServiceImpl.handle, RosRpcServiceImpl.Subscribe]
      have hsubs : (w.graph.AddSubscriber node ⟨t', ty t'⟩).subscribersOf ⟨t', ty t'⟩
          = insertSet node.node_name (w.graph.subscribersOf ⟨t', ty t'⟩) := by
        rw [AddSubscriber_subscribersOf, if_pos rfl]
      have hpubs : (w.graph.AddSubscriber node ⟨t', ty t'⟩).publishersOf ⟨t', ty t'⟩
          = w.graph.publishersOf ⟨t', ty t'⟩ :=
        publishersOf_congr (AddSubscriber_publishers _ _ _) _
      rw [hsubs, hpubs]
      constructor
      · refine foldl_deliver_preserved listener addr p ha' hpe'
          (fun pm => ∀ x ∈ pm.getTargets t', ∃ s ∈ insertSet node.node_name
            (w.graph.subscribersOf ⟨t', ty t'⟩), addr s = (x.ip, x.port)) _ _ ?_ ?_
        · intro c' hc' pm hq x hx
          obtain ⟨hu, -⟩ := mem_pushes ty addr _ hkp' ha' t' _ c' hc'
          rw [hu] at hx
          rcases mem_getTargets_applyUpdate _ _ _ _ hx with h | ⟨-, h⟩
          · exact hq x h
          · simp only [List.mem_singleton] at h
            subst h
            exact ⟨x.node_name, (mem_insertSet _ _ _).2 (Or.inl rfl), haddr.symm⟩
        · intro x hx
          obtain ⟨s, hs, hsx⟩ := hT1 x hx
          exact ⟨s, (mem_insertSet _ _ _).2 (Or.inr hs), hsx⟩
      · intro hcond
        rw [foldl_deliver_skip listener addr p ha' hpe']
        · exact hT2 hcond
        · intro c' hc' hcp
          obtain ⟨-, hmem⟩ := mem_pushes ty addr _ hkp' ha' t' _ c' hc'
          rw [hcp, hpubs] at hmem
          rcases hcond with h | h
          · exact absurd hmem h
          · rw [hcp]; exact isSome_false_of_not_valid addr ha' p _ h
    | Unsubscribe t' m node =>
      simp only [RpcCall.msg_type, RpcCall.topic_name, RpcCall.node] at hty haddr htt
      subst htt; subst hty
      simp only [RpcCall.toOp, MessageGraph.apply] at he' hi' hkp' hks' ha' hpe' ⊢
      simp only [RosRpcServiceImpl.handle, RosRpcServiceImpl.Unsubscribe]
      have hsubs : (w.graph.RemoveSubscriber node ⟨t', ty t'⟩).subscribersOf ⟨t', ty t'⟩
          = eraseSet node.node_name (w.graph.subscribersOf ⟨t', ty t'⟩) := by
        rw [RemoveSubscriber_subscribersOf, if_pos rfl]
      have hpubs : (w.graph.RemoveSubscriber node ⟨t', ty t'⟩).publishersOf ⟨t', ty t'⟩
          = w.graph.publishersOf ⟨t', ty t'⟩ := RemoveSubscriber_publishersOf _ _ _ _
      rw [hsubs, hpubs]
      by_cases hcond : p ∉ w.graph.publishersOf ⟨t', ty t'⟩ ∨
          ¬ ((addr p).1 ≠ "" ∧ 0 < (addr p).2)
      · -- `p` holds no target for the topic, before and after
        have hnil := foldl_deliver_preserved listener addr p ha' hpe'
          (fun pm => pm.getTargets t' = [])
          ((w.graph.RemoveSubscriber node ⟨t', ty t'⟩).GetPublishersByTopic t' |>.map
            (fun pub => (⟨pub.node_name, ⟨t', [], [node]⟩⟩ : SendUpdateCall))) w.polls
          (fun c' hc' pm hq => by
            by_contra hne
            obtain ⟨x, hx⟩ := List.exists_mem_of_ne_nil _ hne
            obtain ⟨hu, -⟩ := mem_pushes ty addr _ hkp' ha' t' _ c' hc'
            rw [hu] at hx
            rcases mem_getTargets_applyUpdate _ _ _ _ hx with h | ⟨-, h⟩
            · rw [hq] at h; cases h
            · cases h) (hT2 hcond)
        simp only at hnil
        rw [hnil]
        exact ⟨fun x hx => absurd hx (List.not_mem_nil x), fun _ => rfl⟩
      · push_neg at hcond
        obtain ⟨hpin, hvalid⟩ := hcond
        refine ⟨?_, fun h => ?_⟩
        · have hQ := foldl_deliver_preserved listener addr p ha' hpe'
            (fun pm => ∀ x ∈ pm.getTargets t', ∃ s ∈ w.graph.subscribersOf ⟨t', ty t'⟩,
              addr s = (x.ip, x.port))
            ((w.graph.RemoveSubscriber node ⟨t', ty t'⟩).GetPublishersByTopic t' |>.map
              (fun pub => (⟨pub.node_name, ⟨t', [], [node]⟩⟩ : SendUpdateCall))) w.polls
            (fun c' hc' pm hq x hx => by
              obtain ⟨hu, -⟩ := mem_pushes ty addr _ hkp' ha' t' _ c' hc'
              rw [hu] at hx
              rcases mem_getTargets_applyUpdate _ _ _ _ hx with h | ⟨-, h⟩
              · exact hq x h
              · cases h) hT1
          have hR := foldl_deliver_established listener addr p ha' hpe'
            (fun pm => ∀ x ∈ pm.getTargets t', NodeInfoEqual x node = false)
            ((w.graph.RemoveSubscriber node ⟨t', ty t'⟩).GetPublishersByTopic t' |>.map
              (fun pub => (⟨pub.node_name, ⟨t', [], [node]⟩⟩ : SendUpdateCall))) w.polls
            (fun c' hc' pm x hx => by
              obtain ⟨hu, -⟩ := mem_pushes ty addr _ hkp' ha' t' _ c' hc'
              rw [hu, getTargets_applyUpdate, if_pos rfl, mem_foldl_eraseTarget] at hx
              exact hx.2 node (List.mem_singleton.2 rfl))
            (Or.inr ⟨⟨p, ⟨t', [], [node]⟩⟩,
              mem_pushes_of ty addr _ hkp' ha' hi' t' _ p (hpubs ▸ hpin), rfl, by
                rw [SendUpdate_isSome addr ha']
                obtain ⟨v, hv, -⟩ := hi'.1 _ p (hpubs ▸ hpin)
                exact ⟨⟨v, hv⟩, hvalid⟩⟩)
          intro x hx
          obtain ⟨s, hs, hsx⟩ := hQ x hx
          refine ⟨s, (mem_eraseSet _ _ _).2 ⟨hs, ?_⟩, hsx⟩
          rintro rfl
          have hno := hR x hx
          have : NodeInfoEqual x node = true := by
            rw [NodeInfoEqual_iff]
            have e : (x.ip, x.port) = (node.ip, node.port) := by rw [← hsx, haddr]
            exact ⟨congrArg Prod.fst e, congrArg Prod.snd e⟩
          rw [hno] at this; cases this
        · rcases h with h | h
          · exact absurd hpin h
          · exact absurd hvalid h
    | RegisterPublisher t' m node =>
      simp only [RpcCall.msg_type, RpcCall.topic_name, RpcCall.node] at hty haddr htt
      subst htt; subst hty
      simp only [RpcCall.toOp, MessageGraph.apply] at he' hi' hkp' hks' ha' hpe' ⊢
      simp only [RosRpcServiceImpl.handle, RosRpcServiceImpl.RegisterPublisher]
      have hsubs : (w.graph.AddPublisher node ⟨t', ty t'⟩).subscribersOf ⟨t', ty t'⟩
          = w.graph.subscribersOf ⟨t', ty t'⟩ :=
        subscribersOf_congr (AddPublisher_subscribers _ _ _) _
      have hpubs : (w.graph.AddPublisher node ⟨t', ty t'⟩).publishersOf ⟨t', ty t'⟩
          = insertSet node.node_name (w.graph.publishersOf ⟨t', ty t'⟩) := by
        rw [AddPublisher_publishersOf, if_pos rfl]
      rw [hsubs, hpubs]
      by_cases hnp : node.node_name = p
      · constructor
        · refine foldl_deliver_preserved listener addr p ha' hpe'
            (fun pm => ∀ x ∈ pm.getTargets t', ∃ s ∈ w.graph.subscribersOf ⟨t', ty t'⟩,
              addr s = (x.ip, x.port)) _ _ ?_ hT1
          intro c' hc' pm hq x hx
          rw [List.mem_singleton] at hc'
          subst hc'
          rcases mem_getTargets_applyUpdate _ _ _ _ hx with h | ⟨-, h⟩
          · exact hq x h
          · simp only at h
            rw [MessageGraph.GetSubscribersByTopic, mem_lookupByTopic ty _ _ hks'] at h
            obtain ⟨s, hs, v, hv, rfl⟩ := h
            refine ⟨s, ?_, ((ha' s v hv).2).symm⟩
            have : s ∈ (w.graph.AddPublisher node ⟨t', ty t'⟩).subscribersOf ⟨t', ty t'⟩ := hs
            rw [hsubs] at this; exact this
        · intro hcond
          have hinv : ¬ ((addr p).1 ≠ "" ∧ 0 < (addr p).2) := by
            rcases hcond with h | h
            · exact absurd ((mem_insertSet _ _ _).2 (Or.inl hnp.symm)) h
            · exact h
          rw [foldl_deliver_skip listener addr p ha' hpe']
          · exact hT2 (Or.inr hinv)
          · intro c' hc' hcp
            rw [hcp]; exact isSome_false_of_not_valid addr ha' p _ hinv
      · have hskip : (Assoc.find (List.foldl (World.deliver listener (w.graph.AddPublisher node
            ⟨t', ty t'⟩)) w.polls [(⟨node.node_name, ⟨t',
              (w.graph.AddPublisher node ⟨t', ty t'⟩).GetSubscribersByTopic t', []⟩⟩ :
                SendUpdateCall)]) (World.peer listener addr p)).getD ⟨[]⟩
            = (Assoc.find w.polls (World.peer listener addr p)).getD ⟨[]⟩ := by
          apply foldl_deliver_skip listener addr p ha' hpe'
          intro c' hc' hcp
          rw [List.mem_singleton] at hc'
          subst hc'
          exact absurd hcp hnp
        rw [hskip]
        refine ⟨hT1, fun hcond => hT2 ?_⟩
        rcases hcond with h | h
        · refine Or.inl (fun hin => h ((mem_insertSet _ _ _).2 (Or.inr hin)))
        · exact Or.inr h
    | UnregisterPublisher t' m node =>
      simp only [RpcCall.msg_type, RpcCall.topic_name, RpcCall.node] at hty haddr htt
      subst htt; subst hty
      simp only [RpcCall.toOp, MessageGraph.apply] at he' hi' hkp' hks' ha' hpe' ⊢
      simp only [RosRpcServiceImpl.handle, RosRpcServiceImpl.UnregisterPublisher,
        List.foldl_nil]
      have hnp : ¬ node.node_name = p := by
        intro h
        simp [RpcCall.unregisters, h] at hun
      rw [RemovePublisher_subscribersOf, RemovePublisher_publishersOf, if_pos rfl]
      refine ⟨hT1, fun hcond => hT2 ?_⟩
      rcases hcond with h | h
      · refine Or.inl (fun hin => h ((mem_eraseSet _ _ _).2 ⟨hin, fun e => hnp e.symm⟩))
      · exact Or.inr h

theorem Inv_init (listener : String × Int → String × Int) (ty : String → String)
    (addr : String → String × Int) (t p : String) :
    World.init.Inv listener ty addr t p := by
  refine ⟨EdgeInv_empty, IndexInv_empty, ?_, ?_, ?_, ?_, ?_, ?_⟩
  · intro e he; cases he
  · intro e he; cases he
  · intro n v hv; cases hv
  · intro n v hv; cases hv
  · intro x hx; cases hx
  · intro _; rfl

/-- The invariant holds after every sequence of requests that use one message type per
topic name and one address per node name, none of them from another node at the address
of `p`, and in which `p` never unregisters from `t`. -/
theorem run_Inv (listener : String × Int → String × Int) (ty : String → String)
    (addr : String → String × Int) (t p : String)
    (cs : List RpcCall) (w : World) (hw : w.Inv listener ty addr t p)
    (hty : ∀ c ∈ cs, c.msg_type = ty c.topic_name)
    (haddr : ∀ c ∈ cs, (c.node.ip, c.node.port) = addr c.node.node_name)
    (hpeer : ∀ c ∈ cs,
      listener (MasterTcpServer.peer_addr c.node) = World.peer listener addr p →
        c.node.node_name = p)
    (hun : ∀ c ∈ cs, c.unregisters t p = false) :
    (w.run listener cs).Inv listener ty addr t p := by
  induction cs generalizing w with
  | nil => exact hw
  | cons c r ih =>
    have hstep := step_Inv listener ty addr t p w c hw (hty c (List.mem_cons_self _ _))
      (haddr c (List.mem_cons_self _ _)) (hpeer c (List.mem_cons_self _ _))
      (hun c (List.mem_cons_self _ _))
    exact ih (w.step listener c) hstep (fun c' hc' => hty c' (List.mem_cons_of_mem _ hc'))
      (fun c' hc' => haddr c' (List.mem_cons_of_mem _ hc'))
      (fun c' hc' => hpeer c' (List.mem_cons_of_mem _ hc'))
      (fun c' hc' => hun c' (List.mem_cons_of_mem _ hc'))

theorem popFirst_eq_none_of_empty (qs : List (String × List Message))
    (h : ∀ e ∈ qs, e.2 = []) : MessageQueue.popFirst qs = none := by
  induction qs with
  | nil => rfl
  | cons e r ih =>
    obtain ⟨t, l⟩ := e
    have hl : l = [] := h (t, l) (List.mem_cons_self _ _)
    subst hl
    simp [MessageQueue.popFirst, ih (fun e he => h e (List.mem_cons_of_mem _ he))]

/-- When some queue holds a message, `popFirst` takes the front message of the first
non-empty queue and leaves every other queue as it is. -/
theorem popFirst_of_nonempty (qs : List (String × List Message))
    (h : ∃ e ∈ qs, e.2 ≠ []) :
    ∃ pre topic msg rest post,
      qs = pre ++ (topic, msg :: rest) :: post ∧ (∀ e ∈ pre, e.2 = []) ∧
      MessageQueue.popFirst qs = some (topic, msg, pre ++ (topic, rest) :: post) := by
  induction qs with
  | nil => obtain ⟨e, he, -⟩ := h; cases he
  | cons e r ih =>
    obtain ⟨t, l⟩ := e
    cases l with
    | cons m l => exact ⟨[], t, m, l, r, rfl, fun e he => absurd he (List.not_mem_nil e), rfl⟩
    | nil =>
      have h' : ∃ e ∈ r, e.2 ≠ [] := by
        obtain ⟨e, he, hne⟩ := h
        rcases List.mem_cons.1 he with rfl | he'
        · exact absurd rfl hne
        · exact ⟨e, he', hne⟩
      obtain ⟨pre, topic, msg, rest, post, hq, hpre, hpop⟩ := ih h'
      refine ⟨(t, []) :: pre, topic, msg, rest, post, by rw [hq]; rfl, ?_, ?_⟩
      · intro e he
        rcases List.mem_cons.1 he with rfl | he'
        · rfl
        · exact hpre e he'
      · simp [MessageQueue.popFirst, hpop]

/-! ## Idempotence of the registrations -/

theorem Assoc.set_set {κ β : Type} [DecidableEq κ] (m : List (κ × β)) (k : κ) (a b : β) :
    Assoc.set (Assoc.set m k a) k b = Assoc.set m k b := by
  induction m with
  | nil => simp [Assoc.set]
  | cons e r ih =>
    obtain ⟨k0, v0⟩ := e
    by_cases h : k0 = k
    · simp [Assoc.set, h]
    · simp [Assoc.set, h, ih]

theorem insertSet_of_mem {α : Type} [DecidableEq α] {x : α} {s : List α} (h : x ∈ s) :
    insertSet x s = s := by
  simp [insertSet, h]

theorem foldl_insertSet_of_mem {α β : Type} [DecidableEq α] (f : β → α) (l : List β)
    (s : List α) (h : ∀ b ∈ l, f b ∈ s) :
    l.foldl (fun es b => insertSet (f b) es) s = s := by
  induction l with
  | nil => rfl
  | cons b r ih =>
    rw [List.foldl_cons, insertSet_of_mem (h b (List.mem_cons_self _ _))]
    exact ih (fun b' hb' => h b' (List.mem_cons_of_mem _ hb'))

/-- The four data members after `AddSubscriber`. -/
theorem AddSubscriber_eq (g : MessageGraph) (node : NodeInfo) (k : TopicKey) :
    g.AddSubscriber node k =
      { nodes_ := Assoc.set g.nodes_ node.node_name
          ⟨node, ((Assoc.find g.nodes_ node.node_name).getD NodeVertex.default).publishes,
            insertSet k
              ((Assoc.find g.nodes_ node.node_name).getD NodeVertex.default).subscribes⟩
        publishers_by_topic_ := g.publishers_by_topic_
        subscribers_by_topic_ := Assoc.set g.subscribers_by_topic_ k
          (insertSet node.node_name (g.subscribersOf k))
        edges_ := (g.publishersOf k).foldl
          (fun es pub => insertSet ⟨pub, node.node_name, k⟩ es) g.edges_ } := by
  unfold MessageGraph.AddSubscriber MessageGraph.ConnectPublishersToSubscriber
  simp only [MessageGraph.UpsertNode, MessageGraph.publishersOf, MessageGraph.subscribersOf,
    Assoc.find_set, if_true, Option.getD_some, Assoc.set_set]
  cases Assoc.find g.publishers_by_topic_ k <;> rfl

/-- `AddSubscriber` applied twice with the same arguments gives the graph of one
application, data member by data member. -/
theorem AddSubscriber_idem (g : MessageGraph) (node : NodeInfo) (k : TopicKey) :
    (g.AddSubscriber node k).AddSubscriber node k = g.AddSubscriber node k := by
  rw [AddSubscriber_eq (g.AddSubscriber node k) node k]
  have hn : Assoc.find (g.AddSubscriber node k).nodes_ node.node_name
      = some ⟨node, ((Assoc.find g.nodes_ node.node_name).getD NodeVertex.default).publishes,
          insertSet k
            ((Assoc.find g.nodes_ node.node_name).getD NodeVertex.default).subscribes⟩ := by
    rw [AddSubscriber_find, if_pos rfl]
  have hs : (g.AddSubscriber node k).subscribersOf k
      = insertSet node.node_name (g.subscribersOf k) := by
    rw [AddSubscriber_subscribersOf, if_pos rfl]
  have hp : (g.AddSubscriber node k).publishersOf k = g.publishersOf k :=
    publishersOf_congr (AddSubscriber_publishers g node k) k
  have hk : insertSet k (insertSet k
      ((Assoc.find g.nodes_ node.node_name).getD NodeVertex.default).subscribes)
      = insertSet k ((Assoc.find g.nodes_ node.node_name).getD NodeVertex.default).subscribes :=
    insertSet_of_mem ((mem_insertSet _ _ _).2 (Or.inl rfl))
  have hnm : insertSet node.node_name (insertSet node.node_name (g.subscribersOf k))
      = insertSet node.node_name (g.subscribersOf k) :=
    insertSet_of_mem ((mem_insertSet _ _ _).2 (Or.inl rfl))
  have he : (g.publishersOf k).foldl (fun es pub => insertSet ⟨pub, node.node_name, k⟩ es)
      (g.AddSubscriber node k).edges_ = (g.AddSubscriber node k).edges_ := by
    apply foldl_insertSet_of_mem
    intro p hp'
    rw [AddSubscriber_edges]
    exact Or.inr ⟨p, hp', rfl⟩
  rw [hn, hs, hp, he]
  simp only [Option.getD_some, hk, hnm]
  conv_rhs => rw [AddSubscriber_eq g node k]
  simp only [AddSubscriber_eq g node k, Assoc.set_set]

/-! ## Codec lemmas: length fields, incomplete frames, streams of frames -/

/-- The length fields of a frame built by `publish`, read where they were written, hold
the lengths truncated to the width of the field; nothing else is added to the frame. -/
theorem publishBuffer_fields (t m p rest : List Byte) :
    ntohs (Publisher.publishBuffer t m p ++ rest) 0 = t.length % 65536 ∧
    ntohs (Publisher.publishBuffer t m p ++ rest) (2 + t.length) = m.length % 65536 ∧
    ntohl (Publisher.publishBuffer t m p ++ rest) (2 + t.length + 2 + m.length)
      = p.length % 4294967296 ∧
    (Publisher.publishBuffer t m p ++ rest).length
      = 8 + t.length + m.length + p.length + rest.length := by
  have l1 := length_htons t.length
  have l2 := length_htons m.length
  have l3 := length_htonl p.length
  have e1 : Publisher.publishBuffer t m p ++ rest
      = htons t.length ++ (t ++ (htons m.length ++ (m ++ (htonl p.length ++ (p ++ rest))))) := by
    simp [Publisher.publishBuffer, List.append_assoc]
  have e2 : Publisher.publishBuffer t m p ++ rest
      = (htons t.length ++ t) ++ (htons m.length ++ (m ++ (htonl p.length ++ (p ++ rest)))) := by
    simp [Publisher.publishBuffer, List.append_assoc]
  have e4 : Publisher.publishBuffer t m p ++ rest
      = (htons t.length ++ t ++ htons m.length ++ m) ++ (htonl p.length ++ (p ++ rest)) := by
    simp [Publisher.publishBuffer, List.append_assoc]
  have n2 : (htons t.length ++ t).length = 2 + t.length := by
    simp only [List.length_append]; omega
  have n4 : (htons t.length ++ t ++ htons m.length ++ m).length
      = 2 + t.length + 2 + m.length := by
    simp only [List.length_append]; omega
  refine ⟨?_, ?_, ?_, ?_⟩
  · rw [e1, ntohs_htons]
  · rw [e2, ← n2, ntohs_append, ntohs_htons]
  · rw [e4, ← n4, ntohl_append, ntohl_htonl]
  · rw [e1]; simp only [List.length_append]; omega

/-- The three parts of a frame built by `publish`, cut out at the offsets of the parts. -/
theorem publishBuffer_slices (t m p rest : List Byte) :
    ((Publisher.publishBuffer t m p ++ rest).drop 2).take t.length = t ∧
    ((Publisher.publishBuffer t m p ++ rest).drop (2 + t.length + 2)).take m.length = m ∧
    ((Publisher.publishBuffer t m p ++ rest).drop (2 + t.length + 2 + m.length + 4)).take
      p.length = p ∧
    (Publisher.publishBuffer t m p ++ rest).drop (8 + t.length + m.length + p.length)
      = rest := by
  have l1 := length_htons t.length
  have l2 := length_htons m.length
  have l3 := length_htonl p.length
  have e1 : Publisher.publishBuffer t m p ++ rest
      = htons t.length ++ (t ++ (htons m.length ++ (m ++ (htonl p.length ++ (p ++ rest))))) := by
    simp [Publisher.publishBuffer, List.append_assoc]
  have e3 : Publisher.publishBuffer t m p ++ rest
      = (htons t.length ++ t ++ htons m.length) ++ (m ++ (htonl p.length ++ (p ++ rest))) := by
    simp [Publisher.publishBuffer, List.append_assoc]
  have e5 : Publisher.publishBuffer t m p ++ rest
      = (htons t.length ++ t ++ htons m.length ++ m ++ htonl p.length) ++ (p ++ rest) := by
    simp [Publisher.publishBuffer, List.append_assoc]
  have e6 : Publisher.publishBuffer t m p ++ rest
      = (htons t.length ++ t ++ htons m.length ++ m ++ htonl p.length ++ p) ++ rest := by
    simp [Publisher.publishBuffer, List.append_assoc]
  have n3 : (htons t.length ++ t ++ htons m.length).length = 2 + t.length + 2 := by
    simp only [List.length_append]; omega
  have n5 : (htons t.length ++ t ++ htons m.length ++ m ++ htonl p.length).length
      = 2 + t.length + 2 + m.length + 4 := by
    simp only [List.length_append]; omega
  have n6 : (htons t.length ++ t ++ htons m.length ++ m ++ htonl p.length ++ p).length
      = 8 + t.length + m.length + p.length := by
    simp only [List.length_append]; omega
  refine ⟨?_, ?_, ?_, ?_⟩
  · rw [e1, List.drop_left' l1, List.take_left' rfl]
  · rw [e3, List.drop_left' n3, List.take_left' rfl]
  · rw [e5, List.drop_left' n5, List.take_left' rfl]
  · rw [e6, List.drop_left' n6]

/-- A buffer shorter than the frame size its length fields declare makes the pass leave
the loop. -/
theorem onMessagePass_short (buf : List Byte) (h : buf.length < PollManager.frameSize buf) :
    PollManager.onMessagePass buf = .stop := by
  unfold PollManager.frameSize at h
  unfold PollManager.onMessagePass
  dsimp only
  split_ifs <;> rfl

theorem declaredLength_publishBuffer (t m p : List Byte)
    (ht : t.length < 65536) (hm : m.length < 65536) (hp : p.length < 4294967296) :
    Frame.declaredLength (Publisher.publishBuffer t m p)
      = (Publisher.publishBuffer t m p).length := by
  obtain ⟨htl, hml, hpl, hlen⟩ := publishBuffer_fields t m p []
  simp only [List.append_nil] at htl hml hpl hlen
  rw [Nat.mod_eq_of_lt ht] at htl
  rw [Nat.mod_eq_of_lt hm] at hml
  rw [Nat.mod_eq_of_lt hp] at hpl
  simp only [Frame.declaredLength, htl, hml, hpl, hlen, List.length_nil]
  omega

theorem OnConnectionBuffer_eq (topic message : List Byte) :
    MasterTcpServer.OnConnectionBuffer topic message
      = Publisher.publishBuffer
          (if topic.isEmpty then MasterTcpServer.defaultTopic else topic)
          TopicTargetsUpdate.typeName message := rfl

theorem eraseSet_insertSet {α : Type} [DecidableEq α] (x : α) (s : List α) (h : x ∉ s) :
    eraseSet x (insertSet x s) = s := by
  simp only [insertSet, h, if_false, eraseSet, List.filter_append]
  have h1 : s.filter (fun y => decide (y ≠ x)) = s := by
    rw [List.filter_eq_self]
    intro a ha
    simp only [ne_eq, decide_not, Bool.not_eq_true', decide_eq_false_iff_not]
    rintro rfl
    exact h ha
  rw [h1]
  simp

/-- The node map after `AddPublisher(node, k)` and `RemovePublisher(node, k)`, when the
node did not publish `k` and was not a node without publications and subscriptions: the
node keeps its sets and gets the new `info`; every other node is untouched. -/
theorem AddRemove_find {g : MessageGraph} (he : g.EdgeInv) (hi : g.IndexInv)
    (node : NodeInfo) (k : TopicKey)
    (hk : k ∉ g.GetNodePublishTopicKeys node.node_name)
    (hiso : g.HasNode node.node_name = true →
      g.GetNodePublishTopicKeys node.node_name ≠ []
        ∨ g.GetNodeSubscribeTopicKeys node.node_name ≠ [])
    (n : String) :
    Assoc.find ((g.AddPublisher node k).RemovePublisher node k).nodes_ n
      = if n = node.node_name then
          (Assoc.find g.nodes_ node.node_name).map (fun v => { v with info := node })
        else Assoc.find g.nodes_ n := by
  obtain ⟨h, heq, hfind, hedges, hpubs, -, -⟩ := RemovePublisher_eq (g.AddPublisher node k) node k
  have hnp : node.node_name ∉ g.publishersOf k := by
    intro hin
    obtain ⟨v, hv, hkv⟩ := hi.1 k _ hin
    apply hk
    simp only [MessageGraph.GetNodePublishTopicKeys, hv]
    exact hkv
  have hedge : ∀ e, e ∈ h.edges_ ↔ e ∈ g.edges_ := by
    intro e
    rw [hedges, AddPublisher_edges]
    constructor
    · rintro ⟨h1 | ⟨s, -, rfl⟩, h2⟩
      · exact h1
      · exact absurd ⟨rfl, rfl⟩ h2
    · intro h1
      obtain ⟨p, s, k'⟩ := e
      refine ⟨Or.inl h1, ?_⟩
      rintro ⟨hk', hp'⟩
      dsimp only at hk' hp'
      subst hk'
      exact hnp (hp' ▸ ((he p s k').1 h1).1)
  rw [heq, CleanupIsolatedNodeIfAny_find]
  by_cases hn : n = node.node_name
  swap
  · rw [if_neg (fun c => hn c.1), hfind, if_neg hn, AddPublisher_find, if_neg hn, if_neg hn]
  subst hn
  have hh : Assoc.find h.nodes_ node.node_name
      = some ⟨node, eraseSet k (insertSet k
          ((Assoc.find g.nodes_ node.node_name).getD NodeVertex.default).publishes),
          ((Assoc.find g.nodes_ node.node_name).getD NodeVertex.default).subscribes⟩ := by
    rw [hfind, if_pos rfl, AddPublisher_find, if_pos rfl]; rfl
  cases hv : Assoc.find g.nodes_ node.node_name with
  | none =>
    rw [hv] at hh
    rw [if_pos rfl, if_pos]
    · rfl
    · refine ⟨rfl, ⟨_, hh, ?_, rfl⟩, ?_⟩
      · simp [NodeVertex.default, insertSet, eraseSet]
      · intro e hmem
        rw [hedge] at hmem
        obtain ⟨p, s, k'⟩ := e
        obtain ⟨hp, hs⟩ := (he p s k').1 hmem
        constructor
        · rintro rfl
          obtain ⟨v, hv', -⟩ := hi.1 k' _ hp
          rw [hv] at hv'; cases hv'
        · rintro rfl
          obtain ⟨v, hv', -⟩ := hi.2 k' _ hs
          rw [hv] at hv'; cases hv'
  | some v =>
    rw [hv] at hh
    simp only [Option.getD_some] at hh
    have hkv : k ∉ v.publishes := by
      simpa only [MessageGraph.GetNodePublishTopicKeys, hv] using hk
    rw [eraseSet_insertSet k _ hkv] at hh
    have hlive := hiso (by simp [MessageGraph.HasNode, hv])
    simp only [MessageGraph.GetNodePublishTopicKeys, MessageGraph.GetNodeSubscribeTopicKeys,
      hv] at hlive
    rw [if_pos rfl, if_neg, hh]
    · rfl
    · rintro ⟨-, ⟨v', hv', hp', hs'⟩, -⟩
      rw [hh] at hv'
      cases hv'
      rcases hlive with hl | hl
      · exact hl hp'
      · exact hl hs'

/-- The indexes and the edge set after `AddPublisher(node, k)` and
`RemovePublisher(node, k)`, when the node was not a publisher of `k`. -/
theorem AddRemove_index {g : MessageGraph} (he : g.EdgeInv) (node : NodeInfo) (k : TopicKey)
    (hnp : node.node_name ∉ g.publishersOf k) :
    (∀ k', ((g.AddPublisher node k).RemovePublisher node k).publishersOf k'
      = g.publishersOf k') ∧
    (∀ k', ((g.AddPublisher node k).RemovePublisher node k).subscribersOf k'
      = g.subscribersOf k') ∧
    (∀ e, e ∈ ((g.AddPublisher node k).RemovePublisher node k).edges_ ↔ e ∈ g.edges_) := by
  refine ⟨?_, ?_, ?_⟩
  · intro k'
    rw [RemovePublisher_publishersOf, AddPublisher_publishersOf, if_pos rfl]
    by_cases hk : k' = k
    · subst hk; rw [if_pos rfl, eraseSet_insertSet _ _ hnp]
    · rw [if_neg hk, AddPublisher_publishersOf, if_neg hk]
  · intro k'
    rw [RemovePublisher_subscribersOf, subscribersOf_congr (AddPublisher_subscribers g node k)]
  · intro e
    obtain ⟨h, heq, -, hedges, -, -, -⟩ := RemovePublisher_eq (g.AddPublisher node k) node k
    rw [heq, CleanupIsolatedNodeIfAny_edges, hedges, AddPublisher_edges]
    constructor
    · rintro ⟨h1 | ⟨s, -, rfl⟩, h2⟩
      · exact h1
      · exact absurd ⟨rfl, rfl⟩ h2
    · intro h1
      obtain ⟨p, s, k'⟩ := e
      refine ⟨Or.inl h1, ?_⟩
      rintro ⟨hk', hp'⟩
      dsimp only at hk' hp'
      subst hk'
      exact hnp (hp' ▸ ((he p s k').1 h1).1)

/-! ## Message factory lemmas -/

/-- A registered name keeps the prototype of its generated class, whatever is
registered or created afterwards. -/
theorem MsgFactory.find_registered (pool : String → Option Descriptor)
    (gp : Descriptor → Option Prototype) (n : String) (ops : List FactoryOp) :
    ∀ f : MsgFactory,
      (Assoc.find f.factory_ n = some ⟨n, true⟩ ∨ FactoryOp.registerMessage n ∈ ops) →
      Assoc.find (MsgFactory.applyAll pool gp f ops).factory_ n = some ⟨n, true⟩ := by
  induction ops with
  | nil =>
    intro f h
    rcases h with h | h
    · exact h
    · cases h
  | cons op ops ih =>
    intro f h
    show Assoc.find (MsgFactory.applyAll pool gp (MsgFactory.apply pool gp f op) ops).factory_ n
      = some ⟨n, true⟩
    apply ih
    cases op with
    | registerMessage m =>
      by_cases hm : m = n
      · subst hm
        left
        simp [MsgFactory.apply, MsgFactory.registerMessage, Assoc.find_set]
      · rcases h with h | h
        · left
          have : ¬ n = m := fun e => hm e.symm
          simp [MsgFactory.apply, MsgFactory.registerMessage, Assoc.find_set, this, h]
        · right
          rcases List.mem_cons.1 h with h | h
          · cases h; exact absurd rfl hm
          · exact h
    | createMessage m =>
      rcases h with h | h
      · left
        simp only [MsgFactory.apply, MsgFactory.createMessage]
        cases hf : Assoc.find f.factory_ m with
        | some p => exact h
        | none =>
          dsimp only
          cases pool m with
          | none => exact h
          | some desc =>
            dsimp only
            cases gp desc with
            | none => exact h
            | some p =>
              dsimp only
              have hnm : ¬ n = m := by
                rintro rfl
                rw [h] at hf
                cases hf
              rw [Assoc.find_set, if_neg hnm]
              exact h
      · right
        rcases List.mem_cons.1 h with h | h
        · cases h
        · exact h

/-! ## Port selection lemmas -/

theorem findAvailablePortFrom_none_found (socket_ok bind_ok : Int → Bool) :
    ∀ (n : Nat) (port : Int), port + n ≤ 2147483647 →
      (∀ q, port ≤ q → q < port + n → SystemManager.bindSucceeds socket_ok bind_ok q = false) →
      SystemManager.findAvailablePortFrom socket_ok bind_ok n port = some (-1) := by
  intro n
  induction n with
  | zero => intro port _ _; rfl
  | succ n ih =>
    intro port hb h
    have h0 : SystemManager.bindSucceeds socket_ok bind_ok port = false :=
      h port (le_refl _) (by push_cast; omega)
    have h1 : port ≠ 2147483647 := by push_cast at hb; omega
    simp only [SystemManager.findAvailablePortFrom, h0, Bool.false_eq_true, if_false, h1]
    apply ih
    · push_cast at hb; omega
    · intro q hq1 hq2
      exact h q (by omega) (by push_cast; omega)

theorem findAvailablePortFrom_found (socket_ok bind_ok : Int → Bool) :
    ∀ (n : Nat) (port p : Int), p < 2147483647 → port ≤ p → p < port + n →
      SystemManager.bindSucceeds socket_ok bind_ok p = true →
      (∀ q, port ≤ q → q < p → SystemManager.bindSucceeds socket_ok bind_ok q = false) →
      SystemManager.findAvailablePortFrom socket_ok bind_ok n port = some p := by
  intro n
  induction n with
  | zero => intro port p _ h1 h2 _ _; simp at h2; omega
  | succ n ih =>
    intro port p hb h1 h2 hp hq
    by_cases hpp : port = p
    · subst hpp
      simp only [SystemManager.findAvailablePortFrom, hp, if_true]
    · have h0 : SystemManager.bindSucceeds socket_ok bind_ok port = false :=
        hq port (le_refl _) (by omega)
      have h3 : port ≠ 2147483647 := by omega
      simp only [SystemManager.findAvailablePortFrom, h0, Bool.false_eq_true, if_false, h3]
      apply ih (port + 1) p hb (by omega) (by push_cast at h2; omega) hp
      intro q hq1 hq2
      exact hq q (by omega) hq2

/-- What `findAvailablePort` returns for a range that ends below the largest `int`: the
smallest value of the range at which the loop body returns, or -1 when there is none. -/
theorem findAvailablePort_spec (socket_ok bind_ok : Int → Bool) (start_port end_port : Int)
    (he : end_port < 2147483647) :
    (∀ p, start_port ≤ p → p ≤ end_port →
      SystemManager.bindSucceeds socket_ok bind_ok p = true →
      (∀ q, start_port ≤ q → q < p → SystemManager.bindSucceeds socket_ok bind_ok q = false) →
      SystemManager.findAvailablePort socket_ok bind_ok start_port end_port = some p) ∧
    ((∀ p, start_port ≤ p → p ≤ end_port →
        SystemManager.bindSucceeds socket_ok bind_ok p = false) →
      SystemManager.findAvailablePort socket_ok bind_ok start_port end_port = some (-1)) := by
  constructor
  · intro p h1 h2 hp hq
    apply findAvailablePortFrom_found socket_ok bind_ok _ start_port p (by omega) h1 _ hp hq
    omega
  · intro h
    by_cases hse : start_port ≤ end_port
    · apply findAvailablePortFrom_none_found
      · omega
      · intro q hq1 hq2
        exact h q hq1 (by omega)
    · have h0 : (end_port + 1 - start_port).toNat = 0 := by omega
      simp only [SystemManager.findAvailablePort, h0, SystemManager.findAvailablePortFrom]

/-- In a range there is a smallest value at which the loop body returns, or none. -/
theorem exists_smallest_port (ok : Int → Bool) (start_port : Int) :
    ∀ (n : Nat), (∀ q, start_port ≤ q → q < start_port + n → ok q = false) ∨
      ∃ p, start_port ≤ p ∧ p < start_port + n ∧ ok p = true ∧
        ∀ q, start_port ≤ q → q < p → ok q = false := by
  intro n
  induction n with
  | zero => left; intro q h1 h2; simp at h2; omega
  | succ n ih =>
    rcases ih with h | ⟨p, h1, h2, h3, h4⟩
    · cases hn : ok (start_port + n) with
      | false =>
        left
        intro q hq1 hq2
        by_cases hq : q = start_port + n
        · rw [hq]; exact hn
        · exact h q hq1 (by push_cast at hq2; omega)
      | true =>
        right
        exact ⟨start_port + n, by omega, by push_cast; omega, hn, fun q hq1 hq2 => h q hq1 hq2⟩
    · right
      exact ⟨p, h1, by push_cast; omega, h3, h4⟩

/-! ## Graphs built by the registration requests -/

theorem insertSet_ne_nil {α : Type} [DecidableEq α] (x : α) (s : List α) :
    insertSet x s ≠ [] :=
  List.ne_nil_of_mem ((mem_insertSet x x s).2 (Or.inl rfl))

theorem eraseSet_of_not_mem {α : Type} [DecidableEq α] (x : α) (s : List α) (h : x ∉ s) :
    eraseSet x s = s := by
  simp only [eraseSet]
  rw [List.filter_eq_self]
  intro a ha
  simp only [ne_eq, decide_not, Bool.not_eq_true', decide_eq_false_iff_not]
  rintro rfl
  exact h ha

/-- The graph invariants after any sequence of registration requests: these never call
`UpsertNode` alone, so every vertex has a publication or a subscription. -/
theorem Inv_requests (cs : List RpcCall) :
    (MessageGraph.empty.applyAll (cs.map RpcCall.toOp)).EdgeInv ∧
    (MessageGraph.empty.applyAll (cs.map RpcCall.toOp)).IndexInv ∧
    (MessageGraph.empty.applyAll (cs.map RpcCall.toOp)).LiveInv := by
  induction cs using List.reverseRecOn with
  | nil =>
    refine ⟨EdgeInv_empty, IndexInv_empty, ?_⟩
    intro n v hv
    cases hv
  | append_singleton cs c ih =>
    obtain ⟨he, hi, hl⟩ := ih
    rw [List.map_append, applyAll_append]
    obtain ⟨he', hi'⟩ := Inv_applyAll [c.toOp] he hi
    refine ⟨he', hi', ?_⟩
    generalize MessageGraph.empty.applyAll (cs.map RpcCall.toOp) = g at he hi hl
    show ((g.applyAll [c.toOp])).LiveInv
    have hstep : g.applyAll [c.toOp] = g.apply c.toOp := rfl
    rw [hstep]
    intro n v hv
    cases c with
    | Subscribe t m node =>
      simp only [RpcCall.toOp, MessageGraph.apply, AddSubscriber_find] at hv
      by_cases hn : n = node.node_name
      · rw [if_pos hn] at hv
        cases hv
        exact Or.inr (insertSet_ne_nil _ _)
      · rw [if_neg hn] at hv
        exact hl n v hv
    | RegisterPublisher t m node =>
      simp only [RpcCall.toOp, MessageGraph.apply, AddPublisher_find] at hv
      by_cases hn : n = node.node_name
      · rw [if_pos hn] at hv
        cases hv
        exact Or.inl (insertSet_ne_nil _ _)
      · rw [if_neg hn] at hv
        exact hl n v hv
    | Unsubscribe t m node =>
      simp only [RpcCall.toOp, MessageGraph.apply] at hv
      obtain ⟨h, heq, heh, hih, hrel⟩ := RemoveSubscriber_pre he hi node ⟨t, m⟩
      rw [heq] at hv
      by_cases hn : n = node.node_name
      · subst hn
        exact (Cleanup_live heh hih _ v hv).2
      · obtain ⟨v0, hv0, -, hp, hs⟩ := hrel n v (Cleanup_find_some hv)
        rcases hl n v0 hv0 with h1 | h1
        · exact Or.inl (hp ▸ h1)
        · right
          obtain ⟨x, hx⟩ := List.exists_mem_of_ne_nil _ h1
          exact List.ne_nil_of_mem ((hs x).2 ⟨hx, fun e => absurd e hn⟩)
    | UnregisterPublisher t m node =>
      simp only [RpcCall.toOp, MessageGraph.apply] at hv
      obtain ⟨h, heq, heh, hih, hrel⟩ := RemovePublisher_pre he hi node ⟨t, m⟩
      rw [heq] at hv
      by_cases hn : n = node.node_name
      · subst hn
        exact (Cleanup_live heh hih _ v hv).2
      · obtain ⟨v0, hv0, -, hs, hp⟩ := hrel n v (Cleanup_find_some hv)
        rcases hl n v0 hv0 with h1 | h1
        · left
          obtain ⟨x, hx⟩ := List.exists_mem_of_ne_nil _ h1
          exact List.ne_nil_of_mem ((hp x).2 ⟨hx, fun e => absurd e hn⟩)
        · exact Or.inr (hs ▸ h1)

/-- `RemoveSubscriber(node, k)` for a node that does not subscribe to `k`, in a graph that
satisfies the invariants: nothing observable changes. -/
theorem RemoveSubscriber_absent {g : MessageGraph} (he : g.EdgeInv) (hi : g.IndexInv)
    (hl : g.LiveInv) (node : NodeInfo) (k : TopicKey)
    (hk : k ∉ g.GetNodeSubscribeTopicKeys node.node_name) :
    (∀ n, Assoc.find (g.RemoveSubscriber node k).nodes_ n = Assoc.find g.nodes_ n) ∧
    (∀ k', (g.RemoveSubscriber node k).publishersOf k' = g.publishersOf k') ∧
    (∀ k', (g.RemoveSubscriber node k).subscribersOf k' = g.subscribersOf k') ∧
    (∀ e, e ∈ (g.RemoveSubscriber node k).edges_ ↔ e ∈ g.edges_) := by
  have hns : node.node_name ∉ g.subscribersOf k := by
    intro hin
    obtain ⟨v, hv, hkv⟩ := hi.2 k _ hin
    apply hk
    simp only [MessageGraph.GetNodeSubscribeTopicKeys, hv]
    exact hkv
  obtain ⟨h, heq, hfind, hedges, hsubs, -, -⟩ := RemoveSubscriber_eq g node k
  have hfind' : ∀ n, Assoc.find h.nodes_ n = Assoc.find g.nodes_ n := by
    intro n
    rw [hfind]
    by_cases hn : n = node.node_name
    · subst hn
      rw [if_pos rfl]
      cases hv : Assoc.find g.nodes_ node.node_name with
      | none => rfl
      | some v =>
        have hkv : k ∉ v.subscribes := by
          simpa only [MessageGraph.GetNodeSubscribeTopicKeys, hv] using hk
        simp only [Option.map_some', eraseSet_of_not_mem k _ hkv]
    · rw [if_neg hn]
  refine ⟨?_, fun k' => RemoveSubscriber_publishersOf g node k k', ?_, ?_⟩
  · intro n
    rw [heq, CleanupIsolatedNodeIfAny_find]
    split_ifs with hc
    · exfalso
      obtain ⟨-, ⟨v, hv, hp, hs⟩, -⟩ := hc
      rw [hfind'] at hv
      rcases hl _ v hv with h1 | h1
      · exact h1 hp
      · exact h1 hs
    · exact hfind' n
  · intro k'
    rw [RemoveSubscriber_subscribersOf]
    by_cases hk' : k' = k
    · subst hk'
      rw [if_pos rfl, eraseSet_of_not_mem _ _ hns]
    · rw [if_neg hk']
  · intro e
    rw [heq, CleanupIsolatedNodeIfAny_edges, hedges]
    constructor
    · exact fun h1 => h1.1
    · intro h1
      obtain ⟨p, s, k'⟩ := e
      refine ⟨h1, ?_⟩
      rintro ⟨hk', hs'⟩
      dsimp only at hk' hs'
      subst hk'
      exact hns (hs' ▸ ((he p s k').1 h1).2)

/-- `Unsubscribe` by a node that is not subscribed under the key, after any sequence of
registration requests: nothing observable changes in the graph, and the update that
removes the node is pushed to the nodes `GetPublishersByTopic` returns. -/
theorem Unsubscribe_absent (cs : List RpcCall) (topic_name msg_type : String) (node : NodeInfo)
    (hk : (⟨topic_name, msg_type⟩ : TopicKey)
      ∉ (MessageGraph.empty.applyAll (cs.map RpcCall.toOp)).GetNodeSubscribeTopicKeys
          node.node_name) :
    (∀ n, Assoc.find (RosRpcServiceImpl.Unsubscribe
          (MessageGraph.empty.applyAll (cs.map RpcCall.toOp)) topic_name msg_type node).1.nodes_ n
        = Assoc.find (MessageGraph.empty.applyAll (cs.map RpcCall.toOp)).nodes_ n) ∧
    (∀ k', (RosRpcServiceImpl.Unsubscribe
          (MessageGraph.empty.applyAll (cs.map RpcCall.toOp)) topic_name msg_type
          node).1.publishersOf k'
        = (MessageGraph.empty.applyAll (cs.map RpcCall.toOp)).publishersOf k') ∧
    (∀ k', (RosRpcServiceImpl.Unsubscribe
          (MessageGraph.empty.applyAll (cs.map RpcCall.toOp)) topic_name msg_type
          node).1.subscribersOf k'
        = (MessageGraph.empty.applyAll (cs.map RpcCall.toOp)).subscribersOf k') ∧
    (∀ e, e ∈ (RosRpcServiceImpl.Unsubscribe
          (MessageGraph.empty.applyAll (cs.map RpcCall.toOp)) topic_name msg_type node).1.edges_
        ↔ e ∈ (MessageGraph.empty.applyAll (cs.map RpcCall.toOp)).edges_) ∧
    (RosRpcServiceImpl.Unsubscribe
        (MessageGraph.empty.applyAll (cs.map RpcCall.toOp)) topic_name msg_type node).2
      = ((MessageGraph.empty.applyAll (cs.map RpcCall.toOp)).GetPublishersByTopic
          topic_name).map (fun pub => ⟨pub.node_name, ⟨topic_name, [], [node]⟩⟩) := by
  obtain ⟨he, hi, hl⟩ := Inv_requests cs
  generalize MessageGraph.empty.applyAll (cs.map RpcCall.toOp) = g at he hi hl hk
  obtain ⟨h1, h2, h3, h4⟩ := RemoveSubscriber_absent he hi hl node ⟨topic_name, msg_type⟩ hk
  refine ⟨h1, h2, h3, h4, ?_⟩
  have hpub : (g.RemoveSubscriber node ⟨topic_name, msg_type⟩).publishers_by_topic_
      = g.publishers_by_topic_ := by
    obtain ⟨h, heq, -, -, -, hp, -⟩ := RemoveSubscriber_eq g node ⟨topic_name, msg_type⟩
    rw [heq, CleanupIsolatedNodeIfAny_publishers, hp]
  simp only [RosRpcServiceImpl.Unsubscribe, MessageGraph.GetPublishersByTopic,
    MessageGraph.lookupByTopic, hpub, h1]

/-! ## Settled properties -/

/-- C1, as amended.  Codec round trip: for every topic and type name shorter than 65536
octets and every payload for which the whole frame is shorter than 2^32 octets,
`PollManager::onMessage` run on the frame built by `Publisher::publish` returns after
handling exactly one message, whose topic, type and payload are the originals, and
leaves the buffer empty.  Two passes of the loop are enough. -/
theorem C1_codec_round_trip (topic type payload : List Byte) (fuel : Nat)
    (ht : topic.length < 65536) (hm : type.length < 65536)
    (hp : 8 + topic.length + type.length + payload.length < 4294967296) (hf : 2 ≤ fuel) :
    PollManager.onMessage fuel (Publisher.publishBuffer topic type payload)
      = ⟨[⟨topic, type, payload⟩], [], .returned⟩ := by
  obtain ⟨f, rfl⟩ : ∃ f, fuel = f + 2 := ⟨fuel - 2, by omega⟩
  have hpass := onMessagePass_publishBuffer topic type payload [] ht hm hp
  rw [List.append_nil] at hpass
  have hlen : (Publisher.publishBuffer topic type payload).length
      = 8 + topic.length + type.length + payload.length := by
    simp only [Publisher.publishBuffer, List.length_append, length_htons, length_htonl]; omega
  have hdrop : (Publisher.publishBuffer topic type payload).drop
      (8 + topic.length + type.length + payload.length) = [] := by
    rw [← hlen]; exact List.drop_length _
  have hnil : PollManager.onMessage (f + 1) [] = ⟨[], [], .returned⟩ := by
    simp [PollManager.onMessage, PollManager.onMessagePass]
  rw [PollManager.onMessage, hpass]
  simp only [hdrop, hnil]

/-- C1 at topic `t`, type `X`, payload `01 02 03`, two passes. -/
theorem C1_codec_round_trip_witness :
    ([116] : List Byte).length < 65536 ∧ ([88] : List Byte).length < 65536 ∧
    PollManager.onMessage 2 (Publisher.publishBuffer [116] [88] [1, 2, 3])
      = ⟨[⟨[116], [88], [1, 2, 3]⟩], [], .returned⟩ :=
  ⟨by decide, by decide,
    C1_codec_round_trip [116] [88] [1, 2, 3] 2 (by decide) (by decide) (by decide) (by decide)⟩

/-- C1 as stated fails for a topic of 65536 octets: `static_cast<uint16_t>` writes the
length field 0, and no run of `onMessage` on the frame handles exactly the original
message and leaves the buffer empty. -/
theorem C1_long_topic_counterexample :
    ¬ ∃ fuel, PollManager.onMessage fuel (Publisher.publishBuffer (List.replicate 65536 0) [] [])
      = ⟨[⟨List.replicate 65536 0, [], []⟩], [], .returned⟩ := by
  rintro ⟨fuel, h⟩
  cases fuel with
  | zero => exact absurd (congrArg Run.exit h) (by simp only [PollManager.onMessage]; decide)
  | succ f =>
    rw [publishBuffer_long_topic, PollManager.onMessage, onMessagePass_zeros] at h
    simp only [Run.mk.injEq, List.cons.injEq, Frame.mk.injEq] at h
    have hlen := congrArg List.length h.1.1.1
    simp only [List.length_nil, List.length_replicate] at hlen
    exact absurd hlen (by decide)

/-- C2.  Drop-oldest bounded queue: on a registered topic whose capacity is `k >= 1`,
that is, `k` is the size stored for the topic in `topic_max_queue_sizes_` (where
`setTopicMaxQueueSize` puts it) or, when none is stored, the default size, and whose
queue is empty, pushing `msgs` with no drain in between succeeds, and afterwards any
number of `processCallbacks` calls that is at least the number of waiting messages
invokes, for that topic, exactly the callbacks of the topic, in registration order, once
for each of the last `min n k` messages, in push order. -/
theorem C2_drop_oldest_delivery (q : MessageQueue) (topic : String) (k : Nat)
    (msgs : List Message)
    (hreg : topic ∈ q.registered_topics_)
    (hcap : Assoc.find q.topic_max_queue_sizes_ topic = some k ∨
      (Assoc.find q.topic_max_queue_sizes_ topic = none ∧ q.default_max_queue_size_ = k))
    (hk : 1 ≤ k)
    (hempty : ∀ e ∈ q.message_queues_, e.1 = topic → e.2 = []) :
    (∃ q', q.pushAll topic msgs = some q' ∧
      ∀ n, q'.pending ≤ n →
        (q'.drain n).2.filter (fun c => decide (c.topic = topic))
          = (msgs.drop (msgs.length - min msgs.length k)).flatMap
              (fun m => ((Assoc.find q.subscribers_ topic).getD []).map
                (fun cb => ⟨topic, cb, m⟩))) ∧
    (∀ (q0 : MessageQueue) (max_size : Nat),
      Assoc.find (q0.setTopicMaxQueueSize topic max_size).topic_max_queue_sizes_ topic
        = some max_size) := by
  have hmax : q.maxSize topic = k := by
    unfold MessageQueue.maxSize
    rcases hcap with h | ⟨h, hd⟩
    · rw [h]
    · rw [h]; exact hd
  refine ⟨?_, fun q0 max_size => by
    simp only [MessageQueue.setTopicMaxQueueSize, Assoc.find_set, if_true]⟩
  obtain ⟨h0, h1⟩ := queued_eq_nil_of_empty q.message_queues_ topic hempty
  obtain ⟨q', hp, hsub, hq⟩ := pushAll_registered topic msgs q hreg (by rw [hmax]; exact hk)
    (by rw [h0, h1]) (by rw [h0]; exact Nat.zero_le _)
  refine ⟨q', hp, fun n hn => ?_⟩
  rw [drain_filter topic n q' hn, hq, h0, List.nil_append, hmax]
  have e : msgs.length - min msgs.length k = msgs.length - k := by
    omega
  rw [e]
  simp only [invocationsFor, hsub]

/-- C2 on the queue a `Subscriber` on `T` with `queue_size` 2 and callback 7 leaves
(`registerTopic`, `setTopicMaxQueueSize(T, 2)`, `addSubscriber`), and on a queue with
default size 2 and no size set for `T`: of the five messages 1..5 pushed, the callback
is invoked with 4 and then 5, and with nothing else. -/
theorem C2_drop_oldest_delivery_witness :
    Assoc.find ((((MessageQueue.new 1000).registerTopic "T").setTopicMaxQueueSize "T"
        2).addSubscriber "T" 7).topic_max_queue_sizes_ "T" = some 2 ∧
    ((((MessageQueue.new 1000).registerTopic "T").setTopicMaxQueueSize "T" 2).addSubscriber
        "T" 7).pushAll "T" [1, 2, 3, 4, 5]
      = some ⟨1000, ["T"], [("T", 2)], [("T", [4, 5])], [("T", [7])]⟩ ∧
    ((MessageQueue.mk 1000 ["T"] [("T", 2)] [("T", [4, 5])] [("T", [7])]).drain 2).2.filter
        (fun c => decide (c.topic = "T"))
      = [⟨"T", 7, 4⟩, ⟨"T", 7, 5⟩] ∧
    (Assoc.find (((MessageQueue.new 2).registerTopic "T").addSubscriber "T"
        7).topic_max_queue_sizes_ "T" = none ∧
      (((MessageQueue.new 2).registerTopic "T").addSubscriber "T" 7).default_max_queue_size_
        = 2) ∧
    (((MessageQueue.new 2).registerTopic "T").addSubscriber "T" 7).pushAll "T" [1, 2, 3, 4, 5]
      = some ⟨2, ["T"], [], [("T", [4, 5])], [("T", [7])]⟩ ∧
    ((MessageQueue.mk 2 ["T"] [] [("T", [4, 5])] [("T", [7])]).drain 2).2.filter
        (fun c => decide (c.topic = "T"))
      = [⟨"T", 7, 4⟩, ⟨"T", 7, 5⟩] := by
  obtain ⟨q1, hp1, hd1⟩ := (C2_drop_oldest_delivery
    ((((MessageQueue.new 1000).registerTopic "T").setTopicMaxQueueSize "T" 2).addSubscriber
      "T" 7) "T" 2 [1, 2, 3, 4, 5] (by decide) (Or.inl (by decide)) (by decide)
    (by decide)).1
  obtain ⟨q2, hp2, hd2⟩ := (C2_drop_oldest_delivery
    (((MessageQueue.new 2).registerTopic "T").addSubscriber "T" 7) "T" 2 [1, 2, 3, 4, 5]
    (by decide) (Or.inr ⟨by decide, by decide⟩) (by decide) (by decide)).1
  have e1 : ((((MessageQueue.new 1000).registerTopic "T").setTopicMaxQueueSize "T"
      2).addSubscriber "T" 7).pushAll "T" [1, 2, 3, 4, 5]
      = some ⟨1000, ["T"], [("T", 2)], [("T", [4, 5])], [("T", [7])]⟩ := by decide
  have e2 : (((MessageQueue.new 2).registerTopic "T").addSubscriber "T" 7).pushAll "T"
      [1, 2, 3, 4, 5] = some ⟨2, ["T"], [], [("T", [4, 5])], [("T", [7])]⟩ := by decide
  have f1 := Option.some.inj (hp1.symm.trans e1)
  have f2 := Option.some.inj (hp2.symm.trans e2)
  subst f1
  subst f2
  exact ⟨by decide, e1, (hd1 2 (by decide)).trans (by decide), ⟨by decide, by decide⟩, e2,
    (hd2 2 (by decide)).trans (by decide)⟩

/-- C3.  Edge invariant: in every graph reached from the empty graph by `UpsertNode`,
`AddPublisher`, `AddSubscriber`, `RemovePublisher` and `RemoveSubscriber`, the edge
`(p, s, k)` is in the edge set if and only if `p` is in `publishers_by_topic_[k]` and `s`
is in `subscribers_by_topic_[k]`. -/
theorem C3_edge_invariant (ops : List GraphOp) (p s : String) (k : TopicKey) :
    (⟨p, s, k⟩ : Edge) ∈ (MessageGraph.empty.applyAll ops).edges_
      ↔ p ∈ (MessageGraph.empty.applyAll ops).publishersOf k
        ∧ s ∈ (MessageGraph.empty.applyAll ops).subscribersOf k :=
  (Inv_applyAll ops EdgeInv_empty IndexInv_empty).1 p s k

/-- C4.  Index invariant: in every graph reached from the empty graph by the public
operations, a name in `publishers_by_topic_[k]` is a node of the node map with `k` in its
`publishes` set, and a name in `subscribers_by_topic_[k]` is a node with `k` in its
`subscribes` set. -/
theorem C4_index_invariant (ops : List GraphOp) (k : TopicKey) (n : String) :
    (n ∈ (MessageGraph.empty.applyAll ops).publishersOf k →
      ∃ v, Assoc.find (MessageGraph.empty.applyAll ops).nodes_ n = some v ∧ k ∈ v.publishes) ∧
    (n ∈ (MessageGraph.empty.applyAll ops).subscribersOf k →
      ∃ v, Assoc.find (MessageGraph.empty.applyAll ops).nodes_ n = some v ∧ k ∈ v.subscribes) :=
  ⟨(Inv_applyAll ops EdgeInv_empty IndexInv_empty).2.1 k n,
    (Inv_applyAll ops EdgeInv_empty IndexInv_empty).2.2 k n⟩

/-- C5, as amended.  Node removal: from every reachable graph, after a non-empty sequence
`rs` of `RemovePublisher` / `RemoveSubscriber` calls for node `n` that names every key of
`n`'s `subscribes` set in a `RemoveSubscriber` and every key of `n`'s `publishes` set in a
`RemovePublisher`, in any order, `HasNode(n)` is false. -/
theorem C5_node_removed (ops rs : List GraphOp) (n : String)
    (hrs : ∀ r ∈ rs, r.isRemovalOf n = true) (hne : rs ≠ [])
    (hsub : ∀ k ∈ (MessageGraph.empty.applyAll ops).GetNodeSubscribeTopicKeys n,
      ∃ r ∈ rs, r.removesSubscriber n k = true)
    (hpub : ∀ k ∈ (MessageGraph.empty.applyAll ops).GetNodePublishTopicKeys n,
      ∃ r ∈ rs, r.removesPublisher n k = true) :
    ((MessageGraph.empty.applyAll ops).applyAll rs).HasNode n = false := by
  obtain ⟨he, hi⟩ := Inv_applyAll ops EdgeInv_empty IndexInv_empty
  rcases List.eq_nil_or_concat rs with h | ⟨rs0, r, h⟩
  · exact absurd h hne
  · rw [List.concat_eq_append] at h
    cases hfind : Assoc.find ((MessageGraph.empty.applyAll ops).applyAll rs).nodes_ n with
    | none => simp [MessageGraph.HasNode, hfind]
    | some v' =>
      exfalso
      obtain ⟨v, hv, hp, hs⟩ := removals_shrink n rs he hi hrs v' hfind
      have hr : r.isRemovalOf n = true := hrs r (by rw [h]; simp)
      obtain ⟨he0, hi0⟩ := Inv_applyAll rs0 he hi
      have hfind' : Assoc.find (((MessageGraph.empty.applyAll ops).applyAll rs0).apply r).nodes_ n
          = some v' := by
        rw [← hfind, h, applyAll_append]; rfl
      obtain ⟨hlive, -⟩ := removal_step he0 hi0 n r hr v' hfind'
      rcases hlive with hl | hl
      · obtain ⟨x, hx⟩ := List.exists_mem_of_ne_nil _ hl
        obtain ⟨hx0, hno⟩ := hp x hx
        have hk : x ∈ (MessageGraph.empty.applyAll ops).GetNodePublishTopicKeys n := by
          simp only [MessageGraph.GetNodePublishTopicKeys, hv]; exact hx0
        obtain ⟨r', hr', hyes⟩ := hpub x hk
        rw [hno r' hr'] at hyes
        cases hyes
      · obtain ⟨x, hx⟩ := List.exists_mem_of_ne_nil _ hl
        obtain ⟨hx0, hno⟩ := hs x hx
        have hk : x ∈ (MessageGraph.empty.applyAll ops).GetNodeSubscribeTopicKeys n := by
          simp only [MessageGraph.GetNodeSubscribeTopicKeys, hv]; exact hx0
        obtain ⟨r', hr', hyes⟩ := hsub x hk
        rw [hno r' hr'] at hyes
        cases hyes

/-- C5 for a node that publishes `(t, X)` and subscribes to `(u, Y)`: after its
`RemoveSubscriber` and `RemovePublisher` the node is gone. -/
theorem C5_node_removed_witness :
    ((MessageGraph.empty.applyAll
        [.AddPublisher ⟨"n", "127.0.0.1", 60001⟩ ⟨"t", "X"⟩,
          .AddSubscriber ⟨"n", "127.0.0.1", 60001⟩ ⟨"u", "Y"⟩]).applyAll
        [.RemoveSubscriber ⟨"n", "127.0.0.1", 60001⟩ ⟨"u", "Y"⟩,
          .RemovePublisher ⟨"n", "127.0.0.1", 60001⟩ ⟨"t", "X"⟩]).HasNode "n" = false :=
  C5_node_removed
    [.AddPublisher ⟨"n", "127.0.0.1", 60001⟩ ⟨"t", "X"⟩,
      .AddSubscriber ⟨"n", "127.0.0.1", 60001⟩ ⟨"u", "Y"⟩]
    [.RemoveSubscriber ⟨"n", "127.0.0.1", 60001⟩ ⟨"u", "Y"⟩,
      .RemovePublisher ⟨"n", "127.0.0.1", 60001⟩ ⟨"t", "X"⟩]
    "n" (by decide) (by decide) (by decide) (by decide)

/-- C5 as stated fails for a node created by `UpsertNode` alone: its `publishes` and
`subscribes` sets are empty, so no removal is called for it, and it stays in the graph. -/
theorem C5_isolated_node_counterexample :
    (MessageGraph.empty.applyAll
        [.UpsertNode ⟨"n", "127.0.0.1", 60001⟩]).GetNodeSubscribeTopicKeys "n" = [] ∧
    (MessageGraph.empty.applyAll
        [.UpsertNode ⟨"n", "127.0.0.1", 60001⟩]).GetNodePublishTopicKeys "n" = [] ∧
    ((MessageGraph.empty.applyAll
        [.UpsertNode ⟨"n", "127.0.0.1", 60001⟩]).applyAll []).HasNode "n" = true := by
  decide

/-- C6 at a failing input.  Publisher `p1` is registered on `(t, X)` and `p2` on
`(t, Y)`.  `Subscribe(t, X, s1)` registers `s1` and then pushes the add to `p1` only,
although `p2` is a publisher on topic `t` in the resulting graph.  With the two
publishers registered in the other order the push goes to `p2` only, and `p1`, which
publishes the very key subscribed to, gets nothing. -/
theorem C6_subscribe_push_misses_publisher :
    (RosRpcServiceImpl.Subscribe
        (MessageGraph.empty.applyAll
          [.AddPublisher Example.p1 ⟨"t", "X"⟩, .AddPublisher Example.p2 ⟨"t", "Y"⟩])
        "t" "X" Example.s1).2
      = [⟨"p1", ⟨"t", [Example.s1], []⟩⟩] ∧
    "p2" ∈ (RosRpcServiceImpl.Subscribe
        (MessageGraph.empty.applyAll
          [.AddPublisher Example.p1 ⟨"t", "X"⟩, .AddPublisher Example.p2 ⟨"t", "Y"⟩])
        "t" "X" Example.s1).1.publishersOf ⟨"t", "Y"⟩ ∧
    (RosRpcServiceImpl.Subscribe
        (MessageGraph.empty.applyAll
          [.AddPublisher Example.p2 ⟨"t", "Y"⟩, .AddPublisher Example.p1 ⟨"t", "X"⟩])
        "t" "X" Example.s1).2
      = [⟨"p2", ⟨"t", [Example.s1], []⟩⟩] ∧
    "p1" ∈ (RosRpcServiceImpl.Subscribe
        (MessageGraph.empty.applyAll
          [.AddPublisher Example.p2 ⟨"t", "Y"⟩, .AddPublisher Example.p1 ⟨"t", "X"⟩])
        "t" "X" Example.s1).1.publishersOf ⟨"t", "X"⟩ := by
  decide

/-- C7 at a failing input.  Subscriber `s1` is registered on `(t, X)` and `s2` on
`(t, Y)`.  `RegisterPublisher(t, X, p1)` issues one push, to `p1`, whose `add_targets`
holds `s1` only, although `s2` is subscribed to topic `t`.  With the subscribers
registered in the other order `add_targets` holds `s2` only. -/
theorem C7_register_push_misses_subscriber :
    (RosRpcServiceImpl.RegisterPublisher
        (MessageGraph.empty.applyAll
          [.AddSubscriber Example.s1 ⟨"t", "X"⟩, .AddSubscriber Example.s2 ⟨"t", "Y"⟩])
        "t" "X" Example.p1).2
      = [⟨"p1", ⟨"t", [Example.s1], []⟩⟩] ∧
    "s2" ∈ (RosRpcServiceImpl.RegisterPublisher
        (MessageGraph.empty.applyAll
          [.AddSubscriber Example.s1 ⟨"t", "X"⟩, .AddSubscriber Example.s2 ⟨"t", "Y"⟩])
        "t" "X" Example.p1).1.subscribersOf ⟨"t", "Y"⟩ ∧
    (RosRpcServiceImpl.RegisterPublisher
        (MessageGraph.empty.applyAll
          [.AddSubscriber Example.s2 ⟨"t", "Y"⟩, .AddSubscriber Example.s1 ⟨"t", "X"⟩])
        "t" "X" Example.p1).2
      = [⟨"p1", ⟨"t", [Example.s2], []⟩⟩] ∧
    "s1" ∈ (RosRpcServiceImpl.RegisterPublisher
        (MessageGraph.empty.applyAll
          [.AddSubscriber Example.s2 ⟨"t", "Y"⟩, .AddSubscriber Example.s1 ⟨"t", "X"⟩])
        "t" "X" Example.p1).1.subscribersOf ⟨"t", "X"⟩ := by
  decide

/-- C8 at a failing input.  Publishers `p1` on `(t, X)` and `p2` on `(t, Y)`, subscriber
`s1` on `(t, X)`.  `Unsubscribe(t, X, s1)` removes the subscription and pushes the
removal to `p1` only, although `p2` is a publisher on topic `t`.  With the publishers
registered in the other order the push goes to `p2` only. -/
theorem C8_unsubscribe_push_misses_publisher :
    (RosRpcServiceImpl.Unsubscribe
        (MessageGraph.empty.applyAll
          [.AddPublisher Example.p1 ⟨"t", "X"⟩, .AddPublisher Example.p2 ⟨"t", "Y"⟩,
            .AddSubscriber Example.s1 ⟨"t", "X"⟩])
        "t" "X" Example.s1).2
      = [⟨"p1", ⟨"t", [], [Example.s1]⟩⟩] ∧
    "p2" ∈ (RosRpcServiceImpl.Unsubscribe
        (MessageGraph.empty.applyAll
          [.AddPublisher Example.p1 ⟨"t", "X"⟩, .AddPublisher Example.p2 ⟨"t", "Y"⟩,
            .AddSubscriber Example.s1 ⟨"t", "X"⟩])
        "t" "X" Example.s1).1.publishersOf ⟨"t", "Y"⟩ ∧
    (RosRpcServiceImpl.Unsubscribe
        (MessageGraph.empty.applyAll
          [.AddPublisher Example.p2 ⟨"t", "Y"⟩, .AddPublisher Example.p1 ⟨"t", "X"⟩,
            .AddSubscriber Example.s1 ⟨"t", "X"⟩])
        "t" "X" Example.s1).2
      = [⟨"p2", ⟨"t", [], [Example.s1]⟩⟩] ∧
    "p1" ∈ (RosRpcServiceImpl.Unsubscribe
        (MessageGraph.empty.applyAll
          [.AddPublisher Example.p2 ⟨"t", "Y"⟩, .AddPublisher Example.p1 ⟨"t", "X"⟩,
            .AddSubscriber Example.s1 ⟨"t", "X"⟩])
        "t" "X" Example.s1).1.publishersOf ⟨"t", "X"⟩ := by
  decide

/-- C9.  Targets-table update: handling a frame of type `"TopicTargetsUpdate"` whose
payload parses to `update` makes the targets of `update.topic`, taken as a set of
`(ip, port)` addresses, equal to the old targets united with `add_targets`, minus
`remove_targets`; the stored entries come from the old targets or from `add_targets`;
the targets of every other topic are unchanged. -/
theorem C9_targets_update (ParseFromString : List Byte → Option TopicTargetsUpdate)
    (pm : PollManager) (topic data : List Byte) (update : TopicTargetsUpdate)
    (hparse : ParseFromString data = some update) :
    (∀ x : NodeInfo,
      (∃ y ∈ (pm.handleMessage ParseFromString topic TopicTargetsUpdate.typeName data).1.getTargets
          update.topic, NodeInfoEqual y x = true)
        ↔ ((∃ y ∈ pm.getTargets update.topic, NodeInfoEqual y x = true)
            ∨ (∃ y ∈ update.add_targets, NodeInfoEqual y x = true))
          ∧ ¬ ∃ y ∈ update.remove_targets, NodeInfoEqual y x = true) ∧
    (∀ y ∈ (pm.handleMessage ParseFromString topic TopicTargetsUpdate.typeName data).1.getTargets
        update.topic, y ∈ pm.getTargets update.topic ∨ y ∈ update.add_targets) ∧
    (∀ t, t ≠ update.topic →
      (pm.handleMessage ParseFromString topic TopicTargetsUpdate.typeName data).1.getTargets t
        = pm.getTargets t) := by
  have h : (pm.handleMessage ParseFromString topic TopicTargetsUpdate.typeName data).1
      = pm.applyUpdate update := by
    simp [PollManager.handleMessage, hparse]
  rw [h]
  refine ⟨addr_mem_applyUpdate pm update, ?_, ?_⟩
  · intro y hy
    rw [getTargets_applyUpdate, if_pos rfl, mem_foldl_eraseTarget] at hy
    exact mem_foldl_insertTarget _ _ _ hy.1
  · intro t ht
    rw [getTargets_applyUpdate, if_neg ht]

/-- C9 on a table that holds `s1` for topic `t`, for an update of `t` that adds `s2` and
removes `s1`: the address of `s2` is a target afterwards. -/
theorem C9_targets_update_witness :
    (fun _ => some (⟨"t", [Example.s2], [Example.s1]⟩ : TopicTargetsUpdate)) ([] : List Byte)
      = some ⟨"t", [Example.s2], [Example.s1]⟩ ∧
    ((∃ y ∈ ((⟨[("t", [Example.s1])]⟩ : PollManager).handleMessage
          (fun _ => some ⟨"t", [Example.s2], [Example.s1]⟩) [116]
          TopicTargetsUpdate.typeName []).1.getTargets "t",
        NodeInfoEqual y Example.s2 = true)
      ↔ ((∃ y ∈ (⟨[("t", [Example.s1])]⟩ : PollManager).getTargets "t",
            NodeInfoEqual y Example.s2 = true)
          ∨ (∃ y ∈ [Example.s2], NodeInfoEqual y Example.s2 = true))
        ∧ ¬ ∃ y ∈ [Example.s1], NodeInfoEqual y Example.s2 = true) :=
  ⟨rfl, (C9_targets_update (fun _ => some ⟨"t", [Example.s2], [Example.s1]⟩)
    ⟨[("t", [Example.s1])]⟩ [116] [] ⟨"t", [Example.s2], [Example.s1]⟩ rfl).1 Example.s2⟩

/-- C10, as amended.  Targets are a subset of subscribers: after every sequence of
`Subscribe`, `Unsubscribe`, `RegisterPublisher` and `UnregisterPublisher` requests in
which every topic name is used with one message type and every node name with one
address, every push being delivered and applied by the process listening at the address
dialled, for every topic `t` and every node `p` that is then a registered publisher of
`t`, has not called `UnregisterPublisher` for `t` and shares its address with no other
node of the sequence, every entry of the targets table for `t` of the process of `p` has
the address of a node currently registered as a subscriber of `t`. -/
theorem C10_targets_subset (listener : String × Int → String × Int) (cs : List RpcCall)
    (ty : String → String) (addr : String → String × Int) (t p : String) (x : NodeInfo)
    (hty : ∀ c ∈ cs, c.msg_type = ty c.topic_name)
    (haddr : ∀ c ∈ cs, (c.node.ip, c.node.port) = addr c.node.node_name)
    (hpeer : ∀ c ∈ cs,
      listener (MasterTcpServer.peer_addr c.node) = World.peer listener addr p →
        c.node.node_name = p)
    (hun : ∀ c ∈ cs, c.unregisters t p = false)
    (_hp : p ∈ (World.init.run listener cs).graph.publishersOf ⟨t, ty t⟩)
    (hx : x ∈
      ((World.init.run listener cs).poll (World.peer listener addr p)).getTargets t) :
    ∃ s v, s ∈ (World.init.run listener cs).graph.subscribersOf ⟨t, ty t⟩ ∧
      Assoc.find (World.init.run listener cs).graph.nodes_ s = some v ∧
      v.info.ip = x.ip ∧ v.info.port = x.port := by
  obtain ⟨-, hi, -, -, ha, -, hT1, -⟩ :=
    run_Inv listener ty addr t p cs World.init (Inv_init listener ty addr t p) hty haddr hpeer
      hun
  obtain ⟨s, hs, hsx⟩ := hT1 x hx
  obtain ⟨v, hv, -⟩ := hi.2 _ s hs
  have e : (v.info.ip, v.info.port) = (x.ip, x.port) := by rw [(ha s v hv).2, hsx]
  exact ⟨s, v, hs, hv, congrArg Prod.fst e, congrArg Prod.snd e⟩

/-- C10 after `RegisterPublisher(t, X, p1)` and `Subscribe(t, X, s1)`: the target that the
process of `p1`, listening at 127.0.0.1:60001, holds for `t` has the address of the
subscriber `s1`. -/
theorem C10_targets_subset_witness :
    World.peer id (fun n => if n = "p1" then ("127.0.0.1", 60001) else ("127.0.0.1", 60003))
        "p1" = ("127.0.0.1", 60001) ∧
    "p1" ∈ (World.init.run id [.RegisterPublisher "t" "X" Example.p1,
        .Subscribe "t" "X" Example.s1]).graph.publishersOf ⟨"t", "X"⟩ ∧
    Example.s1 ∈ ((World.init.run id [.RegisterPublisher "t" "X" Example.p1,
        .Subscribe "t" "X" Example.s1]).poll ("127.0.0.1", 60001)).getTargets "t" ∧
    ∃ s v, s ∈ (World.init.run id [.RegisterPublisher "t" "X" Example.p1,
        .Subscribe "t" "X" Example.s1]).graph.subscribersOf ⟨"t", "X"⟩ ∧
      Assoc.find (World.init.run id [.RegisterPublisher "t" "X" Example.p1,
        .Subscribe "t" "X" Example.s1]).graph.nodes_ s = some v ∧
      v.info.ip = Example.s1.ip ∧ v.info.port = Example.s1.port :=
  ⟨by decide, by decide, by decide,
    C10_targets_subset id
      [.RegisterPublisher "t" "X" Example.p1, .Subscribe "t" "X" Example.s1]
      (fun _ => "X")
      (fun n => if n = "p1" then ("127.0.0.1", 60001) else ("127.0.0.1", 60003))
      "t" "p1" Example.s1 (by decide) (by decide) (by decide) (by decide) (by decide)
      (by decide)⟩

/-- C10 as stated fails in three ways.  When a publisher unregisters and registers again:
after `RegisterPublisher(t, X, p1)`, `Subscribe(t, X, s1)`, `UnregisterPublisher(t, X, p1)`,
`Unsubscribe(t, X, s1)`, `RegisterPublisher(t, X, p1)`, with every push delivered, `p1` is
a registered publisher of `t` and the table of its process, at 127.0.0.1:60001, still
holds `s1` as a target for `t`, while the graph has no subscriber at all.  When the
last request comes instead from a node `p1b` at the address of `p1`: `p1b` is a
registered publisher of `t` that never unregistered, and the table of the process at its
address holds the stale `s1`.  And when a subscriber subscribes again from a new address:
after `RegisterPublisher(t, X, p1)`, `Subscribe(t, X, s1)` from port 60003 and
`Subscribe(t, X, s1)` from port 60005, the table of `p1` still holds the address with port
60003, which is the address of no node in the graph. -/
theorem C10_stale_target_counterexample :
    "p1" ∈ (World.init.run id [.RegisterPublisher "t" "X" Example.p1,
        .Subscribe "t" "X" Example.s1, .UnregisterPublisher "t" "X" Example.p1,
        .Unsubscribe "t" "X" Example.s1,
        .RegisterPublisher "t" "X" Example.p1]).graph.publishersOf ⟨"t", "X"⟩ ∧
    Example.s1 ∈ ((World.init.run id [.RegisterPublisher "t" "X" Example.p1,
        .Subscribe "t" "X" Example.s1, .UnregisterPublisher "t" "X" Example.p1,
        .Unsubscribe "t" "X" Example.s1,
        .RegisterPublisher "t" "X" Example.p1]).poll
          (MasterTcpServer.peer_addr Example.p1)).getTargets "t" ∧
    (World.init.run id [.RegisterPublisher "t" "X" Example.p1,
        .Subscribe "t" "X" Example.s1, .UnregisterPublisher "t" "X" Example.p1,
        .Unsubscribe "t" "X" Example.s1,
        .RegisterPublisher "t" "X" Example.p1]).graph.subscribers_by_topic_ = [] ∧
    "p1b" ∈ (World.init.run id [.RegisterPublisher "t" "X" Example.p1,
        .Subscribe "t" "X" Example.s1, .UnregisterPublisher "t" "X" Example.p1,
        .Unsubscribe "t" "X" Example.s1,
        .RegisterPublisher "t" "X" ⟨"p1b", "127.0.0.1", 60001⟩]).graph.publishersOf
          ⟨"t", "X"⟩ ∧
    Example.s1 ∈ ((World.init.run id [.RegisterPublisher "t" "X" Example.p1,
        .Subscribe "t" "X" Example.s1, .UnregisterPublisher "t" "X" Example.p1,
        .Unsubscribe "t" "X" Example.s1,
        .RegisterPublisher "t" "X" ⟨"p1b", "127.0.0.1", 60001⟩]).poll
          (MasterTcpServer.peer_addr ⟨"p1b", "127.0.0.1", 60001⟩)).getTargets "t" ∧
    (World.init.run id [.RegisterPublisher "t" "X" Example.p1,
        .Subscribe "t" "X" Example.s1, .UnregisterPublisher "t" "X" Example.p1,
        .Unsubscribe "t" "X" Example.s1,
        .RegisterPublisher "t" "X" ⟨"p1b", "127.0.0.1", 60001⟩]).graph.subscribers_by_topic_
      = [] ∧
    "p1" ∈ (World.init.run id [.RegisterPublisher "t" "X" Example.p1,
        .Subscribe "t" "X" Example.s1,
        .Subscribe "t" "X" ⟨"s1", "127.0.0.1", 60005⟩]).graph.publishersOf ⟨"t", "X"⟩ ∧
    (⟨"s1", "127.0.0.1", 60003⟩ : NodeInfo) ∈ ((World.init.run id
        [.RegisterPublisher "t" "X" Example.p1, .Subscribe "t" "X" Example.s1,
          .Subscribe "t" "X" ⟨"s1", "127.0.0.1", 60005⟩]).poll
          (MasterTcpServer.peer_addr Example.p1)).getTargets "t" ∧
    (World.init.run id [.RegisterPublisher "t" "X" Example.p1,
        .Subscribe "t" "X" Example.s1,
        .Subscribe "t" "X" ⟨"s1", "127.0.0.1", 60005⟩]).graph.nodes_
      = [("p1", ⟨Example.p1, [⟨"t", "X"⟩], []⟩),
          ("s1", ⟨⟨"s1", "127.0.0.1", 60005⟩, [], [⟨"t", "X"⟩]⟩)] := by
  decide

/-- C19.  Drain step: when every queue is empty `processCallbacks` changes nothing and
invokes no callback; when some queue is not empty it removes exactly the front (oldest)
message of one non-empty topic, the first in iteration order, leaves every other queue
and the rest of the state as they are, and invokes exactly the callbacks registered for
that topic, once each with that message, in registration order (`addSubscriber` appends
to the topic's callback list). -/
theorem C19_drain_step (q : MessageQueue) :
    ((∀ e ∈ q.message_queues_, e.2 = []) → q.processCallbacks = (q, [])) ∧
    ((∃ e ∈ q.message_queues_, e.2 ≠ []) →
      ∃ pre topic msg rest post,
        q.message_queues_ = pre ++ (topic, msg :: rest) :: post ∧
        (∀ e ∈ pre, e.2 = []) ∧
        q.processCallbacks
          = ({ q with message_queues_ := pre ++ (topic, rest) :: post },
              ((Assoc.find q.subscribers_ topic).getD []).map (fun cb => ⟨topic, cb, msg⟩))) ∧
    (∀ topic cb, (Assoc.find (q.addSubscriber topic cb).subscribers_ topic).getD []
      = (Assoc.find q.subscribers_ topic).getD [] ++ [cb]) := by
  refine ⟨?_, ?_, ?_⟩
  · intro h
    simp [MessageQueue.processCallbacks, popFirst_eq_none_of_empty _ h]
  · intro h
    obtain ⟨pre, topic, msg, rest, post, hq, hpre, hpop⟩ := popFirst_of_nonempty _ h
    exact ⟨pre, topic, msg, rest, post, hq, hpre, by simp [MessageQueue.processCallbacks, hpop]⟩
  · intro topic cb
    simp [MessageQueue.addSubscriber, Assoc.find_set]

/-- C20.  Unregistered push is dropped: `push` on a topic that is not in
`registered_topics_` returns with the whole queue state unchanged. -/
theorem C20_unregistered_push_dropped (q : MessageQueue) (topic : String) (msg : Message)
    (h : topic ∉ q.registered_topics_) : q.push topic msg = some q := by
  simp [MessageQueue.push, h]

/-- C20 on a queue where only `T` is registered: a push to `U` changes nothing. -/
theorem C20_unregistered_push_dropped_witness :
    "U" ∉ (MessageQueue.mk 1000 ["T"] [("T", 2)] [("T", [1])] [("T", [7])]).registered_topics_ ∧
    (MessageQueue.mk 1000 ["T"] [("T", 2)] [("T", [1])] [("T", [7])]).push "U" 5
      = some (MessageQueue.mk 1000 ["T"] [("T", 2)] [("T", [1])] [("T", [7])]) :=
  ⟨by decide, C20_unregistered_push_dropped _ "U" 5 (by decide)⟩

/-- C12 at a failing input.  Subscribers `s1` on `(t, X)` and `s2` on `(t, Y)`:
`GetSubscribersByTopic(t)` returns `s1` only, or `s2` only when the keys were inserted in
the other order, although both nodes are subscribed to topic `t`.  The same holds for
`GetPublishersByTopic(t)` with publishers `p1` on `(t, X)` and `p2` on `(t, Y)`. -/
theorem C12_lookup_returns_one_key :
    (MessageGraph.empty.applyAll
        [.AddSubscriber Example.s1 ⟨"t", "X"⟩, .AddSubscriber Example.s2 ⟨"t", "Y"⟩]
      ).GetSubscribersByTopic "t" = [Example.s1] ∧
    "s2" ∈ (MessageGraph.empty.applyAll
        [.AddSubscriber Example.s1 ⟨"t", "X"⟩, .AddSubscriber Example.s2 ⟨"t", "Y"⟩]
      ).subscribersOf ⟨"t", "Y"⟩ ∧
    (MessageGraph.empty.applyAll
        [.AddSubscriber Example.s2 ⟨"t", "Y"⟩, .AddSubscriber Example.s1 ⟨"t", "X"⟩]
      ).GetSubscribersByTopic "t" = [Example.s2] ∧
    (MessageGraph.empty.applyAll
        [.AddPublisher Example.p1 ⟨"t", "X"⟩, .AddPublisher Example.p2 ⟨"t", "Y"⟩]
      ).GetPublishersByTopic "t" = [Example.p1] ∧
    "p2" ∈ (MessageGraph.empty.applyAll
        [.AddPublisher Example.p1 ⟨"t", "X"⟩, .AddPublisher Example.p2 ⟨"t", "Y"⟩]
      ).publishersOf ⟨"t", "Y"⟩ ∧
    (MessageGraph.empty.applyAll
        [.AddPublisher Example.p2 ⟨"t", "Y"⟩, .AddPublisher Example.p1 ⟨"t", "X"⟩]
      ).GetPublishersByTopic "t" = [Example.p2] := by
  decide

/-- C18.  Subscribe idempotence: for every graph, topic, type and node identity, the graph
after two `Subscribe` calls with identical arguments, that is `AddSubscriber` applied
twice, is the graph after one such call: the same node map, sets, indexes and edge set. -/
theorem C18_subscribe_idempotent (g : MessageGraph) (topic_name msg_type : String)
    (node : NodeInfo) :
    (g.AddSubscriber node ⟨topic_name, msg_type⟩).AddSubscriber node ⟨topic_name, msg_type⟩
      = g.AddSubscriber node ⟨topic_name, msg_type⟩ ∧
    (RosRpcServiceImpl.Subscribe (RosRpcServiceImpl.Subscribe g topic_name msg_type node).1
        topic_name msg_type node).1
      = (RosRpcServiceImpl.Subscribe g topic_name msg_type node).1 :=
  ⟨AddSubscriber_idem g node _, AddSubscriber_idem g node _⟩

/-- C14.  Incomplete frames block progress: when the buffer is shorter than the frame
size its leading length fields declare, taken as the code computes it in unsigned 32-bit
arithmetic, the pass leaves the loop, and `onMessage` returns having handled no message
and consumed no octet. -/
theorem C14_incomplete_frame_blocks (buf : List Byte) (fuel : Nat)
    (h : buf.length < PollManager.frameSize buf) :
    PollManager.onMessagePass buf = .stop ∧
      PollManager.onMessage (fuel + 1) buf = ⟨[], buf, .returned⟩ := by
  have hp := onMessagePass_short buf h
  exact ⟨hp, by rw [PollManager.onMessage, hp]⟩

/-- C14 on a buffer that declares a payload of three octets and holds two of them. -/
theorem C14_incomplete_frame_blocks_witness :
    ([0, 1, 116, 0, 1, 88, 0, 0, 0, 3, 1, 2] : List Byte).length
      < PollManager.frameSize [0, 1, 116, 0, 1, 88, 0, 0, 0, 3, 1, 2] ∧
    PollManager.onMessagePass [0, 1, 116, 0, 1, 88, 0, 0, 0, 3, 1, 2] = .stop ∧
    PollManager.onMessage 1 [0, 1, 116, 0, 1, 88, 0, 0, 0, 3, 1, 2]
      = ⟨[], [0, 1, 116, 0, 1, 88, 0, 0, 0, 3, 1, 2], .returned⟩ :=
  ⟨by decide, C14_incomplete_frame_blocks [0, 1, 116, 0, 1, 88, 0, 0, 0, 3, 1, 2] 0 (by decide)⟩

/-- C15, as amended.  A complete frame with `topic_len = 0` is not rejected: `onMessage`
hands it to `handleMessage` with an empty topic, like any other frame, consumes it and
goes on with the rest of the buffer; the run ends as the run on the rest ends. -/
theorem C15_empty_topic_frame_is_handled (msg_name msg_data rest : List Byte) (fuel : Nat)
    (hm : msg_name.length < 65536)
    (hp : 8 + msg_name.length + msg_data.length < 4294967296) :
    PollManager.onMessage (fuel + 1) (Publisher.publishBuffer [] msg_name msg_data ++ rest)
      = ⟨⟨[], msg_name, msg_data⟩ :: (PollManager.onMessage fuel rest).handled,
          (PollManager.onMessage fuel rest).buf, (PollManager.onMessage fuel rest).exit⟩ := by
  have hpass := onMessagePass_publishBuffer [] msg_name msg_data rest (by decide) hm
    (by simpa using hp)
  have hdrop := (publishBuffer_slices [] msg_name msg_data rest).2.2.2
  rw [PollManager.onMessage, hpass]
  simp only [hdrop]

/-- C15 on a frame with empty topic, type `X` and payload `01`, followed by nothing. -/
theorem C15_empty_topic_frame_is_handled_witness :
    ([88] : List Byte).length < 65536 ∧
    PollManager.onMessage 2 (Publisher.publishBuffer [] [88] [1] ++ [])
      = ⟨⟨[], [88], [1]⟩ :: (PollManager.onMessage 1 []).handled,
          (PollManager.onMessage 1 []).buf, (PollManager.onMessage 1 []).exit⟩ :=
  ⟨by decide, C15_empty_topic_frame_is_handled [88] [1] [] 1 (by decide) (by decide)⟩

/-- C15 as stated fails on the frame `00 00 | 00 01 58 | 00 00 00 01 01`, whose
`topic_len` is 0: the frame is handled as a message with an empty topic and `onMessage`
returns normally with the buffer consumed. -/
theorem C15_empty_topic_counterexample :
    ntohs [0, 0, 0, 1, 88, 0, 0, 0, 1, 1] 0 = 0 ∧
    PollManager.onMessage 2 [0, 0, 0, 1, 88, 0, 0, 0, 1, 1]
      = ⟨[⟨[], [88], [1]⟩], [], .returned⟩ := by
  decide

/-- C16, as amended.  Frame length: for a topic and a type name shorter than 65536 octets
and a payload shorter than 2^32 octets, the frame built by `Publisher::publish` has
exactly `topic_len + type_len + payload_len + 8` octets, the three lengths being the
big-endian values of its length fields; so has the frame built by
`MasterTcpServer::OnConnection` for an update topic shorter than 65536 octets and a
serialized update shorter than 2^32 octets. -/
theorem C16_frame_length (topic msg_name payload update_topic message : List Byte)
    (ht : topic.length < 65536) (hm : msg_name.length < 65536)
    (hp : payload.length < 4294967296)
    (hu : update_topic.length < 65536) (hs : message.length < 4294967296) :
    (Publisher.publishBuffer topic msg_name payload).length
      = Frame.declaredLength (Publisher.publishBuffer topic msg_name payload) ∧
    (MasterTcpServer.OnConnectionBuffer update_topic message).length
      = Frame.declaredLength (MasterTcpServer.OnConnectionBuffer update_topic message) := by
  refine ⟨(declaredLength_publishBuffer topic msg_name payload ht hm hp).symm, ?_⟩
  rw [OnConnectionBuffer_eq]
  refine (declaredLength_publishBuffer _ _ message ?_ (by decide) hs).symm
  split
  · decide
  · exact hu

/-- C16 on a data frame for topic `t`, type `X` and on a push for the same topic. -/
theorem C16_frame_length_witness :
    ([116] : List Byte).length < 65536 ∧
    (Publisher.publishBuffer [116] [88] [1, 2, 3]).length
      = Frame.declaredLength (Publisher.publishBuffer [116] [88] [1, 2, 3]) ∧
    (MasterTcpServer.OnConnectionBuffer [116] [10, 1, 116]).length
      = Frame.declaredLength (MasterTcpServer.OnConnectionBuffer [116] [10, 1, 116]) :=
  ⟨by decide, C16_frame_length [116] [88] [1, 2, 3] [116] [10, 1, 116]
    (by decide) (by decide) (by decide) (by decide) (by decide)⟩

/-- C16 as stated fails for a topic of 65536 octets: the frame `publish` builds has 65544
octets, but `static_cast<uint16_t>` wrote 0 into the topic length field, and the three
length fields add up to 0. -/
theorem C16_long_topic_counterexample :
    (Publisher.publishBuffer (List.replicate 65536 0) [] []).length = 65544 ∧
    htons (List.replicate 65536 (0 : Byte)).length = [0, 0] ∧
    Frame.declaredLength (Publisher.publishBuffer (List.replicate 65536 0) [] []) = 8 := by
  refine ⟨?_, ?_, ?_⟩
  · have key : ∀ t : List Byte, t.length = 65536 →
        (Publisher.publishBuffer t [] []).length = 65544 := by
      intro t ht
      have h := (publishBuffer_fields t [] [] []).2.2.2
      simp only [List.append_nil, List.length_nil, ht] at h
      exact h
    exact key _ (List.length_replicate _ _)
  · rw [List.length_replicate]; decide
  · rw [publishBuffer_long_topic]
    simp only [Frame.declaredLength, ntohs, ntohl, List.getD_cons_zero, List.getD_cons_succ,
      Fin.val_zero, Nat.zero_mul, Nat.add_zero, Nat.zero_add, Nat.reduceAdd]

/-- C17, as amended.  Add/remove round trip: for every reachable graph `g`, node `n` and
key `k` such that `n` does not publish `k` in `g` and `n` is not a node of `g` with empty
`publishes` and `subscribes` sets, `AddPublisher(n, k)` followed by `RemovePublisher(n, k)`
yields a graph with the node set of `g`, the same `publishes` and `subscribes` set for
every node, the same two indexes and the same edge set; the `info` of every node other
than `n` is unchanged. -/
theorem C17_add_remove_round_trip (ops : List GraphOp) (node : NodeInfo) (k : TopicKey)
    (hk : k ∉ (MessageGraph.empty.applyAll ops).GetNodePublishTopicKeys node.node_name)
    (hiso : (MessageGraph.empty.applyAll ops).HasNode node.node_name = true →
      (MessageGraph.empty.applyAll ops).GetNodePublishTopicKeys node.node_name ≠ [] ∨
        (MessageGraph.empty.applyAll ops).GetNodeSubscribeTopicKeys node.node_name ≠ []) :
    (∀ n, (((MessageGraph.empty.applyAll ops).AddPublisher node k).RemovePublisher node k
        ).HasNode n = (MessageGraph.empty.applyAll ops).HasNode n) ∧
    (∀ n, (((MessageGraph.empty.applyAll ops).AddPublisher node k).RemovePublisher node k
        ).GetNodePublishTopicKeys n
      = (MessageGraph.empty.applyAll ops).GetNodePublishTopicKeys n) ∧
    (∀ n, (((MessageGraph.empty.applyAll ops).AddPublisher node k).RemovePublisher node k
        ).GetNodeSubscribeTopicKeys n
      = (MessageGraph.empty.applyAll ops).GetNodeSubscribeTopicKeys n) ∧
    (∀ k', (((MessageGraph.empty.applyAll ops).AddPublisher node k).RemovePublisher node k
        ).publishersOf k' = (MessageGraph.empty.applyAll ops).publishersOf k') ∧
    (∀ k', (((MessageGraph.empty.applyAll ops).AddPublisher node k).RemovePublisher node k
        ).subscribersOf k' = (MessageGraph.empty.applyAll ops).subscribersOf k') ∧
    (∀ e, e ∈ (((MessageGraph.empty.applyAll ops).AddPublisher node k).RemovePublisher node k
        ).edges_ ↔ e ∈ (MessageGraph.empty.applyAll ops).edges_) ∧
    (∀ n, n ≠ node.node_name →
      (((MessageGraph.empty.applyAll ops).AddPublisher node k).RemovePublisher node k
        ).GetNodeByName n = (MessageGraph.empty.applyAll ops).GetNodeByName n) := by
  obtain ⟨he, hi⟩ := Inv_applyAll ops EdgeInv_empty IndexInv_empty
  have hfind := AddRemove_find he hi node k hk hiso
  have hnp : node.node_name ∉ (MessageGraph.empty.applyAll ops).publishersOf k := by
    intro hin
    obtain ⟨v, hv, hkv⟩ := hi.1 k _ hin
    apply hk
    simp only [MessageGraph.GetNodePublishTopicKeys, hv]
    exact hkv
  obtain ⟨h1, h2, h3⟩ := AddRemove_index he node k hnp
  refine ⟨?_, ?_, ?_, h1, h2, h3, ?_⟩
  · intro n
    simp only [MessageGraph.HasNode, hfind]
    by_cases hn : n = node.node_name
    · subst hn
      rw [if_pos rfl]
      cases Assoc.find (MessageGraph.empty.applyAll ops).nodes_ node.node_name <;> rfl
    · rw [if_neg hn]
  · intro n
    simp only [MessageGraph.GetNodePublishTopicKeys, hfind]
    by_cases hn : n = node.node_name
    · subst hn
      rw [if_pos rfl]
      cases Assoc.find (MessageGraph.empty.applyAll ops).nodes_ node.node_name <;> rfl
    · rw [if_neg hn]
  · intro n
    simp only [MessageGraph.GetNodeSubscribeTopicKeys, hfind]
    by_cases hn : n = node.node_name
    · subst hn
      rw [if_pos rfl]
      cases Assoc.find (MessageGraph.empty.applyAll ops).nodes_ node.node_name <;> rfl
    · rw [if_neg hn]
  · intro n hn
    simp only [MessageGraph.GetNodeByName, hfind, if_neg hn]

/-- C17 for `s1`, a subscriber of `(t, X)`, becoming a publisher of `(t, X)` and
ceasing to be one: the node is still there and the publisher index of `(t, X)` is as
before. -/
theorem C17_add_remove_round_trip_witness :
    (⟨"t", "X"⟩ : TopicKey) ∉ (MessageGraph.empty.applyAll
      [.AddSubscriber Example.s1 ⟨"t", "X"⟩]).GetNodePublishTopicKeys Example.s1.node_name ∧
    (MessageGraph.empty.applyAll
      [.AddSubscriber Example.s1 ⟨"t", "X"⟩]).GetNodeSubscribeTopicKeys Example.s1.node_name
        ≠ [] ∧
    (((MessageGraph.empty.applyAll [.AddSubscriber Example.s1 ⟨"t", "X"⟩]).AddPublisher
        Example.s1 ⟨"t", "X"⟩).RemovePublisher Example.s1 ⟨"t", "X"⟩).HasNode "s1"
      = (MessageGraph.empty.applyAll [.AddSubscriber Example.s1 ⟨"t", "X"⟩]).HasNode "s1" ∧
    (((MessageGraph.empty.applyAll [.AddSubscriber Example.s1 ⟨"t", "X"⟩]).AddPublisher
        Example.s1 ⟨"t", "X"⟩).RemovePublisher Example.s1 ⟨"t", "X"⟩).publishersOf ⟨"t", "X"⟩
      = (MessageGraph.empty.applyAll [.AddSubscriber Example.s1 ⟨"t", "X"⟩]).publishersOf
          ⟨"t", "X"⟩ :=
  ⟨by decide, by decide,
    (C17_add_remove_round_trip [.AddSubscriber Example.s1 ⟨"t", "X"⟩] Example.s1 ⟨"t", "X"⟩
      (by decide) (fun _ => Or.inr (by decide))).1 "s1",
    (C17_add_remove_round_trip [.AddSubscriber Example.s1 ⟨"t", "X"⟩] Example.s1 ⟨"t", "X"⟩
      (by decide) (fun _ => Or.inr (by decide))).2.2.2.1 ⟨"t", "X"⟩⟩

/-- C17 as stated fails in two reachable graphs.  When `p1` already publishes `(t, X)`,
`AddPublisher(p1, (t, X))` changes nothing and `RemovePublisher(p1, (t, X))` then removes
the publication and the node.  When `p1` was created by `UpsertNode` alone, the
`RemovePublisher` erases the node.  In both the node set afterwards differs from the one
before. -/
theorem C17_round_trip_counterexample :
    (MessageGraph.empty.applyAll [.AddPublisher Example.p1 ⟨"t", "X"⟩]).HasNode "p1" = true ∧
    (((MessageGraph.empty.applyAll [.AddPublisher Example.p1 ⟨"t", "X"⟩]).AddPublisher
        Example.p1 ⟨"t", "X"⟩).RemovePublisher Example.p1 ⟨"t", "X"⟩).HasNode "p1" = false ∧
    (MessageGraph.empty.applyAll [.UpsertNode Example.p1]).HasNode "p1" = true ∧
    (((MessageGraph.empty.applyAll [.UpsertNode Example.p1]).AddPublisher
        Example.p1 ⟨"t", "X"⟩).RemovePublisher Example.p1 ⟨"t", "X"⟩).HasNode "p1" = false := by
  decide

/-- C11 does not hold of the code.  The node of a publisher on topic `T` has the targets
`s1` and `s2` for `T`, and the publisher has a live connection to each.  After the update
that removes `s1` has been applied, the targets table holds `s2` alone for `T`, and the
next `publish` still sends the frame on both connections, the one to `s1` first:
`updateTargets` only creates clients for new targets and `publish` sends on every live
entry of `connections_`. -/
theorem C11_publish_reaches_removed_target (octets : String → List Byte)
    (msg_data : List Byte) :
    (((⟨[]⟩ : PollManager).applyUpdate ⟨"T", [Example.s1, Example.s2], []⟩).getTargets "T"
      = [Example.s1, Example.s2]) ∧
    Example.publisher.clients_
      = [("127.0.0.1:60003", ("127.0.0.1", 60003)), ("127.0.0.1:60004", ("127.0.0.1", 60004))] ∧
    Example.publisher.connections_
      = [("127.0.0.1:60003", true), ("127.0.0.1:60004", true)] ∧
    ((((⟨[]⟩ : PollManager).applyUpdate ⟨"T", [Example.s1, Example.s2], []⟩).applyUpdate
        ⟨"T", [], [Example.s1]⟩).getTargets "T" = [Example.s2]) ∧
    (Publisher.publish octets
        (some (((⟨[]⟩ : PollManager).applyUpdate ⟨"T", [Example.s1, Example.s2], []⟩).applyUpdate
          ⟨"T", [], [Example.s1]⟩))
        Example.publisher (some msg_data)).2
      = [("127.0.0.1:60003", Publisher.publishBuffer (octets "T") (octets "X") msg_data),
         ("127.0.0.1:60004", Publisher.publishBuffer (octets "T") (octets "X") msg_data)] := by
  refine ⟨by decide, by decide, by decide, by decide, ?_⟩
  have h : Example.publisher.updateTargets
      (some (((⟨[]⟩ : PollManager).applyUpdate ⟨"T", [Example.s1, Example.s2], []⟩).applyUpdate
          ⟨"T", [], [Example.s1]⟩))
      = ⟨"T", "X",
          [("127.0.0.1:60003", ("127.0.0.1", 60003)), ("127.0.0.1:60004", ("127.0.0.1", 60004))],
          [("127.0.0.1:60003", true), ("127.0.0.1:60004", true)]⟩ := by decide
  simp only [Publisher.publish, h]
  rfl

/-- C21.  Unregistering a topic: `removeSubscriber(topic)`, which the destructor of a
`Subscriber` of the topic calls on the queue as it then is, leaves no queue, no capacity,
no registration and no callback list for the topic, so every callback registered for it
is gone; the queue, capacity, registration and callbacks of every other topic and the
default capacity are unchanged. -/
theorem C21_remove_subscriber (q : MessageQueue) (topic : String) :
    Assoc.find (q.removeSubscriber topic).message_queues_ topic = none ∧
    queued (q.removeSubscriber topic).message_queues_ topic = [] ∧
    Assoc.find (q.removeSubscriber topic).topic_max_queue_sizes_ topic = none ∧
    topic ∉ (q.removeSubscriber topic).registered_topics_ ∧
    Assoc.find (q.removeSubscriber topic).subscribers_ topic = none ∧
    (∀ t, t ≠ topic →
      Assoc.find (q.removeSubscriber topic).message_queues_ t = Assoc.find q.message_queues_ t ∧
      queued (q.removeSubscriber topic).message_queues_ t = queued q.message_queues_ t ∧
      Assoc.find (q.removeSubscriber topic).topic_max_queue_sizes_ t
        = Assoc.find q.topic_max_queue_sizes_ t ∧
      (t ∈ (q.removeSubscriber topic).registered_topics_ ↔ t ∈ q.registered_topics_) ∧
      Assoc.find (q.removeSubscriber topic).subscribers_ t = Assoc.find q.subscribers_ t) ∧
    (q.removeSubscriber topic).default_max_queue_size_ = q.default_max_queue_size_ ∧
    (∀ (queue_size : Nat) (callback : Callback) (q' : MessageQueue),
      (Subscriber.new (some q) topic queue_size callback).1.destroy (some q')
        = some (q'.removeSubscriber topic)) := by
  have hq : ∀ (m : List (String × List Message)) (t : String),
      queued (Assoc.erase m topic) t = if t = topic then [] else queued m t := by
    intro m t
    induction m with
    | nil => simp [Assoc.erase, queued]
    | cons e r ih =>
      obtain ⟨k0, v0⟩ := e
      simp only [Assoc.erase, queued, ne_eq, decide_not] at ih ⊢
      by_cases h0 : k0 = topic
      · subst h0
        simp only [List.filter_cons, decide_True, Bool.not_true, Bool.false_eq_true, if_false, ih,
          List.flatMap_cons]
        by_cases ht : t = k0
        · simp [ht]
        · have : ¬ k0 = t := fun e => ht e.symm
          simp [ht, this]
      · simp only [List.filter_cons, h0, decide_False, Bool.not_false, if_true,
          List.flatMap_cons, ih]
        by_cases ht : t = topic
        · have : ¬ k0 = t := fun e => h0 (e.trans ht)
          simp [ht, this, h0]
        · simp [ht]
  refine ⟨?_, ?_, ?_, ?_, ?_, ?_, rfl, fun _ _ _ => rfl⟩
  · simp [MessageQueue.removeSubscriber, Assoc.find_erase]
  · simp [MessageQueue.removeSubscriber, hq]
  · simp [MessageQueue.removeSubscriber, Assoc.find_erase]
  · simp [MessageQueue.removeSubscriber, mem_eraseSet]
  · simp [MessageQueue.removeSubscriber, Assoc.find_erase]
  · intro t ht
    refine ⟨?_, ?_, ?_, ?_, ?_⟩
    · simp [MessageQueue.removeSubscriber, Assoc.find_erase, ht]
    · simp [MessageQueue.removeSubscriber, hq, ht]
    · simp [MessageQueue.removeSubscriber, Assoc.find_erase, ht]
    · simp [MessageQueue.removeSubscriber, mem_eraseSet, ht]
    · simp [MessageQueue.removeSubscriber, Assoc.find_erase, ht]

/-- C30 does not hold of the code.  A `Subscriber` constructed with `queue_size` 0 on
topic `T` registers the topic with capacity 0; the first `push` to `T` then finds the
empty queue of size 0 at least as long as the capacity 0 and calls `pop_front()` on it.
The same happens in every state where the topic is registered, its capacity is 0 and its
queue is empty or absent. -/
theorem C30_push_pops_empty_queue :
    (Subscriber.new (some (MessageQueue.new 1000)) "T" 0 7).2
      = some ⟨1000, ["T"], [("T", 0)], [], [("T", [7])]⟩ ∧
    (MessageQueue.mk 1000 ["T"] [("T", 0)] [] [("T", [7])]).push "T" 5 = none ∧
    (∀ (q : MessageQueue) (topic : String) (msg : Message),
      topic ∈ q.registered_topics_ → q.maxSize topic = 0 →
      (Assoc.find q.message_queues_ topic).getD [] = [] → q.push topic msg = none) := by
  refine ⟨by decide, by decide, ?_⟩
  intro q topic msg hreg hmax hempty
  simp [MessageQueue.push, hreg, hmax, hempty]

/-- C22 does not hold of the code.  With `p1` registered as publisher of `chatter`, the
publishers of `chatter` after `Subscribe(chatter, std_msgs/String, s1)` are `[p1]`, but
the response carries an empty node list: the handler writes `success` and `message` and
never touches the node list, whatever the graph and the request. -/
theorem C22_subscribe_response_lists_no_publisher :
    ((RosRpcServiceImpl.Subscribe
        (MessageGraph.empty.applyAll [.AddPublisher Example.p1 ⟨"chatter", "std_msgs/String"⟩])
        "chatter" "std_msgs/String" Example.s1).1.GetPublishersByTopic "chatter"
      = [Example.p1]) ∧
    RosRpcServiceImpl.Subscribe_response SubscribeResponse.default
      = ⟨true, "Subscribe success", []⟩ ∧
    (∀ response : SubscribeResponse,
      (RosRpcServiceImpl.Subscribe_response response).node_info = response.node_info) := by
  exact ⟨by decide, by decide, fun _ => rfl⟩

/-- C28 at a failing input.  Publishers `p1` on `(t, X)` and `p2` on `(t, Y)`, and `s1`
subscribed to `(t, Y)` only.  `Unsubscribe(t, X, s1)` leaves the graph as it is and
responds success, but the update with `remove_targets = [s1]` is pushed to `p1` only,
although `p2` is a publisher on topic `t` too.  In general, after any sequence of
registration requests, `Unsubscribe` by a node that is not subscribed under the key
changes no vertex, index entry or edge, and pushes the update to the nodes that
`GetPublishersByTopic` returns. -/
theorem C28_unsubscribe_push_misses_publisher :
    (RosRpcServiceImpl.Unsubscribe
        (MessageGraph.empty.applyAll
          [.AddPublisher Example.p1 ⟨"t", "X"⟩, .AddPublisher Example.p2 ⟨"t", "Y"⟩,
            .AddSubscriber Example.s1 ⟨"t", "Y"⟩])
        "t" "X" Example.s1).1
      = MessageGraph.empty.applyAll
          [.AddPublisher Example.p1 ⟨"t", "X"⟩, .AddPublisher Example.p2 ⟨"t", "Y"⟩,
            .AddSubscriber Example.s1 ⟨"t", "Y"⟩] ∧
    (RosRpcServiceImpl.Unsubscribe
        (MessageGraph.empty.applyAll
          [.AddPublisher Example.p1 ⟨"t", "X"⟩, .AddPublisher Example.p2 ⟨"t", "Y"⟩,
            .AddSubscriber Example.s1 ⟨"t", "Y"⟩])
        "t" "X" Example.s1).2
      = [⟨"p1", ⟨"t", [], [Example.s1]⟩⟩] ∧
    "p2" ∈ (MessageGraph.empty.applyAll
          [.AddPublisher Example.p1 ⟨"t", "X"⟩, .AddPublisher Example.p2 ⟨"t", "Y"⟩,
            .AddSubscriber Example.s1 ⟨"t", "Y"⟩]).publishersOf ⟨"t", "Y"⟩ ∧
    RosRpcServiceImpl.Unsubscribe_response ⟨false, ""⟩ = ⟨true, "Unsubscribe success"⟩ ∧
    (∀ (cs : List RpcCall) (topic_name msg_type : String) (node : NodeInfo),
      (⟨topic_name, msg_type⟩ : TopicKey)
        ∉ (MessageGraph.empty.applyAll (cs.map RpcCall.toOp)).GetNodeSubscribeTopicKeys
            node.node_name →
      (∀ n, Assoc.find (RosRpcServiceImpl.Unsubscribe
            (MessageGraph.empty.applyAll (cs.map RpcCall.toOp)) topic_name msg_type
            node).1.nodes_ n
          = Assoc.find (MessageGraph.empty.applyAll (cs.map RpcCall.toOp)).nodes_ n) ∧
      (∀ k', (RosRpcServiceImpl.Unsubscribe
            (MessageGraph.empty.applyAll (cs.map RpcCall.toOp)) topic_name msg_type
            node).1.publishersOf k'
          = (MessageGraph.empty.applyAll (cs.map RpcCall.toOp)).publishersOf k') ∧
      (∀ k', (RosRpcServiceImpl.Unsubscribe
            (MessageGraph.empty.applyAll (cs.map RpcCall.toOp)) topic_name msg_type
            node).1.subscribersOf k'
          = (MessageGraph.empty.applyAll (cs.map RpcCall.toOp)).subscribersOf k') ∧
      (∀ e, e ∈ (RosRpcServiceImpl.Unsubscribe
            (MessageGraph.empty.applyAll (cs.map RpcCall.toOp)) topic_name msg_type
            node).1.edges_
          ↔ e ∈ (MessageGraph.empty.applyAll (cs.map RpcCall.toOp)).edges_) ∧
      (RosRpcServiceImpl.Unsubscribe
          (MessageGraph.empty.applyAll (cs.map RpcCall.toOp)) topic_name msg_type node).2
        = ((MessageGraph.empty.applyAll (cs.map RpcCall.toOp)).GetPublishersByTopic
            topic_name).map (fun pub => ⟨pub.node_name, ⟨topic_name, [], [node]⟩⟩)) :=
  ⟨by decide, by decide, by decide, by decide, Unsubscribe_absent⟩

/-- C23, as amended.  Startup RPC failure: the result that `NodeHandle::subscribe` (both
overloads) and `NodeHandle::advertise` return, and the queue state they leave, do not
depend on the RPC client or on what its call returns; a call that returns `false` only
makes the function log the failure through `LOG_ERROR`. -/
theorem C23_rpc_failure_is_logged_only (msg_queue : Option MessageQueue)
    (poll_manager : Option PollManager) (c1 c2 : Option RosRpcClient) (nodeInfo_ : NodeInfo)
    (topic msg_type_name : String) (queue_size : Nat) (callback : Callback) :
    (NodeHandle.subscribe msg_queue c1 nodeInfo_ msg_type_name topic queue_size callback).1
      = (NodeHandle.subscribe msg_queue c2 nodeInfo_ msg_type_name topic queue_size callback).1 ∧
    (NodeHandle.subscribe_msg_type_name msg_queue c1 nodeInfo_ topic queue_size msg_type_name
        callback).1
      = (NodeHandle.subscribe_msg_type_name msg_queue c2 nodeInfo_ topic queue_size
          msg_type_name callback).1 ∧
    (NodeHandle.advertise poll_manager c1 nodeInfo_ msg_type_name topic).1
      = (NodeHandle.advertise poll_manager c2 nodeInfo_ msg_type_name topic).1 ∧
    (∀ client : RosRpcClient, client.Subscribe topic msg_type_name nodeInfo_ = false →
      LogLine.ERROR ("Subscribe RPC failed for topic: " ++ topic)
        ∈ (NodeHandle.subscribe msg_queue (some client) nodeInfo_ msg_type_name topic
            queue_size callback).2 ∧
      LogLine.ERROR
          ("Subscribe RPC failed for topic: " ++ topic ++ " with type: " ++ msg_type_name)
        ∈ (NodeHandle.subscribe_msg_type_name msg_queue (some client) nodeInfo_ topic
            queue_size msg_type_name callback).2) ∧
    (∀ client : RosRpcClient, client.RegisterPublisher topic msg_type_name nodeInfo_ = false →
      LogLine.ERROR ("RegisterPublisher RPC failed for topic: " ++ topic)
        ∈ (NodeHandle.advertise poll_manager (some client) nodeInfo_ msg_type_name topic).2) := by
  refine ⟨?_, ?_, ?_, ?_, ?_⟩
  · have h : ∀ c, (NodeHandle.subscribe msg_queue c nodeInfo_ msg_type_name topic queue_size
        callback).1 = Subscriber.new msg_queue topic queue_size callback := by
      intro c
      unfold NodeHandle.subscribe
      cases c with
      | none => rfl
      | some client => dsimp only; split <;> rfl
    rw [h c1, h c2]
  · have h : ∀ c, (NodeHandle.subscribe_msg_type_name msg_queue c nodeInfo_ topic queue_size
        msg_type_name callback).1 = Subscriber.new msg_queue topic queue_size callback := by
      intro c
      unfold NodeHandle.subscribe_msg_type_name
      cases c with
      | none => rfl
      | some client => dsimp only; split <;> rfl
    rw [h c1, h c2]
  · have h : ∀ c, (NodeHandle.advertise poll_manager c nodeInfo_ msg_type_name topic).1
        = Publisher.new poll_manager topic msg_type_name := by
      intro c
      unfold NodeHandle.advertise
      cases c with
      | none => rfl
      | some client => dsimp only; split <;> rfl
    rw [h c1, h c2]
  · intro client hc
    constructor
    · simp [NodeHandle.subscribe, hc]
    · simp [NodeHandle.subscribe_msg_type_name, hc]
  · intro client hc
    simp [NodeHandle.advertise, hc]

/-- C23 as stated fails: with a client whose calls fail and with one whose calls succeed,
`subscribe` returns the same subscriber with the same queue state, and `advertise`
returns the same publisher; the two runs differ in the logged line only. -/
theorem C23_same_result_counterexample :
    (NodeHandle.subscribe (some (MessageQueue.new 1000))
        (some ⟨fun _ _ _ => false, fun _ _ _ => false⟩) Example.s1 "X" "T" 10 7).1
      = (NodeHandle.subscribe (some (MessageQueue.new 1000))
        (some ⟨fun _ _ _ => true, fun _ _ _ => true⟩) Example.s1 "X" "T" 10 7).1 ∧
    (NodeHandle.subscribe (some (MessageQueue.new 1000))
        (some ⟨fun _ _ _ => false, fun _ _ _ => false⟩) Example.s1 "X" "T" 10 7).2
      = [LogLine.INFO "Subscribe to topic=T, type=X",
          LogLine.ERROR "Subscribe RPC failed for topic: T"] ∧
    (NodeHandle.subscribe_msg_type_name (some (MessageQueue.new 1000))
        (some ⟨fun _ _ _ => false, fun _ _ _ => false⟩) Example.s1 "T" 10 "X" 7).1
      = (NodeHandle.subscribe_msg_type_name (some (MessageQueue.new 1000))
        (some ⟨fun _ _ _ => true, fun _ _ _ => true⟩) Example.s1 "T" 10 "X" 7).1 ∧
    (NodeHandle.advertise (some ⟨[]⟩)
        (some ⟨fun _ _ _ => false, fun _ _ _ => false⟩) Example.p1 "X" "T").1
      = (NodeHandle.advertise (some ⟨[]⟩)
        (some ⟨fun _ _ _ => true, fun _ _ _ => true⟩) Example.p1 "X" "T").1 := by
  decide

/-- C24.  Message factory create: after any sequence of `registerMessage` and
`createMessage` calls in which the type with full name `n` was registered,
`createMessage(n)` returns a non-null new instance of the registered generated class and
leaves the factory as it is; when parsing into an object of that class inverts
serialization, the bytes serialized from a message of the type parse back, in the
returned instance, to the same field values.  For a name that has no entry in the factory
and that the descriptor pool does not know, `createMessage` returns null. -/
theorem C24_create_registered {ν : Type} (FindMessageTypeByName : String → Option Descriptor)
    (GetPrototype : Descriptor → Option Prototype)
    (SerializeToString : ν → List Byte) (ParseFromString : ProtoMessage → List Byte → Option ν)
    (ops : List FactoryOp) (n : String)
    (hreg : FactoryOp.registerMessage n ∈ ops)
    (hparse : ∀ v, ParseFromString (Prototype.New ⟨n, true⟩) (SerializeToString v) = some v) :
    (MsgFactory.applyAll FindMessageTypeByName GetPrototype MsgFactory.empty ops).createMessage
        FindMessageTypeByName GetPrototype n
      = (MsgFactory.applyAll FindMessageTypeByName GetPrototype MsgFactory.empty ops,
          some (Prototype.New ⟨n, true⟩)) ∧
    (∀ v, ((MsgFactory.applyAll FindMessageTypeByName GetPrototype MsgFactory.empty
          ops).createMessage FindMessageTypeByName GetPrototype n).2.bind
        (fun m => ParseFromString m (SerializeToString v)) = some v) ∧
    (∀ (f : MsgFactory) (name : String), Assoc.find f.factory_ name = none →
      FindMessageTypeByName name = none →
      f.createMessage FindMessageTypeByName GetPrototype name = (f, none)) := by
  have hfind := MsgFactory.find_registered FindMessageTypeByName GetPrototype n ops
    MsgFactory.empty (Or.inr hreg)
  have hcreate : (MsgFactory.applyAll FindMessageTypeByName GetPrototype MsgFactory.empty
        ops).createMessage FindMessageTypeByName GetPrototype n
      = (MsgFactory.applyAll FindMessageTypeByName GetPrototype MsgFactory.empty ops,
          some (Prototype.New ⟨n, true⟩)) := by
    simp only [MsgFactory.createMessage, hfind]
  refine ⟨hcreate, ?_, ?_⟩
  · intro v
    rw [hcreate]
    exact hparse v
  · intro f name h1 h2
    simp only [MsgFactory.createMessage, h1, h2]

/-- C24 on the calls of `MsgFactoryTest.CreateAndParse`: two registrations, then
`createMessage("example.SensorData")`; the field values are represented by their
serialized octets. -/
theorem C24_create_registered_witness :
    FactoryOp.registerMessage "example.SensorData"
      ∈ [FactoryOp.registerMessage "example.SensorData",
          FactoryOp.registerMessage "example.ControlCommand"] ∧
    (MsgFactory.applyAll Example.generated_pool Example.GetPrototype MsgFactory.empty
        [FactoryOp.registerMessage "example.SensorData",
          FactoryOp.registerMessage "example.ControlCommand"]).createMessage
        Example.generated_pool Example.GetPrototype "example.SensorData"
      = (MsgFactory.applyAll Example.generated_pool Example.GetPrototype MsgFactory.empty
          [FactoryOp.registerMessage "example.SensorData",
            FactoryOp.registerMessage "example.ControlCommand"],
          some (Prototype.New ⟨"example.SensorData", true⟩)) :=
  ⟨by decide,
    (C24_create_registered Example.generated_pool Example.GetPrototype
      (fun v : List Byte => v) (fun _ data => some data)
      [FactoryOp.registerMessage "example.SensorData",
        FactoryOp.registerMessage "example.ControlCommand"] "example.SensorData"
      (by decide) (fun _ => rfl)).1⟩

/-- C25 does not hold of the code.  After `registerMessage<example::SensorData>()` the
factory holds the prototype under the key `example.SensorData`;
`createMessage("SensorData")` finds no entry under `SensorData`, the descriptor pool,
which looks names up fully qualified, knows no type of that name, and the call returns
null.  So it does for every factory without an entry under the short name and every pool
that does not know it. -/
theorem C25_short_name_returns_null :
    (MsgFactory.empty.registerMessage "example.SensorData").factory_
      = [("example.SensorData", ⟨"example.SensorData", true⟩)] ∧
    ((MsgFactory.empty.registerMessage "example.SensorData").createMessage
        Example.generated_pool Example.GetPrototype "SensorData").2 = none ∧
    ((MsgFactory.empty.registerMessage "example.SensorData").createMessage
        Example.generated_pool Example.GetPrototype "example.SensorData").2
      = some (Prototype.New ⟨"example.SensorData", true⟩) ∧
    (∀ (pool : String → Option Descriptor) (gp : Descriptor → Option Prototype),
      pool "SensorData" = none →
      ((MsgFactory.empty.registerMessage "example.SensorData").createMessage pool gp
        "SensorData").2 = none) := by
  refine ⟨by decide, by decide, by decide, ?_⟩
  intro pool gp h
  have hf : Assoc.find (MsgFactory.empty.registerMessage "example.SensorData").factory_
      "SensorData" = none := by decide
  simp only [MsgFactory.createMessage, hf, h]

/-- C26.  Listener port selection: for a range of port numbers (`0 <= start_port`,
`end_port <= 65535`), `findAvailablePort(start_port, end_port)` returns the smallest port
of the range at which a socket is obtained and the bind succeeds, and -1 when there is no
such port in the range; `init(node_name)` throws exactly when there is no such port in
60000..61000, and otherwise goes on with the smallest one. -/
theorem C26_port_selection (socket_ok bind_ok : Int → Bool) (start_port end_port : Int)
    (node_name : String) (hs : 0 ≤ start_port) (he : end_port ≤ 65535) :
    (∀ p, start_port ≤ p → p ≤ end_port → (socket_ok p && bind_ok p) = true →
      (∀ q, start_port ≤ q → q < p → (socket_ok q && bind_ok q) = false) →
      SystemManager.findAvailablePort socket_ok bind_ok start_port end_port = some p) ∧
    ((∀ p, start_port ≤ p → p ≤ end_port → (socket_ok p && bind_ok p) = false) →
      SystemManager.findAvailablePort socket_ok bind_ok start_port end_port = some (-1)) ∧
    (SystemManager.init socket_ok bind_ok node_name
        = some (.error "No available port for node initialization")
      ↔ ∀ p, 60000 ≤ p → p ≤ 61000 → (socket_ok p && bind_ok p) = false) ∧
    (∀ p, 60000 ≤ p → p ≤ 61000 → (socket_ok p && bind_ok p) = true →
      (∀ q, 60000 ≤ q → q < p → (socket_ok q && bind_ok q) = false) →
      SystemManager.init socket_ok bind_ok node_name
        = some (.ok ⟨node_name, "127.0.0.1", p⟩)) := by
  have hb : ∀ p : Int, 0 ≤ p → p ≤ 65535 →
      SystemManager.bindSucceeds socket_ok bind_ok p = (socket_ok p && bind_ok p) := by
    intro p h0 h1
    have : p % 65536 = p := Int.emod_eq_of_lt h0 (by omega)
    simp only [SystemManager.bindSucceeds, this]
  obtain ⟨f1, f2⟩ := findAvailablePort_spec socket_ok bind_ok start_port end_port (by omega)
  obtain ⟨g1, g2⟩ := findAvailablePort_spec socket_ok bind_ok 60000 61000 (by omega)
  have hinit_ok : ∀ p, 60000 ≤ p → p ≤ 61000 → (socket_ok p && bind_ok p) = true →
      (∀ q, 60000 ≤ q → q < p → (socket_ok q && bind_ok q) = false) →
      SystemManager.init socket_ok bind_ok node_name
        = some (.ok ⟨node_name, "127.0.0.1", p⟩) := by
    intro p h1 h2 hp hq
    have hfind := g1 p h1 h2 (by rw [hb p (by omega) (by omega)]; exact hp)
      (fun q hq1 hq2 => by rw [hb q (by omega) (by omega)]; exact hq q hq1 hq2)
    have hneg : ¬ p < 0 := by omega
    simp only [SystemManager.init, hfind, hneg, if_false]
  refine ⟨?_, ?_, ⟨?_, ?_⟩, hinit_ok⟩
  · intro p h1 h2 hp hq
    apply f1 p h1 h2
    · rw [hb p (by omega) (by omega)]; exact hp
    · intro q hq1 hq2
      rw [hb q (by omega) (by omega)]; exact hq q hq1 hq2
  · intro h
    apply f2
    intro p h1 h2
    rw [hb p (by omega) (by omega)]; exact h p h1 h2
  · intro hinit
    rcases exists_smallest_port (fun p => socket_ok p && bind_ok p) 60000 1001 with h | h
    · intro p h1 h2
      exact h p h1 (by push_cast; omega)
    · obtain ⟨p, h1, h2, h3, h4⟩ := h
      rw [hinit_ok p h1 (by push_cast at h2; omega) h3 h4] at hinit
      cases hinit
  · intro h
    have hfind := g2 (fun p h1 h2 => by rw [hb p (by omega) (by omega)]; exact h p h1 h2)
    simp only [SystemManager.init, hfind]
    rfl

/-- C26 when 60000 and 60001 are taken and 60002 is the first port that binds. -/
theorem C26_port_selection_witness :
    (0 : Int) ≤ 60000 ∧ (61000 : Int) ≤ 65535 ∧
    SystemManager.findAvailablePort (fun _ => true) (fun p => decide (60002 ≤ p)) 60000 61000
      = some 60002 ∧
    SystemManager.init (fun _ => true) (fun p => decide (60002 ≤ p)) "n"
      = some (.ok ⟨"n", "127.0.0.1", 60002⟩) :=
  ⟨by decide, by decide,
    (C26_port_selection (fun _ => true) (fun p => decide (60002 ≤ p)) 60000 61000 "n"
      (by decide) (by decide)).1 60002 (by decide) (by decide) (by decide)
      (fun q _ h2 => by simp; omega),
    (C26_port_selection (fun _ => true) (fun p => decide (60002 ≤ p)) 60000 61000 "n"
      (by decide) (by decide)).2.2.2 60002 (by decide) (by decide) (by decide)
      (fun q _ h2 => by simp; omega)⟩

/-- C27, as amended.  Timer callback exception: for a periodic timer, when the user
callback throws an exception of a class derived from `std::exception`,
`internalCallback` catches it, writes one line to `stderr` and lets nothing escape; the
timer keeps `isRunning_` as it was, and its last-event record is the one a firing with a
callback that returns normally leaves. -/
theorem C27_std_exception_is_caught {ρ : Type} (add : ρ → ρ → ρ) (duration_ms : ρ → ρ → Int)
    (startTime endTime : ρ) (t : Timer ρ) (callback : TimerEvent ρ → CallbackExit)
    (what : String)
    (hperiodic : t.isOneShot_ = false) (hcb : t.callback_ = some callback)
    (hthrow : callback (t.event add startTime) = .threw_std_exception what) :
    (t.internalCallback add duration_ms startTime endTime).escaped = false ∧
    (t.internalCallback add duration_ms startTime endTime).stderr
      = ["Timer callback exception: " ++ what ++ "\n"] ∧
    (t.internalCallback add duration_ms startTime endTime).timer.isRunning_ = t.isRunning_ ∧
    (t.internalCallback add duration_ms startTime endTime).timer.isPaused_ = t.isPaused_ ∧
    (t.internalCallback add duration_ms startTime endTime).timer.lastEvent_
      = (Timer.internalCallback add duration_ms startTime endTime
          { t with callback_ := some (fun _ => CallbackExit.returned) }).timer.lastEvent_ ∧
    (t.internalCallback add duration_ms startTime endTime).timer.lastEvent_
      = ⟨startTime, t.lastEvent_.last_real, add t.lastEvent_.expected_real t.period_,
          duration_ms startTime endTime⟩ := by
  simp only [Timer.internalCallback, hcb, hthrow]
  refine ⟨trivial, trivial, ?_, rfl, rfl, rfl⟩
  simp only [Timer.afterCallback, hperiodic]
  rfl

/-- C27 on a running periodic timer whose callback throws `std::runtime_error("boom")`;
seconds are whole numbers here. -/
theorem C27_std_exception_is_caught_witness :
    (Timer.internalCallback (fun a b : Int => a + b) (fun s e => (e - s) * 1000) 105 106
        ⟨5, some (fun _ => .threw_std_exception "boom"), true, false, false,
          ⟨100, 95, 100, 3⟩⟩).escaped = false ∧
    (Timer.internalCallback (fun a b : Int => a + b) (fun s e => (e - s) * 1000) 105 106
        ⟨5, some (fun _ => .threw_std_exception "boom"), true, false, false,
          ⟨100, 95, 100, 3⟩⟩).timer.isRunning_ = true ∧
    (Timer.internalCallback (fun a b : Int => a + b) (fun s e => (e - s) * 1000) 105 106
        ⟨5, some (fun _ => .threw_std_exception "boom"), true, false, false,
          ⟨100, 95, 100, 3⟩⟩).timer.lastEvent_ = ⟨105, 95, 105, 1000⟩ :=
  ⟨(C27_std_exception_is_caught (fun a b : Int => a + b) (fun s e => (e - s) * 1000) 105 106
      ⟨5, some (fun _ => .threw_std_exception "boom"), true, false, false, ⟨100, 95, 100, 3⟩⟩
      (fun _ => .threw_std_exception "boom") "boom" rfl rfl rfl).1,
    (C27_std_exception_is_caught (fun a b : Int => a + b) (fun s e => (e - s) * 1000) 105 106
      ⟨5, some (fun _ => .threw_std_exception "boom"), true, false, false, ⟨100, 95, 100, 3⟩⟩
      (fun _ => .threw_std_exception "boom") "boom" rfl rfl rfl).2.2.1,
    (C27_std_exception_is_caught (fun a b : Int => a + b) (fun s e => (e - s) * 1000) 105 106
      ⟨5, some (fun _ => .threw_std_exception "boom"), true, false, false, ⟨100, 95, 100, 3⟩⟩
      (fun _ => .threw_std_exception "boom") "boom" rfl rfl rfl).2.2.2.2.2⟩

/-- C27 as stated fails for a callback that throws a value whose type is not derived
from `std::exception` (such as `throw 42`): the exception leaves `internalCallback`, and
the last-event record is not updated. -/
theorem C27_other_exception_counterexample :
    (Timer.internalCallback (fun a b : Int => a + b) (fun s e => (e - s) * 1000) 105 106
        ⟨5, some (fun _ => .threw_other), true, false, false, ⟨100, 95, 100, 3⟩⟩).escaped
      = true ∧
    (Timer.internalCallback (fun a b : Int => a + b) (fun s e => (e - s) * 1000) 105 106
        ⟨5, some (fun _ => .threw_other), true, false, false,
          ⟨100, 95, 100, 3⟩⟩).timer.lastEvent_ = ⟨100, 95, 100, 3⟩ ∧
    (Timer.internalCallback (fun a b : Int => a + b) (fun s e => (e - s) * 1000) 105 106
        ⟨5, some (fun _ => .returned), true, false, false,
          ⟨100, 95, 100, 3⟩⟩).timer.lastEvent_ = ⟨105, 95, 105, 1000⟩ := by
  decide

/-- C29.  Pending pushes are kept one per peer: when `SendUpdateToNode` is called twice
for the same peer address with no connection event in between, the state is the one the
second call alone would have left, with the second update as the only pending update of
the peer; the first connection-established event for the peer sends the second update
and removes the entry, and a later connection-established event for the peer finds no
pending update, sends nothing and changes nothing.  The first update is never sent. -/
theorem C29_pending_update_overwritten (toIpPort : String → Int → String)
    (SerializeToString : TopicTargetsUpdate → Option (List Byte))
    (octets : String → List Byte) (s : MasterTcpServer) (n1 n2 : NodeInfo)
    (u1 u2 : TopicTargetsUpdate) (message : List Byte)
    (h1 : ¬ (n1.ip = "" ∨ n1.port ≤ 0)) (h2 : ¬ (n2.ip = "" ∨ n2.port ≤ 0))
    (hkey : MasterTcpServer.peer_key toIpPort n1 = MasterTcpServer.peer_key toIpPort n2)
    (hser : SerializeToString u2 = some message) :
    (s.SendUpdateToNode toIpPort n1 u1).SendUpdateToNode toIpPort n2 u2
      = s.SendUpdateToNode toIpPort n2 u2 ∧
    Assoc.find ((s.SendUpdateToNode toIpPort n1 u1).SendUpdateToNode toIpPort n2 u2
        ).pending_updates_ (MasterTcpServer.peer_key toIpPort n2) = some ⟨n2, u2⟩ ∧
    (MasterTcpServer.OnConnection SerializeToString octets
        ((s.SendUpdateToNode toIpPort n1 u1).SendUpdateToNode toIpPort n2 u2)
        (MasterTcpServer.peer_key toIpPort n2) true).2
      = some (MasterTcpServer.OnConnectionBuffer (octets u2.topic) message) ∧
    Assoc.find (MasterTcpServer.OnConnection SerializeToString octets
        ((s.SendUpdateToNode toIpPort n1 u1).SendUpdateToNode toIpPort n2 u2)
        (MasterTcpServer.peer_key toIpPort n2) true).1.pending_updates_
        (MasterTcpServer.peer_key toIpPort n2) = none ∧
    MasterTcpServer.OnConnection SerializeToString octets
        (MasterTcpServer.OnConnection SerializeToString octets
          ((s.SendUpdateToNode toIpPort n1 u1).SendUpdateToNode toIpPort n2 u2)
          (MasterTcpServer.peer_key toIpPort n2) true).1
        (MasterTcpServer.peer_key toIpPort n2) true
      = ((MasterTcpServer.OnConnection SerializeToString octets
          ((s.SendUpdateToNode toIpPort n1 u1).SendUpdateToNode toIpPort n2 u2)
          (MasterTcpServer.peer_key toIpPort n2) true).1, none) := by
  have hs2 : (s.SendUpdateToNode toIpPort n1 u1).SendUpdateToNode toIpPort n2 u2
      = s.SendUpdateToNode toIpPort n2 u2 := by
    simp only [MasterTcpServer.SendUpdateToNode, if_neg h1, if_neg h2, hkey, Assoc.set_set]
  have hfind : Assoc.find (s.SendUpdateToNode toIpPort n2 u2).pending_updates_
      (MasterTcpServer.peer_key toIpPort n2) = some ⟨n2, u2⟩ := by
    simp only [MasterTcpServer.SendUpdateToNode, if_neg h2, Assoc.find_set, if_true]
  have hconn : MasterTcpServer.OnConnection SerializeToString octets
      (s.SendUpdateToNode toIpPort n2 u2) (MasterTcpServer.peer_key toIpPort n2) true
      = ({ s.SendUpdateToNode toIpPort n2 u2 with
            pending_updates_ := Assoc.erase (s.SendUpdateToNode toIpPort n2 u2).pending_updates_
              (MasterTcpServer.peer_key toIpPort n2) },
          some (MasterTcpServer.OnConnectionBuffer (octets u2.topic) message)) := by
    simp only [MasterTcpServer.OnConnection, if_true, hfind, hser]
  rw [hs2, hconn]
  refine ⟨rfl, hfind, rfl, ?_, ?_⟩
  · simp only [Assoc.find_erase, if_true]
  · simp only [MasterTcpServer.OnConnection, if_true, Assoc.find_erase]

/-- C29 for two updates of topic `T` queued for `p1` before its connection is up: the
update that adds `s2` replaces the one that adds `s1`. -/
theorem C29_pending_update_overwritten_witness :
    MasterTcpServer.peer_key (fun ip port => ip ++ ":" ++ toString port) Example.p1
      = "127.0.0.1:60001" ∧
    ((⟨[], []⟩ : MasterTcpServer).SendUpdateToNode (fun ip port => ip ++ ":" ++ toString port)
        Example.p1 ⟨"T", [Example.s1], []⟩).SendUpdateToNode
        (fun ip port => ip ++ ":" ++ toString port) Example.p1 ⟨"T", [Example.s2], []⟩
      = (⟨[], []⟩ : MasterTcpServer).SendUpdateToNode
          (fun ip port => ip ++ ":" ++ toString port) Example.p1 ⟨"T", [Example.s2], []⟩ ∧
    (MasterTcpServer.OnConnection
        (fun u => some (u.add_targets.map (fun n => (Fin.ofNat n.port.toNat : Byte))))
        (fun _ => [84])
        (((⟨[], []⟩ : MasterTcpServer).SendUpdateToNode
          (fun ip port => ip ++ ":" ++ toString port) Example.p1
          ⟨"T", [Example.s1], []⟩).SendUpdateToNode
          (fun ip port => ip ++ ":" ++ toString port) Example.p1 ⟨"T", [Example.s2], []⟩)
        (MasterTcpServer.peer_key (fun ip port => ip ++ ":" ++ toString port) Example.p1)
        true).2
      = some (MasterTcpServer.OnConnectionBuffer [84] [100]) :=
  ⟨by decide,
    (C29_pending_update_overwritten (fun ip port => ip ++ ":" ++ toString port)
      (fun u => some (u.add_targets.map (fun n => (Fin.ofNat n.port.toNat : Byte))))
      (fun _ => [84]) ⟨[], []⟩ Example.p1 Example.p1 ⟨"T", [Example.s1], []⟩
      ⟨"T", [Example.s2], []⟩ [100] (by decide) (by decide) rfl (by decide)).1,
    (C29_pending_update_overwritten (fun ip port => ip ++ ":" ++ toString port)
      (fun u => some (u.add_targets.map (fun n => (Fin.ofNat n.port.toNat : Byte))))
      (fun _ => [84]) ⟨[], []⟩ Example.p1 Example.p1 ⟨"T", [Example.s1], []⟩
      ⟨"T", [Example.s2], []⟩ [100] (by decide) (by decide) rfl (by decide)).2.2.1⟩

end SimpleRos
